import Mathlib

/-!
# esp32s3-keyboard: power state machine, trackpoint driver and scan loop

A shallow embedding of `main/keyboard_pm.c` and `main/keyboard.c`.

Conventions used throughout:

* C unsigned 32-bit values (`uint`, `uint32_t`) are natural numbers reduced
  modulo `2^32` where the C code can wrap; `int8_t` values are integers
  reduced into `-128 .. 127` by `wrap_int8`.
* Hardware inputs, timer readings and the answers of library calls are fields
  of an explicit environment record, one record per call of the embedded
  function.
* Calls into the transports, the radio layer and the drivers are recorded as
  events, returned next to the new state in program order.
* Reading past the end of the five-entry table `pm_cfg` has no defined
  meaning in C; the embedding returns `none` there.
-/

namespace Kb

/-! ## keyboard_pm.h / keyboard_pm.c -/

/-- Power state configuration record `kb_pm_state_t`. -/
structure kb_pm_state_t where
  kb_int_us : Nat
  ble_int_cnt : Nat
  duration_us : Nat
  is_sleep : Bool
deriving DecidableEq, Repr

/-- Enumerators of `kb_pm_t`, in declaration order. -/
def PM_IDLE_LONG_TIME : Nat := 0
def PM_IDLE_SHORT_TIME : Nat := 1
def PM_KB_ACTIVE : Nat := 2
def PM_KB_TP_ACTIVE : Nat := 3
def PM_CHARGING : Nat := 4

/-- Modulus of the 32-bit unsigned type `uint`. -/
def UINT_MOD : Nat := 4294967296

/-- The table `pm_cfg`; `.duration_us = -1` is stored in a `uint32_t`. -/
def pm_cfg : List kb_pm_state_t :=
  [ { kb_int_us := 25000, ble_int_cnt := 800, duration_us := 4294967295, is_sleep := true },
    { kb_int_us := 5000, ble_int_cnt := 32, duration_us := 120000000, is_sleep := true },
    { kb_int_us := 5000, ble_int_cnt := 20, duration_us := 420000000, is_sleep := true },
    { kb_int_us := 5000, ble_int_cnt := 10, duration_us := 120000000, is_sleep := false },
    { kb_int_us := 2000, ble_int_cnt := 10, duration_us := 60000000, is_sleep := false } ]

def nr_pm_states : Nat := pm_cfg.length

/-- Calls made by the power module into the radio layer and the sleep driver. -/
inductive PmEvent where
  | gap_update_conn_params (min_int max_int : Nat)
  | pm_configure (light_sleep_enable : Bool)
deriving DecidableEq, Repr

/-- The mutable globals of `keyboard_pm.c`: `curr_pm_state`, `last_pm_timestamp`,
`is_pm_increase_rapid`, `ble_conn_param.min_int`, `ble_conn_param.max_int` and
`esp_idf_pm_cfg.light_sleep_enable`. -/
structure PmState where
  curr_pm_state : Nat
  last_pm_timestamp : Nat
  is_pm_increase_rapid : Bool
  min_int : Nat
  max_int : Nat
  light_sleep_enable : Bool
deriving DecidableEq, Repr

/-- What one call of `flush_power_state` reads from outside: whether
`xSemaphoreTake` returned `pdTRUE`, the value of `esp_timer_get_time()`, the two
readings of `CHARGING_STATE` (the branch at the top and the one inside the
rapid-wait expression), the flag `is_ble_connected`, and whether
`esp_ble_gap_update_conn_params` returned `ESP_OK`. -/
structure FlushEnv where
  lock_taken : Bool
  timer : Nat
  charging : Nat
  charging_again : Nat
  ble_connected : Bool
  gap_ok : Bool
deriving DecidableEq, Repr

/-- The function `update_ble_and_pm`. The two interval fields of `ble_conn_param` are
16 bits wide. -/
def update_ble_and_pm (env : FlushEnv) (s : PmState) (new_pm_state : Nat) :
    Option (PmState × List PmEvent) :=
  match pm_cfg[new_pm_state]? with
  | none => none
  | some c =>
    let r1 : PmState × List PmEvent :=
      if env.ble_connected && (c.ble_int_cnt != s.min_int) then
        let lastint := s.min_int
        let pushed : PmState :=
          { s with min_int := c.ble_int_cnt % 65536, max_int := c.ble_int_cnt % 65536 }
        let ev := [PmEvent.gap_update_conn_params pushed.min_int pushed.max_int]
        if env.gap_ok then (pushed, ev)
        else ({ pushed with min_int := lastint, max_int := lastint }, ev)
      else (s, [])
    if r1.1.light_sleep_enable != c.is_sleep then
      some ({ r1.1 with light_sleep_enable := c.is_sleep },
        r1.2 ++ [PmEvent.pm_configure c.is_sleep])
    else some r1

/-- The C expression `currtime - last_pm_timestamp` on `uint` operands. -/
def diff_time (currtime last : Nat) : Nat :=
  (currtime % UINT_MOD + UINT_MOD - last % UINT_MOD) % UINT_MOD

/-- The function `flush_power_state`. -/
def flush_power_state (env : FlushEnv) (s : PmState) (new_pm_state : Nat) :
    Option (PmState × List PmEvent) :=
  if env.lock_taken = false then some (s, [])
  else
    let currtime := env.timer % UINT_MOD
    let sel : Nat × Nat :=
      if env.charging ≠ 0 then (PM_CHARGING, currtime)
      else if new_pm_state < s.curr_pm_state then (s.curr_pm_state - 1, s.last_pm_timestamp)
      else (new_pm_state, currtime)
    let rapid : Bool :=
      (env.charging_again == 0)
        && ((s.curr_pm_state == PM_IDLE_SHORT_TIME && sel.1 == PM_KB_TP_ACTIVE)
          || (s.curr_pm_state == PM_IDLE_LONG_TIME && decide (PM_KB_ACTIVE ≤ sel.1)))
    let s1 : PmState := { s with last_pm_timestamp := sel.2, is_pm_increase_rapid := rapid }
    let apply : Option (PmState × List PmEvent) :=
      (update_ble_and_pm env s1 sel.1).map
        (fun r => ({ r.1 with curr_pm_state := sel.1, last_pm_timestamp := currtime }, r.2))
    if s.curr_pm_state < sel.1 then apply
    else
      match pm_cfg[s.curr_pm_state]? with
      | none => none
      | some c =>
        if c.duration_us < diff_time currtime s1.last_pm_timestamp then apply
        else some (s1, [])

/-- The function `get_kb_scan_interval_us`: a 32-bit product, then an integer division. -/
def get_kb_scan_interval_us (s : PmState) : Option Nat :=
  (pm_cfg[s.curr_pm_state]?).map (fun c => (c.kb_int_us * 5 % UINT_MOD) / 6)

/-- The function `pm_should_wait`. -/
def pm_should_wait (s : PmState) : Bool := s.is_pm_increase_rapid

/-! ## keyboard.c: trackpoint polling -/

/-- Conversion of an integer to `int8_t` (two's complement, as the compiler does it). -/
def wrap_int8 (x : Int) : Int := (x + 128) % 256 - 128

/-- The value of a received byte read as a signed 8-bit quantity. -/
def byte_to_int8 (b : Nat) : Int := wrap_int8 (b % 256)

/-- The answer of one `uart_read_bytes` call: an error (`-1`) or the bytes delivered. -/
inductive UartRead where
  | error
  | bytes (bs : List Nat)
deriving DecidableEq, Repr

/-- The call `uart_read_bytes(UART_NUM_1, buf, length, ticks)`: the return value and the
bytes stored; never more than `length` bytes are stored. -/
def uart_read_bytes (answer : UartRead) (length : Nat) : Int × List Nat :=
  match answer with
  | UartRead.error => (-1, [])
  | UartRead.bytes bs => (((bs.take length).length : Nat), bs.take length)

/-- Everything the scan loop and the trackpoint driver do to the outside world. -/
inductive KbEvent where
  | delay (ticks : Nat)
  | uart_select (timeout_us : Nat)
  | uart_close
  | uart_open (fd : Int)
  | uart_read (length : Nat) (ret : Int)
  | uart_flush
  | power_request (level : Nat)
  | pm (e : PmEvent)
  | usb_mouse (buttons : Nat) (dx dy vertical horizontal : Int)
  | ble_mouse (buttons : Nat) (dx dy vertical horizontal : Int)
  | usb_keyboard (hidbuf : List Nat)
  | ble_keyboard (hidbuf : List Nat)
  | usb_consumer (code : Nat)
  | ble_consumer (code : Nat)
  | column_select (n : Nat)
  | row_read (j : Nat) (level : Nat)
  | backlight (lit : Bool)
  | led_caplk (lit : Bool)
  | led_numlk (lit : Bool)
  | led_f1 (lit : Bool)
  | reset_pin (level : Nat)
  | ps2_write (variant : Nat) (ch : Nat)
  | ps2_read (res : Nat)
deriving DecidableEq, Repr

/-- The locals `buttons`, `dx`, `dy` and `is_recv` of `poll_trackpoint`; `buttons` holds the
bit pattern of the `int8_t`. -/
structure Sample where
  buttons : Nat
  dx : Int
  dy : Int
  is_recv : Bool
deriving DecidableEq, Repr

/-- The statements `buttons |= mousebuf[0]; dx += mousebuf[1], dy -= mousebuf[2];
is_recv = true;`. Plain `char` is unsigned on this target; the results are the same modulo
256 with a signed `char`. -/
def accumulate (acc : Sample) (mousebuf : List Nat) : Sample :=
  { buttons := (acc.buttons ||| (mousebuf.getD 0 0 % 256)) % 256,
    dx := wrap_int8 (acc.dx + ((mousebuf.getD 1 0 % 256 : Nat) : Int)),
    dy := wrap_int8 (acc.dy - ((mousebuf.getD 2 0 % 256 : Nat) : Int)),
    is_recv := true }

/-- The loop `while (1)` of `poll_trackpoint` that parses the PS2 packets. The list holds,
for each turn of the loop, the answer to the 3-byte read and the answer to the read of the
remaining bytes (looked at only when the first answer is short); once the list is used up
the read times out and returns 0. The result is the sample, the driver calls made, and the
answers never asked for. -/
def parse_packets :
    List (UartRead × UartRead) → Sample → Sample × List KbEvent × List (UartRead × UartRead)
  | [], acc => (acc, [KbEvent.uart_read 3 0], [])
  | (first, retry) :: rest, acc =>
    let r1 := uart_read_bytes first 3
    if 0 < r1.1 then
      let r2 : Int × List Nat :=
        if r1.1 < 3 then uart_read_bytes retry (3 - r1.1.toNat) else (0, [])
      let evs : List KbEvent :=
        if r1.1 < 3 then
          [KbEvent.uart_read 3 r1.1, KbEvent.uart_read (3 - r1.1.toNat) r2.1]
        else [KbEvent.uart_read 3 r1.1]
      let nrrd := r1.1 + r2.1
      if nrrd = 3 then
        let r := parse_packets rest (accumulate acc (r1.2 ++ r2.2))
        (r.1, evs ++ r.2.1, r.2.2)
      else
        ({ buttons := 0, dx := 0, dy := 0, is_recv := false },
          evs ++ [KbEvent.uart_flush], rest)
    else (acc, [KbEvent.uart_read 3 r1.1], rest)

def MOUSE_SCALE_MIN : Int := 1

/-- The statement pair under `SCALE_TRACKPOINT_SPEED` for one axis:
`if (d > MOUSE_SCALE_MIN) d += (d-MOUSE_SCALE_MIN) * 2;
else if (d < -MOUSE_SCALE_MIN) d += (d+MOUSE_SCALE_MIN) * 2;` on an `int8_t`. -/
def scale_trackpoint_speed (d : Int) : Int :=
  if MOUSE_SCALE_MIN < d then wrap_int8 (d + (d - MOUSE_SCALE_MIN) * 2)
  else if d < -MOUSE_SCALE_MIN then wrap_int8 (d + (d + MOUSE_SCALE_MIN) * 2)
  else d

/-- The mutable globals of `keyboard.c`, the static `lasttime` of `poll_trackpoint`, the
locals of `keyboard_task` that live across turns of its loop, and the power module. -/
structure KbState where
  uart1_fd : Int
  wakeup_time : Nat
  is_backlight_on : Bool
  backlight_start_time : Nat
  is_caplk_on : Bool
  is_numlk_on : Bool
  lasttime : Nat
  lasthid : List Nat
  lasthotkey : Nat
  lastfnfunc : Nat
  pm : PmState
deriving DecidableEq, Repr

/-- What one call of `poll_trackpoint` reads from outside: the return value of `select`,
the inputs of the nested `flush_power_state` call, the flags `is_usb_connected` and
`is_ble_connected`, the timer reading stored in `wakeup_time`, the answers of the UART
driver, the timer reading `currtime`, and the level `BUTTON_FN_STATE`. -/
structure PollEnv where
  select_ret : Int
  flush : FlushEnv
  usb_connected : Bool
  ble_connected : Bool
  timer_wakeup : Nat
  uart : List (UartRead × UartRead)
  timer_end : Nat
  button_fn : Nat
deriving DecidableEq, Repr

/-- The mouse report call at the end of `poll_trackpoint`: USB first, BLE otherwise. -/
def send_mouse (usb ble : Bool) (buttons : Nat) (dx dy vertical horizontal : Int) :
    List KbEvent :=
  if usb then [KbEvent.usb_mouse buttons dx dy vertical horizontal]
  else if ble then [KbEvent.ble_mouse buttons dx dy vertical horizontal]
  else []

/-- The block of `poll_trackpoint` under `#else` (`USE_FN_TRACKPOINT_PAN` defined): panning
while the FN button is down, speed scaling otherwise, then the mouse report call. `buttons`
is the value after `buttons &= 0b00000111`. -/
def mouse_report (env : PollEnv) (buttons : Nat) (dx dy : Int) : List KbEvent :=
  if env.button_fn = 0 then
    let pan_x : Int := if 0 < dx then 1 else if dx < 0 then -1 else 0
    let pan_y : Int := if dy < 0 then 1 else if 0 < dy then -1 else 0
    send_mouse env.usb_connected env.ble_connected buttons 0 0 pan_y pan_x
  else
    send_mouse env.usb_connected env.ble_connected buttons
      (scale_trackpoint_speed dx) (scale_trackpoint_speed dy) 0 0

/-- The tail of `poll_trackpoint` from `uint currtime = esp_timer_get_time();` on, compiled
with `USE_FN_TRACKPOINT_PAN` and `SCALE_TRACKPOINT_SPEED`. -/
def poll_finish (env : PollEnv) (s : KbState) (smp : Sample) : KbState × List KbEvent :=
  let currtime := env.timer_end % UINT_MOD
  let buttons := smp.buttons &&& 7
  if smp.is_recv then
    let report := mouse_report env buttons smp.dx smp.dy
    if s.is_backlight_on then
      ({ s with backlight_start_time := currtime, lasttime := currtime },
        report ++ [KbEvent.backlight true])
    else ({ s with lasttime := currtime }, report)
  else (s, [])

/-- The function `poll_trackpoint`; `tick_ms` is `portTICK_PERIOD_MS`. -/
def poll_trackpoint (tick_ms : Nat) (env : PollEnv) (s : KbState) (poll_us : Nat) :
    Option (KbState × List KbEvent) :=
  if s.uart1_fd < 0 then
    some (s, [KbEvent.delay (poll_us / 1000 / tick_ms)])
  else
    let start : Sample := { buttons := 0, dx := 0, dy := 0, is_recv := false }
    if env.select_ret < 0 then
      let r := poll_finish env { s with uart1_fd := -1 } start
      some (r.1, [KbEvent.uart_select poll_us, KbEvent.uart_close] ++ r.2)
    else if env.select_ret ≠ 0 then
      match flush_power_state env.flush s.pm PM_KB_TP_ACTIVE with
      | none => none
      | some (pm1, pevs) =>
        let s1 : KbState :=
          if env.ble_connected && !env.usb_connected && pm_should_wait pm1 then
            { s with pm := pm1, wakeup_time := env.timer_wakeup % UINT_MOD }
          else { s with pm := pm1 }
        let p := parse_packets env.uart start
        let r := poll_finish env s1 p.1
        some (r.1,
          [KbEvent.uart_select poll_us, KbEvent.power_request PM_KB_TP_ACTIVE]
            ++ pevs.map KbEvent.pm ++ p.2.1 ++ r.2)
    else
      let r := poll_finish env s start
      some (r.1, [KbEvent.uart_select poll_us] ++ r.2)

/-! ## keyboard.c: trackpoint initialisation -/

/-- What `init_trackpad` reads from outside: the byte returned by the `k`-th call of
`ps2_read` (counted from 0), and the descriptor returned by `open("/dev/uart/1", O_RDWR)`.
The bit-level functions `ps2_write_1`, `ps2_write_2` and `ps2_read` are taken here as calls
that return; their waits on the clock line are not part of this embedding. -/
structure InitEnv where
  ps2_answers : Nat → Nat
  open_fd : Int

/-- The five steps of one initialisation round, each a delay in milliseconds followed by
the command byte written: reset, reset, set sample rate, rate 80, enable data reporting. -/
def init_round_steps : List (Nat × Nat) :=
  [(70, 0xff), (70, 0xff), (70, 0xf3), (3, 0x50), (3, 0xf4)]

/-- The body of the loop `for (nrtry = 0; nrtry < 5; nrtry++)` of `init_trackpad`, from step
`steps` on: `vTaskDelay; ps2_write(ch); if (ps2_read() != 0xfa) continue;` and `break` after
the last step. The result tells whether the `break` was reached, the calls made, and the
number of `ps2_read` calls made so far. -/
def init_round (tick_ms variant : Nat) (answers : Nat → Nat) :
    List (Nat × Nat) → Nat → Bool × List KbEvent × Nat
  | [], k => (true, [], k)
  | (ms, ch) :: more, k =>
    let res := answers k % 256
    let evs := [KbEvent.delay (ms / tick_ms), KbEvent.ps2_write variant ch, KbEvent.ps2_read res]
    if res ≠ 0xfa then (false, evs, k + 1)
    else
      let r := init_round tick_ms variant answers more (k + 1)
      (r.1, evs ++ r.2.1, r.2.2)

/-- The loop `for (nrtry = 0; nrtry < 5; nrtry++)` with `left` turns to go. The result is
the final value of `nrtry`, the calls made, and the number of `ps2_read` calls made so far. -/
def init_rounds (tick_ms variant : Nat) (answers : Nat → Nat) :
    Nat → Nat → Nat → Nat × List KbEvent × Nat
  | 0, nrtry, k => (nrtry, [], k)
  | left + 1, nrtry, k =>
    let r := init_round tick_ms variant answers init_round_steps k
    if r.1 then (nrtry, r.2.1, r.2.2)
    else
      let q := init_rounds tick_ms variant answers left (nrtry + 1) r.2.2
      (q.1, r.2.1 ++ q.2.1, q.2.2)

/-- The function `init_trackpad`; `ps2_write` is `ps2_write_1` (variant 1) until the first
answer is not `0xfa`, then `ps2_write_2` (variant 2). On success the UART driver is set up
and `uart1_fd` receives the result of `open`. -/
def init_trackpad (tick_ms : Nat) (env : InitEnv) (s : KbState) : KbState × List KbEvent :=
  let ret := env.ps2_answers 0 % 256
  let variant := if ret ≠ 0xfa then 2 else 1
  let head : List KbEvent :=
    [KbEvent.reset_pin 1, KbEvent.delay (10 / tick_ms), KbEvent.reset_pin 0,
     KbEvent.delay (70 / tick_ms), KbEvent.ps2_write 1 0xff, KbEvent.ps2_read ret]
  let r := init_rounds tick_ms variant env.ps2_answers 5 0 1
  if r.1 < 5 then
    ({ s with uart1_fd := env.open_fd }, head ++ r.2.1 ++ [KbEvent.uart_open env.open_fd])
  else (s, head ++ r.2.1)

/-- A sequence of `poll_trackpoint` calls, each with its own inputs and poll time. -/
def run_polls (tick_ms : Nat) :
    List (PollEnv × Nat) → KbState → Option (KbState × List KbEvent)
  | [], s => some (s, [])
  | (env, poll_us) :: more, s =>
    match poll_trackpoint tick_ms env s poll_us with
    | none => none
    | some (s1, evs1) =>
      match run_polls tick_ms more s1 with
      | none => none
      | some (s2, evs2) => some (s2, evs1 ++ evs2)

/-! ## keymap.c -/

/-- The record `keytable_t` of `keymap.h` (a header that is not among the sources), with the
fields that `keymap.c` reads and the initialisers of `keymap-e580.c` fill, in order. -/
structure keytable_t where
  scan1 : Nat
  scan2 : Nat
  ch : Nat
  hidcode : Nat
deriving DecidableEq, Repr

/-- The record `fn_keytable_t` of `keymap.h`, likewise. -/
structure fn_keytable_t where
  scan1 : Nat
  scan2 : Nat
  hidcode : Nat
  fncode : Nat
deriving DecidableEq, Repr

/-- The 16-bit value `scan1 | (scan2 << 8)`. -/
def cmbcode (scan1 scan2 : Nat) : Nat := (scan1 ||| (scan2 <<< 8)) % 65536

/-- The function `search_hid_key` over the table `kbtbl`: the code of the first entry whose
two scan bytes, read as one 16-bit value, equal `cmbcode`, or `-1`. -/
def search_hid_key (kbtbl : List keytable_t) (scan1 scan2 : Nat) : Int :=
  match kbtbl.find? (fun e => (e.scan1 % 256 ||| ((e.scan2 % 256) <<< 8)) == cmbcode scan1 scan2) with
  | some e => (e.hidcode : Int)
  | none => -1

/-- The function `search_fn` over the table `fntbl`: the first matching entry, or null. -/
def search_fn (fntbl : List fn_keytable_t) (scan1 scan2 : Nat) : Option fn_keytable_t :=
  fntbl.find? (fun e => (e.scan1 % 256 ||| ((e.scan2 % 256) <<< 8)) == cmbcode scan1 scan2)

/-! ## keyboard.c: the scan loop -/

/-- What the build takes from headers that are not among the sources (`keymap.h`, the
FreeRTOS configuration) and the keymap selected at compile time. -/
structure Board where
  portTICK_PERIOD_MS : Nat
  KEY_LEFTCTRL : Nat
  KEY_RIGHTMETA : Nat
  KEY_CAPSLOCK : Nat
  KEY_NUMLOCK : Nat
  FN_NOP : Nat
  FN_FNLOCK : Nat
  FN_BACKLIGHT : Nat
  kbtbl : List keytable_t
  fntbl : List fn_keytable_t
deriving Repr

/-- What one turn of the loop of `keyboard_task` reads from outside: the two connection
flags (one reading for the whole turn; each poll has its own), the level of row line `j`
read in column turn `i`, the level `BUTTON_FN_STATE` read for that cell, the inputs of the
poll of column turn `i`, the timer reading `currtime`, the inputs of the
`flush_power_state` call, and the timer reading taken by `do_fnfunc`. -/
structure CycleEnv where
  usb_connected : Bool
  ble_connected : Bool
  row : Nat → Nat → Nat
  button_fn : Nat → Nat → Nat
  polls : Nat → PollEnv
  timer : Nat
  flush : FlushEnv
  timer_fn : Nat

/-- The locals `is_key_pressed`, `hid` (as the eight bytes of `hidbuf`), `hotkey` and
`fnfunc` of `keyboard_task`. -/
structure ScanAcc where
  is_key_pressed : Bool
  hid : List Nat
  hotkey : Nat
  fnfunc : Nat
deriving DecidableEq, Repr

/-- The value `hid = 0`. -/
def hid_zero : List Nat := [0, 0, 0, 0, 0, 0, 0, 0]

/-- The locals at the top of a turn of the loop. -/
def scan_start (b : Board) : ScanAcc :=
  { is_key_pressed := false, hid := hid_zero, hotkey := 0, fnfunc := b.FN_NOP }

/-- The body of the loop over `j` for the cell `(i, j)`, given the level of the row line
and the level of the FN button. -/
def scan_cell (b : Board) (row_level fn_level i j : Nat) (a : ScanAcc) : ScanAcc :=
  if row_level = 0 then
    if fn_level ≠ 0 then
      let hidkey := search_hid_key b.kbtbl i j
      if 0 < hidkey then
        let a1 : ScanAcc :=
          if (b.KEY_LEFTCTRL : Int) ≤ hidkey ∧ hidkey ≤ (b.KEY_RIGHTMETA : Int) then
            { a with
              hid := List.set a.hid 0
                ((List.getD a.hid 0 0 ||| (1 <<< (hidkey.toNat &&& 7))) % 256) }
          else if a.is_key_pressed = false then
            { a with hid := List.set a.hid 2 (hidkey.toNat % 256), is_key_pressed := true }
          else a
        { a1 with hotkey := 0 }
      else a
    else
      match search_fn b.fntbl i j with
      | some fnitem =>
        { is_key_pressed := true, hotkey := fnitem.hidcode % 65536, fnfunc := fnitem.fncode,
          hid := hid_zero }
      | none => a
  else a

/-- The loop over the 18 row lines in column turn `i`. -/
def scan_rows (b : Board) (env : CycleEnv) (i : Nat) (a : ScanAcc) : ScanAcc :=
  (List.range 18).foldl (fun acc j => scan_cell b (env.row i j) (env.button_fn i j) i j acc) a

/-- The row line reads of column turn `i`. -/
def row_events (env : CycleEnv) (i : Nat) : List KbEvent :=
  (List.range 18).map (fun j => KbEvent.row_read j (env.row i j))

/-- The loop `for (int i = 0; i < 8; i++)` over the column turns in `cols`: the row scan,
then `kb_set_column_scan(i)`, then `poll_trackpoint(get_kb_scan_interval_us())`. -/
def scan_columns (b : Board) (env : CycleEnv) :
    List Nat → ScanAcc → KbState → Option (ScanAcc × KbState × List KbEvent)
  | [], a, s => some (a, s, [])
  | i :: more, a, s =>
    match get_kb_scan_interval_us s.pm with
    | none => none
    | some poll_us =>
      match poll_trackpoint b.portTICK_PERIOD_MS (env.polls i) s poll_us with
      | none => none
      | some (s1, pevs) =>
        match scan_columns b env more (scan_rows b env i a) s1 with
        | none => none
        | some (a2, s2, evs) =>
          some (a2, s2, row_events env i ++ [KbEvent.column_select i] ++ pevs ++ evs)

/-- The function `do_fnfunc`, compiled without `FN_SWITCH_TRACKPOINT_MIDPOINT`. -/
def do_fnfunc (b : Board) (timer : Nat) (fncode : Nat) (s : KbState) :
    KbState × List KbEvent :=
  if fncode = b.FN_FNLOCK then (s, [])
  else if fncode = b.FN_BACKLIGHT then
    if s.is_backlight_on then ({ s with is_backlight_on := false }, [KbEvent.backlight false])
    else
      ({ s with is_backlight_on := true, backlight_start_time := timer % UINT_MOD },
        [KbEvent.backlight true])
  else (s, [])

def wakeup_period_us : Nat := 15000000

/-- The keyboard report call of `keyboard_task`: USB first, BLE otherwise. -/
def send_keyboard (usb ble : Bool) (hidbuf : List Nat) : List KbEvent :=
  if usb then [KbEvent.usb_keyboard hidbuf]
  else if ble then [KbEvent.ble_keyboard hidbuf]
  else []

/-- The consumer report call of `keyboard_task`: USB first, BLE otherwise. -/
def send_consumer (usb ble : Bool) (hotkey : Nat) : List KbEvent :=
  if usb then [KbEvent.usb_consumer hotkey]
  else if ble then [KbEvent.ble_consumer hotkey]
  else []

/-- The statements of `keyboard_task` from `uint currtime = esp_timer_get_time();` to the
end of `if (is_key_pressed) ... else ...`. -/
def cycle_power (env : CycleEnv) (a : ScanAcc) (s : KbState) :
    Option (KbState × List KbEvent) :=
  let currtime := env.timer % UINT_MOD
  if a.is_key_pressed then
    match flush_power_state env.flush s.pm PM_KB_ACTIVE with
    | none => none
    | some (pm1, pevs) =>
      let s1 : KbState :=
        if env.ble_connected && !env.usb_connected && pm_should_wait pm1 then
          { s with pm := pm1, wakeup_time := currtime }
        else { s with pm := pm1 }
      if s1.is_backlight_on then
        some ({ s1 with backlight_start_time := currtime },
          [KbEvent.power_request PM_KB_ACTIVE] ++ pevs.map KbEvent.pm
            ++ [KbEvent.backlight true])
      else some (s1, [KbEvent.power_request PM_KB_ACTIVE] ++ pevs.map KbEvent.pm)
  else
    match flush_power_state env.flush s.pm PM_IDLE_LONG_TIME with
    | none => none
    | some (pm1, pevs) =>
      some ({ s with pm := pm1 },
        [KbEvent.power_request PM_IDLE_LONG_TIME] ++ pevs.map KbEvent.pm)

/-- The statements `if (hid != lasthid) ... lasthid = hid;`. -/
def cycle_keyboard (b : Board) (env : CycleEnv) (a : ScanAcc) (s : KbState) :
    KbState × List KbEvent :=
  if a.hid ≠ s.lasthid then
    let rep := send_keyboard env.usb_connected env.ble_connected a.hid
    if a.hid.getD 2 0 = b.KEY_CAPSLOCK then
      if s.is_caplk_on then
        ({ s with is_caplk_on := false, lasthid := a.hid }, rep ++ [KbEvent.led_caplk false])
      else ({ s with is_caplk_on := true, lasthid := a.hid }, rep ++ [KbEvent.led_caplk true])
    else if a.hid.getD 2 0 = b.KEY_NUMLOCK then
      if s.is_numlk_on then
        ({ s with is_numlk_on := false, lasthid := a.hid }, rep ++ [KbEvent.led_numlk false])
      else ({ s with is_numlk_on := true, lasthid := a.hid }, rep ++ [KbEvent.led_numlk true])
    else ({ s with lasthid := a.hid }, rep)
  else ({ s with lasthid := a.hid }, [])

/-- The statements `if (hotkey != lasthotkey) ... lasthotkey = hotkey;`. -/
def cycle_consumer (env : CycleEnv) (a : ScanAcc) (s : KbState) : KbState × List KbEvent :=
  if a.hotkey ≠ s.lasthotkey then
    ({ s with lasthotkey := a.hotkey },
      send_consumer env.usb_connected env.ble_connected a.hotkey)
  else ({ s with lasthotkey := a.hotkey }, [])

/-- The statements `if (fnfunc != lastfnfunc) do_fnfunc(fnfunc); lastfnfunc = fnfunc;`. -/
def cycle_fnfunc (b : Board) (env : CycleEnv) (a : ScanAcc) (s : KbState) :
    KbState × List KbEvent :=
  if a.fnfunc ≠ s.lastfnfunc then
    let r := do_fnfunc b env.timer_fn a.fnfunc s
    ({ r.1 with lastfnfunc := a.fnfunc }, r.2)
  else ({ s with lastfnfunc := a.fnfunc }, [])

/-- The last statement of the loop body: the dummy reports sent over BLE while
`currtime - wakeup_time < wakeup_period_us`. -/
def cycle_keepalive (env : CycleEnv) (s : KbState) : List KbEvent :=
  if env.ble_connected = true ∧ env.usb_connected = false
      ∧ diff_time (env.timer % UINT_MOD) s.wakeup_time < wakeup_period_us then
    [KbEvent.led_f1 true, KbEvent.ble_keyboard hid_zero, KbEvent.ble_mouse 0 0 0 0 0]
  else [KbEvent.led_f1 false]

/-- One turn of the loop `while (1)` of `keyboard_task`. -/
def keyboard_task_turn (b : Board) (env : CycleEnv) (s : KbState) :
    Option (KbState × List KbEvent) :=
  if env.usb_connected = false ∧ env.ble_connected = false then
    match flush_power_state env.flush s.pm PM_IDLE_LONG_TIME with
    | none => none
    | some (pm1, pevs) =>
      some ({ s with pm := pm1 },
        [KbEvent.delay 2000, KbEvent.power_request PM_IDLE_LONG_TIME] ++ pevs.map KbEvent.pm)
  else
    match scan_columns b env (List.range 8) (scan_start b) s with
    | none => none
    | some (a, s1, evs1) =>
      match cycle_power env a s1 with
      | none => none
      | some (s2, evs2) =>
        let r3 := cycle_keyboard b env a s2
        let r4 := cycle_consumer env a r3.1
        let r5 := cycle_fnfunc b env a r4.1
        some (r5.1, evs1 ++ evs2 ++ r3.2 ++ r4.2 ++ r5.2 ++ cycle_keepalive env r5.1)

/-! ## Vocabulary of the statements about the trackpoint driver -/

/-- Calls of a mouse report sink, `tinyusb_hid_mouse_report` or `esp_hidd_send_mouse_value`. -/
def KbEvent.is_mouse : KbEvent → Bool
  | KbEvent.usb_mouse _ _ _ _ _ => true
  | KbEvent.ble_mouse _ _ _ _ _ => true
  | _ => false

/-- A turn of the parsing loop that receives the complete packet `pkt`: three bytes on the
first read, or one or two bytes first and the remaining ones on the second read. -/
def delivers (turn : UartRead × UartRead) (pkt : Nat × Nat × Nat) : Prop :=
  turn.1 = UartRead.bytes [pkt.1, pkt.2.1, pkt.2.2]
  ∨ (turn.1 = UartRead.bytes [pkt.1] ∧ turn.2 = UartRead.bytes [pkt.2.1, pkt.2.2])
  ∨ (turn.1 = UartRead.bytes [pkt.1, pkt.2.1] ∧ turn.2 = UartRead.bytes [pkt.2.2])

/-- The rest of the driver answers starts with an empty read (nothing, or an error). -/
def starts_empty (script : List (UartRead × UartRead)) : Prop :=
  match script with
  | [] => True
  | turn :: _ => (uart_read_bytes turn.1 3).1 ≤ 0

/-- Bitwise OR of the button bytes of a list of packets. -/
def buttons_or : List (Nat × Nat × Nat) → Nat
  | [] => 0
  | p :: ps => p.1 ||| buttons_or ps

/-- Sum of the X bytes of a list of packets, each read as a signed 8-bit value. -/
def dx_sum (pkts : List (Nat × Nat × Nat)) : Int :=
  (pkts.map (fun p => byte_to_int8 p.2.1)).sum

/-- Sum of the Y bytes of a list of packets, each read as a signed 8-bit value. -/
def dy_sum (pkts : List (Nat × Nat × Nat)) : Int :=
  (pkts.map (fun p => byte_to_int8 p.2.2)).sum

/-- Every byte of every packet is below 256. -/
def bytes_ok (pkts : List (Nat × Nat × Nat)) : Prop :=
  ∀ p ∈ pkts, p.1 < 256 ∧ p.2.1 < 256 ∧ p.2.2 < 256

/-- The locals of `poll_trackpoint` before the parsing loop. -/
def sample_start : Sample := { buttons := 0, dx := 0, dy := 0, is_recv := false }

/-- The sample after the packets `pkts` have been accumulated one after the other. -/
def acc_all (acc : Sample) : List (Nat × Nat × Nat) → Sample
  | [] => acc
  | p :: ps => acc_all (accumulate acc [p.1, p.2.1, p.2.2]) ps

/-- A turn of the parsing loop whose first read delivers one or two bytes and whose second
read (an error, or too few bytes) leaves the packet incomplete. -/
def short_turn (turn : UartRead × UartRead) : Prop :=
  ∃ bs, turn.1 = UartRead.bytes bs ∧ 0 < bs.length ∧ bs.length < 3
    ∧ (turn.2 = UartRead.error ∨ ∃ bs2, turn.2 = UartRead.bytes bs2 ∧ bs.length + bs2.length < 3)

/-- The scaling of one axis in the words of the specification: `d` is kept when its
magnitude is at most 1, otherwise `(magnitude - 1) * 2` is added in the direction of `d`. -/
def scaling_spec (d : Int) : Int :=
  if d.natAbs ≤ 1 then d else if 1 < d then d + (d - 1) * 2 else d + (d + 1) * 2

/-- The power module as its static initialisers leave it; the two interval fields of the
external `ble_conn_param` are parameters. -/
def pm_initial (min_int max_int : Nat) : PmState :=
  { curr_pm_state := PM_IDLE_LONG_TIME, last_pm_timestamp := 0, is_pm_increase_rapid := false,
    min_int := min_int, max_int := max_int, light_sleep_enable := false }

/-- The globals of `keyboard.c` as their static initialisers leave them, with the locals
`lasthid = 0`, `lasthotkey = 0` and `lastfnfunc = FN_NOP` of `keyboard_task`; the value of
`FN_NOP` is a parameter. -/
def kb_initial (min_int max_int fn_nop : Nat) : KbState :=
  { uart1_fd := -1, wakeup_time := 0, is_backlight_on := false, backlight_start_time := 0,
    is_caplk_on := false, is_numlk_on := false, lasttime := 0,
    lasthid := [0, 0, 0, 0, 0, 0, 0, 0], lasthotkey := 0, lastfnfunc := fn_nop,
    pm := pm_initial min_int max_int }

/-- A poll in which `select` reports input and the UART driver gives the answers `uart`,
on a quiet board: lock free, not charging, only the USB link up, FN key at level `fn`. -/
def poll_env_usb (uart : List (UartRead × UartRead)) (fn : Nat) : PollEnv :=
  { select_ret := 1,
    flush := { lock_taken := true, timer := 1000, charging := 0, charging_again := 0,
               ble_connected := false, gap_ok := true },
    usb_connected := true, ble_connected := false, timer_wakeup := 1000, uart := uart,
    timer_end := 1000, button_fn := fn }

/-! ## Vocabulary of the statements about the initialisation handshake -/

/-- The number of leading `0xfa` answers among the `n` answers from the `k`-th on. -/
def acks (answers : Nat → Nat) : Nat → Nat → Nat
  | 0, _ => 0
  | n + 1, k => if answers k % 256 = 0xfa then acks answers n (k + 1) + 1 else 0

/-- The number of bytes a round writes when its first answer is the `k`-th one: one more
than the number of leading acknowledgements, and five at most. -/
def round_len (answers : Nat → Nat) (k : Nat) : Nat := min (acks answers 5 k + 1) 5

/-- The index of the first answer of round `r`, when round 0 starts at answer `k`. -/
def round_start (answers : Nat → Nat) : Nat → Nat → Nat
  | 0, k => k
  | r + 1, k => round_start answers r (k + round_len answers k)

/-- Each step paired with its answer: delay, byte written, byte read back. -/
def answered (answers : Nat → Nat) : List (Nat × Nat) → Nat → List (Nat × Nat × Nat)
  | [], _ => []
  | (ms, ch) :: more, k => (ms, ch, answers k % 256) :: answered answers more (k + 1)

/-- The exchanges of up to `left` rounds from answer `k` on: each round is cut after its
first answer that is not `0xfa`, and no round follows a round with five acknowledgements. -/
def rounds_trace (answers : Nat → Nat) : Nat → Nat → List (Nat × Nat × Nat)
  | 0, _ => []
  | left + 1, k =>
    (answered answers init_round_steps k).take (round_len answers k)
      ++ (if acks answers 5 k = 5 then []
          else rounds_trace answers left (k + round_len answers k))

/-- The three calls of one exchange. -/
def render (tick_ms variant : Nat) (x : Nat × Nat × Nat) : List KbEvent :=
  [KbEvent.delay (x.1 / tick_ms), KbEvent.ps2_write variant x.2.1, KbEvent.ps2_read x.2.2]

/-- The bytes written to the device, in order. -/
def written (evs : List KbEvent) : List Nat :=
  evs.filterMap (fun e => match e with
    | KbEvent.ps2_write _ ch => some ch
    | _ => none)

/-- A device that never acknowledges. -/
def answers_dead (_ : Nat) : Nat := 0

/-- Some round among the five reads five acknowledgements, all rounds before it having
failed; round 0 starts at answer 1, answer 0 being that of the reset probe. -/
def handshake_ok (answers : Nat → Nat) : Prop :=
  ∃ r, r < 5 ∧ (∀ j, j < r → acks answers 5 (round_start answers j 1) ≠ 5)
    ∧ acks answers 5 (round_start answers r 1) = 5

/-- The calls of `init_trackpad` before its loop: the reset pulse and the reset probe sent
with `ps2_write_1`. -/
def init_head (tick_ms : Nat) (answers : Nat → Nat) : List KbEvent :=
  [KbEvent.reset_pin 1, KbEvent.delay (10 / tick_ms), KbEvent.reset_pin 0,
   KbEvent.delay (70 / tick_ms), KbEvent.ps2_write 1 0xff, KbEvent.ps2_read (answers 0 % 256)]

/-- The write variant in use after the reset probe. -/
def init_variant (answers : Nat → Nat) : Nat := if answers 0 % 256 ≠ 0xfa then 2 else 1

/-! ## Vocabulary of the statements about the scan loop -/

/-- Calls of a keyboard or consumer-control report sink. -/
def KbEvent.is_key_report : KbEvent → Bool
  | KbEvent.usb_keyboard _ => true
  | KbEvent.ble_keyboard _ => true
  | KbEvent.usb_consumer _ => true
  | KbEvent.ble_consumer _ => true
  | _ => false

/-- The keyboard snapshot that the column turns `cols` build from the locals `a`. -/
def scan_matrix (b : Board) (env : CycleEnv) (cols : List Nat) (a : ScanAcc) : ScanAcc :=
  cols.foldl (fun acc i => scan_rows b env i acc) a

/-- The sample that the parsing loop of a poll accumulates from the driver answers. -/
def poll_sample (env : PollEnv) : Sample := (parse_packets env.uart sample_start).1

/-- The mouse report of a poll that observed valid motion: built from that poll alone. -/
def poll_report (env : PollEnv) : List KbEvent :=
  mouse_report env ((poll_sample env).buttons &&& 7) (poll_sample env).dx (poll_sample env).dy

/-- The handle `uart1_fd` after a poll: closed when `select` fails on an open handle. -/
def fd_after (env : PollEnv) (fd : Int) : Int :=
  if 0 ≤ fd ∧ env.select_ret < 0 then -1 else fd

/-- A poll observes valid motion: the handle is open, `select` reports input, and the
parsing loop ends with `is_recv` set. -/
def observes (env : PollEnv) (fd : Int) : Prop :=
  0 ≤ fd ∧ 0 < env.select_ret ∧ (poll_sample env).is_recv = true

instance (env : PollEnv) (fd : Int) : Decidable (observes env fd) := by
  unfold observes
  exact inferInstance

/-- The column turns, among `cols`, whose poll observes valid motion, given the handle
before the first of them. -/
def observing (env : CycleEnv) : List Nat → Int → List Nat
  | [], _ => []
  | i :: more, fd =>
    if observes (env.polls i) fd then i :: observing env more (fd_after (env.polls i) fd)
    else observing env more (fd_after (env.polls i) fd)

/-- A small board: 1 ms ticks, the standard HID codes of the keys that `keyboard_task`
names, and the first entry of each table of `keymap-e580.c`. -/
def board_example : Board :=
  { portTICK_PERIOD_MS := 1, KEY_LEFTCTRL := 0xe0, KEY_RIGHTMETA := 0xe7,
    KEY_CAPSLOCK := 0x39, KEY_NUMLOCK := 0x53, FN_NOP := 0, FN_FNLOCK := 1,
    FN_BACKLIGHT := 2,
    kbtbl := [{ scan1 := 0, scan2 := 1, ch := 0, hidcode := 0x29 }],
    fntbl := [{ scan1 := 0, scan2 := 1, hidcode := 0, fncode := 1 }] }

/-- A poll in which `select` times out. -/
def poll_env_idle : PollEnv :=
  { select_ret := 0,
    flush := { lock_taken := true, timer := 1000, charging := 0, charging_again := 0,
               ble_connected := false, gap_ok := true },
    usb_connected := true, ble_connected := false, timer_wakeup := 1000, uart := [],
    timer_end := 1000, button_fn := 1 }

/-- A turn of the scan loop over USB with no key down, in which the polls of column turns
0 and 1 each receive one packet (`dx = 5`, then `dx = 7`) and the others time out. -/
def cycle_env_two_packets : CycleEnv :=
  { usb_connected := true, ble_connected := false,
    row := fun _ _ => 1, button_fn := fun _ _ => 1,
    polls := fun i =>
      if i = 0 then poll_env_usb [(UartRead.bytes [0, 5, 0], UartRead.bytes [])] 1
      else if i = 1 then poll_env_usb [(UartRead.bytes [0, 7, 0], UartRead.bytes [])] 1
      else poll_env_idle,
    timer := 2000,
    flush := { lock_taken := true, timer := 2000, charging := 0, charging_again := 0,
               ble_connected := false, gap_ok := true },
    timer_fn := 2000 }

/-- A turn of the scan loop over BLE alone, one millisecond after boot, with no key down
and every poll timing out. -/
def cycle_env_ble_quiet : CycleEnv :=
  { usb_connected := false, ble_connected := true,
    row := fun _ _ => 1, button_fn := fun _ _ => 1,
    polls := fun _ => { poll_env_idle with usb_connected := false, ble_connected := true },
    timer := 1000,
    flush := { lock_taken := true, timer := 1000, charging := 0, charging_again := 0,
               ble_connected := true, gap_ok := true },
    timer_fn := 1000 }

/-- The condition of the last statement of the loop body: BLE link up, USB link down, and
`currtime - wakeup_time < wakeup_period_us` in 32-bit unsigned arithmetic. -/
def wake_grace (env : CycleEnv) (s : KbState) : Prop :=
  env.ble_connected = true ∧ env.usb_connected = false
    ∧ diff_time (env.timer % UINT_MOD) s.wakeup_time < wakeup_period_us

instance (env : CycleEnv) (s : KbState) : Decidable (wake_grace env s) := by
  unfold wake_grace
  exact inferInstance

/-- The keyboard snapshot of a whole turn of the scan loop. -/
def snapshot (b : Board) (env : CycleEnv) : ScanAcc :=
  scan_matrix b env (List.range 8) (scan_start b)

/-- The turn that follows `cycle_env_ble_quiet` 40 ms later, as quiet as the first. -/
def cycle_env_ble_quiet_next : CycleEnv :=
  { cycle_env_ble_quiet with
    timer := 41000,
    flush := { lock_taken := true, timer := 41000, charging := 0, charging_again := 0,
               ble_connected := true, gap_ok := true },
    timer_fn := 41000 }

/-! ## Vocabulary of the statements about level changes -/

/-- The value of `new_pm_state` after the first `if ... else if ... else` of
`flush_power_state`, paired with the value of `last_pm_timestamp` after it. -/
def adjusted_request (env : FlushEnv) (s : PmState) (new_pm_state : Nat) : Nat × Nat :=
  if env.charging ≠ 0 then (PM_CHARGING, env.timer % UINT_MOD)
  else if new_pm_state < s.curr_pm_state then (s.curr_pm_state - 1, s.last_pm_timestamp)
  else (new_pm_state, env.timer % UINT_MOD)

/-- The rapid-wait expression for old level `c` and new level `n`; the charging signal in
it is the reading `charging_again`. -/
def rapid_flag (env : FlushEnv) (c n : Nat) : Bool :=
  (env.charging_again == 0)
    && ((c == PM_IDLE_SHORT_TIME && n == PM_KB_TP_ACTIVE)
      || (c == PM_IDLE_LONG_TIME && decide (PM_KB_ACTIVE ≤ n)))

/-- The rest of `flush_power_state` once the lock is held, the request adjusted to `n` and
the timestamp set to `t`. -/
def flush_core (env : FlushEnv) (s : PmState) (n t : Nat) : Option (PmState × List PmEvent) :=
  if s.curr_pm_state < n then
    (update_ble_and_pm env
        { s with last_pm_timestamp := t, is_pm_increase_rapid := rapid_flag env s.curr_pm_state n }
        n).map
      (fun r => ({ r.1 with curr_pm_state := n, last_pm_timestamp := env.timer % UINT_MOD }, r.2))
  else
    match pm_cfg[s.curr_pm_state]? with
    | none => none
    | some c =>
      if c.duration_us < diff_time (env.timer % UINT_MOD) t then
        (update_ble_and_pm env
            { s with last_pm_timestamp := t,
                     is_pm_increase_rapid := rapid_flag env s.curr_pm_state n }
            n).map
          (fun r =>
            ({ r.1 with curr_pm_state := n, last_pm_timestamp := env.timer % UINT_MOD }, r.2))
      else
        some ({ s with last_pm_timestamp := t,
                       is_pm_increase_rapid := rapid_flag env s.curr_pm_state n }, [])

/-- A push of the interval of level `n` is due: the BLE link is up and the configured count
differs from the latched `min_int`. -/
def push_due (env : FlushEnv) (s : PmState) (c : kb_pm_state_t) : Prop :=
  env.ble_connected = true ∧ c.ble_int_cnt ≠ s.min_int

/-- The calls of `esp_ble_gap_update_conn_params` among the calls of the power module. -/
def gap_requests (evs : List PmEvent) : List PmEvent :=
  evs.filter (fun e => match e with
    | PmEvent.gap_update_conn_params _ _ => true
    | _ => false)

/-- A level change from `PM_IDLE_LONG_TIME` to `PM_KB_TP_ACTIVE` over an established BLE
link whose push is rejected by the radio layer. -/
def flush_env_rejected : FlushEnv :=
  { lock_taken := true, timer := 5000000, charging := 0, charging_again := 0,
    ble_connected := true, gap_ok := false }

/-- A power state at `PM_IDLE_LONG_TIME` whose latched interval bounds differ. -/
def pm_state_wide : PmState :=
  { curr_pm_state := PM_IDLE_LONG_TIME, last_pm_timestamp := 0, is_pm_increase_rapid := false,
    min_int := 16, max_int := 32, light_sleep_enable := true }

/-! ## keymap-e580.c -/

/-- The key code macros of `keymap.h` that `keymap-e580.c` and `keyboard.c` name; their
values belong to the missing header and are supplied by an assignment `KeyName → Nat`. -/
inductive KeyName where
  | KEY_ESC
  | KEY_F1
  | KEY_F2
  | KEY_F3
  | KEY_F4
  | KEY_F5
  | KEY_F6
  | KEY_F7
  | KEY_F8
  | KEY_F9
  | KEY_F10
  | KEY_F11
  | KEY_F12
  | KEY_HOME
  | KEY_END
  | KEY_INSERT
  | KEY_DELETE
  | KEY_GRAVE
  | KEY_1
  | KEY_2
  | KEY_3
  | KEY_4
  | KEY_5
  | KEY_6
  | KEY_7
  | KEY_8
  | KEY_9
  | KEY_0
  | KEY_MINUS
  | KEY_EQUAL
  | KEY_BACKSPACE
  | KEY_TAB
  | KEY_Q
  | KEY_W
  | KEY_E
  | KEY_R
  | KEY_T
  | KEY_Y
  | KEY_U
  | KEY_I
  | KEY_O
  | KEY_P
  | KEY_LEFTBRACE
  | KEY_RIGHTBRACE
  | KEY_BACKSLASH
  | KEY_CAPSLOCK
  | KEY_A
  | KEY_S
  | KEY_D
  | KEY_F
  | KEY_G
  | KEY_H
  | KEY_J
  | KEY_K
  | KEY_L
  | KEY_SEMICOLON
  | KEY_APOSTROPHE
  | KEY_ENTER
  | KEY_LEFTSHIFT
  | KEY_Z
  | KEY_X
  | KEY_C
  | KEY_V
  | KEY_B
  | KEY_N
  | KEY_M
  | KEY_COMMA
  | KEY_DOT
  | KEY_SLASH
  | KEY_RIGHTSHIFT
  | KEY_LEFTCTRL
  | KEY_LEFTMETA
  | KEY_LEFTALT
  | KEY_SPACE
  | KEY_RIGHTALT
  | KEY_PRTSC
  | KEY_RIGHTCTRL
  | KEY_PAGEUP
  | KEY_UP
  | KEY_PAGEDOWN
  | KEY_LEFT
  | KEY_DOWN
  | KEY_RIGHT
  | KEY_MEDIA_CALC
  | KEY_KPLEFTPAREN
  | KEY_KPRIGHTPAREN
  | KEY_NUMLOCK
  | KEY_KPSLASH
  | KEY_KPASTERISK
  | KEY_KPMINUS
  | KEY_KP7
  | KEY_KP8
  | KEY_KP9
  | KEY_KPPLUS
  | KEY_KP4
  | KEY_KP5
  | KEY_KP6
  | KEY_KP1
  | KEY_KP2
  | KEY_KP3
  | KEY_KPENTER
  | KEY_KP0
  | KEY_KPDOT
  | KEY_CONSUMER_MUTE
  | KEY_CONSUMER_VOLUME_DECREMENT
  | KEY_CONSUMER_VOLUME_INCREMENT
  | KEY_CONSUMER_BRIGHTNESS_DECREMENT
  | KEY_CONSUMER_BRIGHTNESS_INCREMENT
  | KEY_RIGHTMETA
deriving DecidableEq, Repr

/-- The enumerators of `fn_function_t` that the sources name; their values belong to the
missing header and are supplied by an assignment `FnName → Nat`. -/
inductive FnName where
  | FN_NOP
  | FN_FNLOCK
  | FN_BACKLIGHT
deriving DecidableEq, Repr

/-- The initialisers of `kbtbl` in `keymap-e580.c`, in order: column, row, character (its
code, 0 when none) and key code macro. -/
def kbtbl_e580_rows : List (Nat × Nat × Nat × KeyName) :=
  [(0, 1, 0, KeyName.KEY_ESC), (7, 4, 0, KeyName.KEY_F1), (7, 3, 0, KeyName.KEY_F2),
   (1, 3, 0, KeyName.KEY_F3), (0, 3, 0, KeyName.KEY_F4), (0, 14, 0, KeyName.KEY_F5),
   (0, 8, 0, KeyName.KEY_F6), (1, 6, 0, KeyName.KEY_F7), (7, 6, 0, KeyName.KEY_F8),
   (7, 14, 0, KeyName.KEY_F9), (5, 14, 0, KeyName.KEY_F10), (5, 13, 0, KeyName.KEY_F11),
   (5, 11, 0, KeyName.KEY_F12), (7, 12, 0, KeyName.KEY_HOME), (5, 12, 0, KeyName.KEY_END),
   (7, 11, 0, KeyName.KEY_INSERT), (7, 13, 0, KeyName.KEY_DELETE),
   (7, 1, 126, KeyName.KEY_GRAVE), (5, 1, 49, KeyName.KEY_1), (5, 4, 50, KeyName.KEY_2),
   (5, 3, 51, KeyName.KEY_3), (5, 5, 52, KeyName.KEY_4), (7, 5, 53, KeyName.KEY_5),
   (7, 2, 54, KeyName.KEY_6), (5, 2, 55, KeyName.KEY_7), (5, 8, 56, KeyName.KEY_8),
   (5, 6, 57, KeyName.KEY_9), (5, 7, 48, KeyName.KEY_0), (7, 7, 45, KeyName.KEY_MINUS),
   (7, 8, 61, KeyName.KEY_EQUAL), (1, 14, 0, KeyName.KEY_BACKSPACE),
   (1, 1, 0, KeyName.KEY_TAB), (6, 1, 113, KeyName.KEY_Q), (6, 4, 119, KeyName.KEY_W),
   (6, 3, 101, KeyName.KEY_E), (6, 5, 114, KeyName.KEY_R), (1, 5, 116, KeyName.KEY_T),
   (1, 2, 121, KeyName.KEY_Y), (6, 2, 117, KeyName.KEY_U), (6, 8, 105, KeyName.KEY_I),
   (6, 6, 111, KeyName.KEY_O), (6, 7, 112, KeyName.KEY_P), (1, 7, 91, KeyName.KEY_LEFTBRACE),
   (1, 8, 93, KeyName.KEY_RIGHTBRACE), (4, 14, 92, KeyName.KEY_BACKSLASH),
   (1, 4, 0, KeyName.KEY_CAPSLOCK), (4, 1, 97, KeyName.KEY_A), (4, 4, 115, KeyName.KEY_S),
   (4, 3, 100, KeyName.KEY_D), (4, 5, 102, KeyName.KEY_F), (0, 5, 103, KeyName.KEY_G),
   (0, 2, 104, KeyName.KEY_H), (4, 2, 106, KeyName.KEY_J), (4, 8, 107, KeyName.KEY_K),
   (4, 6, 108, KeyName.KEY_L), (4, 7, 59, KeyName.KEY_SEMICOLON),
   (0, 7, 39, KeyName.KEY_APOSTROPHE), (3, 14, 0, KeyName.KEY_ENTER),
   (1, 0, 0, KeyName.KEY_LEFTSHIFT), (3, 1, 122, KeyName.KEY_Z), (3, 4, 120, KeyName.KEY_X),
   (3, 3, 99, KeyName.KEY_C), (3, 5, 118, KeyName.KEY_V), (2, 5, 98, KeyName.KEY_B),
   (2, 2, 110, KeyName.KEY_N), (3, 2, 109, KeyName.KEY_M), (3, 8, 44, KeyName.KEY_COMMA),
   (3, 6, 46, KeyName.KEY_DOT), (2, 7, 47, KeyName.KEY_SLASH),
   (3, 0, 0, KeyName.KEY_RIGHTSHIFT), (7, 9, 0, KeyName.KEY_LEFTCTRL),
   (1, 11, 0, KeyName.KEY_LEFTMETA), (0, 10, 0, KeyName.KEY_LEFTALT),
   (2, 14, 32, KeyName.KEY_SPACE), (2, 10, 0, KeyName.KEY_RIGHTALT),
   (5, 10, 0, KeyName.KEY_PRTSC), (3, 9, 0, KeyName.KEY_RIGHTCTRL),
   (7, 15, 0, KeyName.KEY_PAGEUP), (0, 12, 0, KeyName.KEY_UP),
   (5, 15, 0, KeyName.KEY_PAGEDOWN), (2, 12, 0, KeyName.KEY_LEFT),
   (2, 13, 0, KeyName.KEY_DOWN), (2, 11, 0, KeyName.KEY_RIGHT),
   (1, 12, 0, KeyName.KEY_MEDIA_CALC), (6, 12, 40, KeyName.KEY_KPLEFTPAREN),
   (1, 15, 41, KeyName.KEY_KPRIGHTPAREN), (6, 15, 0, KeyName.KEY_BACKSPACE),
   (0, 16, 0, KeyName.KEY_NUMLOCK), (1, 16, 47, KeyName.KEY_KPSLASH),
   (6, 16, 42, KeyName.KEY_KPASTERISK), (7, 16, 45, KeyName.KEY_KPMINUS),
   (4, 16, 55, KeyName.KEY_KP7), (5, 16, 56, KeyName.KEY_KP8), (3, 16, 57, KeyName.KEY_KP9),
   (2, 16, 43, KeyName.KEY_KPPLUS), (0, 17, 52, KeyName.KEY_KP4), (1, 17, 53, KeyName.KEY_KP5),
   (6, 17, 54, KeyName.KEY_KP6), (7, 17, 49, KeyName.KEY_KP1), (4, 17, 50, KeyName.KEY_KP2),
   (5, 17, 51, KeyName.KEY_KP3), (3, 17, 0, KeyName.KEY_KPENTER), (2, 17, 48, KeyName.KEY_KP0),
   (6, 11, 46, KeyName.KEY_KPDOT)]

/-- The initialisers of `fntbl` in `keymap-e580.c`, in order: column, row, consumer code
(`none` for the literal 0) and function code. -/
def fntbl_e580_rows : List (Nat × Nat × Option KeyName × FnName) :=
  [(0, 1, none, FnName.FN_FNLOCK),
   (7, 4, some KeyName.KEY_CONSUMER_MUTE, FnName.FN_NOP),
   (7, 3, some KeyName.KEY_CONSUMER_VOLUME_DECREMENT, FnName.FN_NOP),
   (1, 3, some KeyName.KEY_CONSUMER_VOLUME_INCREMENT, FnName.FN_NOP),
   (0, 14, some KeyName.KEY_CONSUMER_BRIGHTNESS_DECREMENT, FnName.FN_NOP),
   (0, 8, some KeyName.KEY_CONSUMER_BRIGHTNESS_INCREMENT, FnName.FN_NOP),
   (2, 14, none, FnName.FN_BACKLIGHT)]


/-- The table `kbtbl` of `keymap-e580.c` under the key code assignment `code`. -/
def kbtbl_e580 (code : KeyName → Nat) : List keytable_t :=
  kbtbl_e580_rows.map
    (fun r => { scan1 := r.1, scan2 := r.2.1, ch := r.2.2.1, hidcode := code r.2.2.2 })

/-- The table `fntbl` of `keymap-e580.c` under the assignments `code` and `fnc`. -/
def fntbl_e580 (code : KeyName → Nat) (fnc : FnName → Nat) : List fn_keytable_t :=
  fntbl_e580_rows.map
    (fun r => { scan1 := r.1, scan2 := r.2.1,
                hidcode := (match r.2.2.1 with
                  | none => 0
                  | some k => code k),
                fncode := fnc r.2.2.2 })

/-- The build with the E580 keymap, under the assignments `code` and `fnc` and the tick
period `tick_ms`. -/
def board_e580 (tick_ms : Nat) (code : KeyName → Nat) (fnc : FnName → Nat) : Board :=
  { portTICK_PERIOD_MS := tick_ms,
    KEY_LEFTCTRL := code KeyName.KEY_LEFTCTRL, KEY_RIGHTMETA := code KeyName.KEY_RIGHTMETA,
    KEY_CAPSLOCK := code KeyName.KEY_CAPSLOCK, KEY_NUMLOCK := code KeyName.KEY_NUMLOCK,
    FN_NOP := fnc FnName.FN_NOP, FN_FNLOCK := fnc FnName.FN_FNLOCK,
    FN_BACKLIGHT := fnc FnName.FN_BACKLIGHT,
    kbtbl := kbtbl_e580 code, fntbl := fntbl_e580 code fnc }

/-! ## Vocabulary of the statements about key resolution -/

/-- The test of the search loops of `keymap.c` on the two scan bytes of an entry. -/
def names_cell (scan1 scan2 i j : Nat) : Bool :=
  (scan1 % 256 ||| ((scan2 % 256) <<< 8)) == cmbcode i j

/-- The cells of the matrix in scan order: column turns ascending, rows ascending. -/
def scan_cells : List (Nat × Nat) :=
  (List.range 8).flatMap (fun i => (List.range 18).map (fun j => (i, j)))

/-- The body of the row loop for the cell `c`, with the levels that `env` supplies. -/
def scan_step (b : Board) (env : CycleEnv) (a : ScanAcc) (c : Nat × Nat) : ScanAcc :=
  scan_cell b (env.row c.1 c.2) (env.button_fn c.1 c.2) c.1 c.2 a

/-- The key codes, in scan order, of the cells of `cells` that are asserted and that the
primary keymap maps to a positive code. -/
def pressed_keys (b : Board) (env : CycleEnv) (cells : List (Nat × Nat)) : List Int :=
  ((cells.filter (fun c => env.row c.1 c.2 = 0)).map
      (fun c => search_hid_key b.kbtbl c.1 c.2)).filter (fun k => 0 < k)

/-- The code lies in the modifier range `KEY_LEFTCTRL .. KEY_RIGHTMETA`. -/
def is_modifier (b : Board) (k : Int) : Prop :=
  (b.KEY_LEFTCTRL : Int) ≤ k ∧ k ≤ (b.KEY_RIGHTMETA : Int)

instance (b : Board) (k : Int) : Decidable (is_modifier b k) := by
  unfold is_modifier
  exact inferInstance

/-- The OR of the bits `1 << (code & 7)` of the modifier codes of a list of codes. -/
def modifier_bits (b : Board) : List Int → Nat
  | [] => 0
  | k :: more =>
    (if is_modifier b k then 1 <<< (k.toNat &&& 7) else 0) ||| modifier_bits b more

/-- The first code of a list of codes that is not a modifier code, or 0. -/
def primary_key (b : Board) (keys : List Int) : Nat :=
  match keys.filter (fun k => ¬ is_modifier b k) with
  | [] => 0
  | k :: _ => k.toNat

/-- The entries of the hotkey table, in scan order, that asserted cells of `cells` name. -/
def pressed_fn (b : Board) (env : CycleEnv) (cells : List (Nat × Nat)) : List fn_keytable_t :=
  (cells.filter (fun c => env.row c.1 c.2 = 0)).filterMap
    (fun c => search_fn b.fntbl c.1 c.2)

/-- The hotkey code and function code of the last entry of a list, or `dflt`. -/
def last_fn (dflt : Nat × Nat) : List fn_keytable_t → Nat × Nat
  | [] => dflt
  | it :: more => last_fn (it.hidcode, it.fncode) more

/-- A board with six entries of the E580 primary table and the first entry of its hotkey
table, under the key codes of the USB HID usage tables. -/
def board_keys : Board :=
  { portTICK_PERIOD_MS := 1, KEY_LEFTCTRL := 0xe0, KEY_RIGHTMETA := 0xe7,
    KEY_CAPSLOCK := 0x39, KEY_NUMLOCK := 0x53, FN_NOP := 0, FN_FNLOCK := 1,
    FN_BACKLIGHT := 2,
    kbtbl := [{ scan1 := 0, scan2 := 1, ch := 0, hidcode := 0x29 },
              { scan1 := 1, scan2 := 4, ch := 0, hidcode := 0x39 },
              { scan1 := 4, scan2 := 1, ch := 97, hidcode := 0x04 },
              { scan1 := 1, scan2 := 0, ch := 0, hidcode := 0xe1 },
              { scan1 := 7, scan2 := 9, ch := 0, hidcode := 0xe0 },
              { scan1 := 0, scan2 := 16, ch := 0, hidcode := 0x53 }],
    fntbl := [{ scan1 := 0, scan2 := 1, hidcode := 0, fncode := 1 },
              { scan1 := 7, scan2 := 4, hidcode := 0xe2, fncode := 0 }] }

/-- A turn of the scan loop over USB in which exactly the cells of `cells` are asserted,
the FN button reads `fn_level` throughout, and every poll times out. -/
def cycle_env_cells (cells : List (Nat × Nat)) (fn_level : Nat) : CycleEnv :=
  { usb_connected := true, ble_connected := false,
    row := fun i j => if (i, j) ∈ cells then 0 else 1,
    button_fn := fun _ _ => fn_level,
    polls := fun _ => poll_env_idle,
    timer := 2000,
    flush := { lock_taken := true, timer := 2000, charging := 0, charging_again := 0,
               ble_connected := false, gap_ok := true },
    timer_fn := 2000 }

/-- An assignment of key codes that gives five names their codes of the USB HID usage
tables and code 4 to every other name. -/
def key_code_example : KeyName → Nat
  | KeyName.KEY_ESC => 0x29
  | KeyName.KEY_LEFTCTRL => 0xe0
  | KeyName.KEY_RIGHTMETA => 0xe7
  | KeyName.KEY_CAPSLOCK => 0x39
  | KeyName.KEY_NUMLOCK => 0x53
  | _ => 0x04

/-- An assignment of function codes: the position of the name in its enumeration. -/
def fn_code_example : FnName → Nat
  | FnName.FN_NOP => 0
  | FnName.FN_FNLOCK => 1
  | FnName.FN_BACKLIGHT => 2

/-- Calls of a USB report sink: `tinyusb_hid_keyboard_report`, `tinyusb_hid_consumer_report`
or `tinyusb_hid_mouse_report`. -/
def KbEvent.via_usb : KbEvent → Bool
  | KbEvent.usb_keyboard _ => true
  | KbEvent.usb_consumer _ => true
  | KbEvent.usb_mouse _ _ _ _ _ => true
  | _ => false

/-- Calls of a BLE report sink: `esp_hidd_send_keyboard_value`,
`esp_hidd_send_consumer_value` or `esp_hidd_send_mouse_value`. -/
def KbEvent.via_ble : KbEvent → Bool
  | KbEvent.ble_keyboard _ => true
  | KbEvent.ble_consumer _ => true
  | KbEvent.ble_mouse _ _ _ _ _ => true
  | _ => false

/-- The calls `l` made for one report deliver it to exactly one sink: the USB sink when the
USB flag is set, the BLE sink when only the BLE flag is set, none when neither is set. -/
def routed (usb ble : Bool) (l : List KbEvent) : Prop :=
  (usb = true → (l.filter KbEvent.via_usb).length = 1 ∧ l.filter KbEvent.via_ble = [])
    ∧ (usb = false → ble = true →
        (l.filter KbEvent.via_ble).length = 1 ∧ l.filter KbEvent.via_usb = [])
    ∧ (usb = false → ble = false → l = [])

/-- A turn of the scan loop over BLE alone, one millisecond after boot, with the key of
cell `(0, 1)` down and every poll receiving the packet `dx = 5`. -/
def cycle_env_ble_busy : CycleEnv :=
  { cycle_env_ble_quiet with
    row := fun i j => if (i, j) = (0, 1) then 0 else 1,
    polls := fun _ =>
      { poll_env_usb [(UartRead.bytes [0, 5, 0], UartRead.bytes [])] 1 with
        usb_connected := false, ble_connected := true } }

/-- The two lock booleans `is_caplk_on` and `is_numlk_on`. -/
def locks (s : KbState) : Bool × Bool := (s.is_caplk_on, s.is_numlk_on)

/-! ## keyboard.c: the bit-level PS/2 write functions -/

/-- A GPIO call or a delay made by the bit-level PS/2 functions: `gpio_set_direction` and
`gpio_set_level` on the clock pin and on the data pin, and `usleep`. -/
inductive Ps2Op
  | clk_direction (output : Bool)
  | data_direction (output : Bool)
  | clk_level (level : Nat)
  | data_level (level : Nat)
  | usleep (us : Nat)
deriving DecidableEq, Repr

/-- A statement of the bit-level PS/2 functions: a call, or one of the empty loops
`while (PS2_CLK_STATE == v);` and `while (PS2_DATA_STATE == v);`. -/
inductive Ps2Step
  | call (op : Ps2Op)
  | while_clk (v : Nat)
  | while_data (v : Nat)
deriving DecidableEq, Repr

/-- What the bit-level PS/2 functions read from outside: the level that the `k`-th call of
`gpio_get_level` on the clock pin returns, the same for the data pin, and the number of
reads after which a loop that has not ended counts as hung (the loops have no bound of
their own). -/
structure Ps2Env where
  clk : Nat → Nat
  data : Nat → Nat
  spin : Nat

/-- The loop `while (line == v);` started at read `k` of the line: the number of the first
read after the loop, or nothing when the loop is still running after `fuel` reads. -/
def spin_wait (line : Nat → Nat) (v : Nat) : Nat → Nat → Option Nat
  | 0, _ => none
  | fuel + 1, k => if line k = v then spin_wait line v fuel (k + 1) else some (k + 1)

/-- The run of a list of statements from the read counts `k` (clock, data): the calls made,
and the read counts at the end, or nothing when a loop hangs. -/
def run_steps (env : Ps2Env) : List Ps2Step → Nat × Nat → List Ps2Op × Option (Nat × Nat)
  | [], k => ([], some k)
  | Ps2Step.call op :: more, k =>
    let r := run_steps env more k
    (op :: r.1, r.2)
  | Ps2Step.while_clk v :: more, k =>
    match spin_wait env.clk v env.spin k.1 with
    | none => ([], none)
    | some k1 => run_steps env more (k1, k.2)
  | Ps2Step.while_data v :: more, k =>
    match spin_wait env.data v env.spin k.2 with
    | none => ([], none)
    | some k2 => run_steps env more (k.1, k2)

/-- The statements `PS2_CLK_OUTPUT; ... PS2_CLK_INPUT;` that open both write functions. -/
def ps2_write_start : List Ps2Step :=
  [Ps2Step.call (Ps2Op.clk_direction true), Ps2Step.call (Ps2Op.data_direction true),
   Ps2Step.call (Ps2Op.clk_level 0), Ps2Step.call (Ps2Op.usleep 50),
   Ps2Step.call (Ps2Op.data_level 0), Ps2Step.call (Ps2Op.usleep 50),
   Ps2Step.call (Ps2Op.clk_level 1), Ps2Step.call (Ps2Op.clk_direction false)]

/-- The value of `op` that `ps2_write_1` computes from `ch`, in 8-bit arithmetic. -/
def ps2_write_1_op (ch : Nat) : Nat :=
  let op := ((ch % 256) ^^^ 1) % 256
  let op := (op ^^^ (op >>> 4)) % 256
  let op := (op ^^^ (op >>> 2)) % 256
  let op := (op ^^^ (op >>> 1)) % 256
  op &&& 1

/-- The value of `op` that `ps2_write_2` computes from `ch`, in 8-bit arithmetic. -/
def ps2_write_2_op (ch : Nat) : Nat :=
  let op := ((ch % 256) ^^^ 1) % 256
  let op := (op ^^^ (op >>> 4)) % 256
  let op := (op ^^^ (op >>> 2)) % 256
  let op := (op ^^^ (op >>> 1)) % 256
  op &&& 1

/-- The statement `if (x) PS2_DATA_HIGH; else PS2_DATA_LOW;`. -/
def ps2_data_put (x : Nat) : Ps2Step :=
  Ps2Step.call (Ps2Op.data_level (if x ≠ 0 then 1 else 0))

/-- The remaining `n` turns of the loop `for (int i = 0; i < 8; i++)` of `ps2_write_1`. -/
def ps2_write_1_bits : Nat → Nat → List Ps2Step
  | 0, _ => []
  | n + 1, ch =>
    [Ps2Step.while_clk 0, ps2_data_put (ch &&& 1), Ps2Step.while_clk 1]
      ++ ps2_write_1_bits n ((ch >>> 1) % 256)

/-- The remaining `n` turns of the loop `for (int i = 0; i < 8; i++)` of `ps2_write_2`. -/
def ps2_write_2_bits : Nat → Nat → List Ps2Step
  | 0, _ => []
  | n + 1, ch =>
    [Ps2Step.call (Ps2Op.usleep 20), ps2_data_put (ch &&& 1), Ps2Step.while_clk 0,
     Ps2Step.while_clk 1]
      ++ ps2_write_2_bits n ((ch >>> 1) % 256)

/-- The statements of `ps2_write_1(ch)`, `printf` left out. -/
def ps2_write_1_steps (ch : Nat) : List Ps2Step :=
  ps2_write_start ++ [Ps2Step.while_clk 1]
    ++ ps2_write_1_bits 8 (ch % 256)
    ++ [Ps2Step.while_clk 0, ps2_data_put (ps2_write_1_op ch), Ps2Step.while_clk 1,
        Ps2Step.while_clk 0, Ps2Step.call (Ps2Op.data_level 1),
        Ps2Step.call (Ps2Op.data_direction false), Ps2Step.while_clk 1,
        Ps2Step.while_clk 0, Ps2Step.while_clk 1]

/-- The statements of `ps2_write_2(ch)`, `printf` left out. -/
def ps2_write_2_steps (ch : Nat) : List Ps2Step :=
  ps2_write_start ++ [Ps2Step.while_clk 1]
    ++ ps2_write_2_bits 8 (ch % 256)
    ++ [Ps2Step.call (Ps2Op.usleep 20), ps2_data_put (ps2_write_2_op ch),
        Ps2Step.while_clk 0, Ps2Step.while_clk 1,
        Ps2Step.call (Ps2Op.usleep 20), Ps2Step.call (Ps2Op.data_direction false),
        Ps2Step.while_data 1, Ps2Step.while_clk 1,
        Ps2Step.while_clk 0, Ps2Step.while_clk 1]

/-- The function `ps2_write_1`, run from the read counts `k`. -/
def ps2_write_1 (env : Ps2Env) (ch : Nat) (k : Nat × Nat) :
    List Ps2Op × Option (Nat × Nat) :=
  run_steps env (ps2_write_1_steps ch) k

/-- The function `ps2_write_2`, run from the read counts `k`. -/
def ps2_write_2 (env : Ps2Env) (ch : Nat) (k : Nat × Nat) :
    List Ps2Op × Option (Nat × Nat) :=
  run_steps env (ps2_write_2_steps ch) k

/-! ## Vocabulary of the statements about the write frame -/

/-- The levels driven onto the data line by a list of calls, in order. -/
def data_levels (ops : List Ps2Op) : List Nat :=
  ops.filterMap (fun o => match o with
    | Ps2Op.data_level l => some l
    | _ => none)

/-- The calls of a list of statements, in order. -/
def calls (steps : List Ps2Step) : List Ps2Op :=
  steps.filterMap (fun st => match st with
    | Ps2Step.call op => some op
    | _ => none)

/-- The bits `b0 .. b7` of a byte, least significant first. -/
def frame_bits (b : Nat) : List Nat := (List.range 8).map (fun i => (b >>> i) % 2)

/-- Within any `fuel` consecutive reads the line is read at a level other than `v`. -/
def leaves (line : Nat → Nat) (v fuel : Nat) : Prop :=
  ∀ k, ∃ j, j < fuel ∧ line (k + j) ≠ v

/-- The loops of a statement wait on levels that a device answering the host leaves: the
clock at 0 or 1, the data line at 1. -/
def waits_answered : Ps2Step → Bool
  | Ps2Step.call _ => true
  | Ps2Step.while_clk v => v == 0 || v == 1
  | Ps2Step.while_data v => v == 1

/-- A device whose clock changes level between any two reads and which holds the data line
low, with loops counted as hung after 4 reads. -/
def ps2_env_ticking : Ps2Env :=
  { clk := fun k => k % 2, data := fun _ => 0, spin := 4 }

/-- The statements of `init_pm` from `pm_lock = xSemaphoreCreateMutex();` on, given the
reading of `CHARGING_STATE` and of `esp_timer_get_time()`; the GPIO, queue and task set-up
before them does not touch the globals of the module. -/
def init_pm (charging timer : Nat) (s : PmState) : PmState × List PmEvent :=
  if charging = 0 then
    ({ s with curr_pm_state := PM_IDLE_LONG_TIME, light_sleep_enable := true,
              last_pm_timestamp := timer % UINT_MOD },
      [PmEvent.pm_configure true])
  else
    ({ s with curr_pm_state := PM_CHARGING, light_sleep_enable := false,
              last_pm_timestamp := timer % UINT_MOD },
      [PmEvent.pm_configure false])

/-- A sequence of `flush_power_state` calls, each with its own inputs and request; the
result is the state after the last call. -/
def flush_calls : List (FlushEnv × Nat) → PmState → Option PmState
  | [], s => some s
  | (env, R) :: more, s =>
    match flush_power_state env s R with
    | none => none
    | some r => flush_calls more r.1

/-- The flag `light_sleep_enable` equals the `is_sleep` setting of the current level. -/
def sleep_tracks (s : PmState) : Prop :=
  (pm_cfg[s.curr_pm_state]?).map (fun c => c.is_sleep) = some s.light_sleep_enable

/-- A second call at `PM_KB_TP_ACTIVE`, one second after `flush_env_rejected`, over the same
BLE link and with a radio layer that would now accept a push. -/
def flush_env_again : FlushEnv :=
  { lock_taken := true, timer := 6000000, charging := 0, charging_again := 0,
    ble_connected := true, gap_ok := true }

/-- A power state at `PM_IDLE_LONG_TIME` with the interval count 16 latched. -/
def pm_state_idle : PmState :=
  { curr_pm_state := PM_IDLE_LONG_TIME, last_pm_timestamp := 0, is_pm_increase_rapid := false,
    min_int := 16, max_int := 16, light_sleep_enable := true }

/-! ## tusb_hid.c: the USB report functions -/

/-- A call made by the USB report functions: `tud_remote_wakeup()`, `tud_hid_ready()` with
its answer, `vTaskDelay(ticks)`, and the three submissions `tud_hid_mouse_report`,
`tud_hid_keyboard_report` (modifier byte and key code array) and `tud_hid_report` with
`REPORT_ID_CONSUMER`. -/
inductive UsbOp
  | remote_wakeup
  | hid_ready (answer : Bool)
  | task_delay (ticks : Nat)
  | hid_mouse_report (buttons : Nat) (x y vertical horizontal : Int)
  | hid_keyboard_report (modifier : Nat) (keycode : List Nat)
  | hid_consumer_report (keycode : Nat)
deriving DecidableEq, Repr

/-- What one call of a USB report function reads from outside: the answer of
`tud_suspended()` and the answer of the `k`-th call of `tud_hid_ready()` (from 0). -/
structure UsbEnv where
  suspended : Bool
  ready : Nat → Bool

/-- The loop `for (; i < 5 && !tud_hid_ready(); i++) vTaskDelay(5);` with `left = 5 - i`
turns to go: the final value of `i` and the calls made. -/
def hid_wait (ready : Nat → Bool) : Nat → Nat → Nat × List UsbOp
  | 0, i => (i, [])
  | left + 1, i =>
    if ready i then (i, [UsbOp.hid_ready true])
    else
      let r := hid_wait ready left (i + 1)
      (r.1, UsbOp.hid_ready false :: UsbOp.task_delay 5 :: r.2)

/-- The function `tinyusb_hid_mouse_report`. -/
def tinyusb_hid_mouse_report (env : UsbEnv) (buttons : Nat) (x y vertical horizontal : Int) :
    List UsbOp :=
  if env.suspended then [UsbOp.remote_wakeup]
  else
    let r := hid_wait env.ready 5 0
    if 5 ≤ r.1 then r.2
    else r.2 ++ [UsbOp.hid_mouse_report buttons x y vertical horizontal]

/-- The function `tinyusb_hid_keyboard_report`; the submission takes `keycode[0]` and the
array from `keycode[2]` on. -/
def tinyusb_hid_keyboard_report (env : UsbEnv) (keycode : List Nat) : List UsbOp :=
  if env.suspended then [UsbOp.remote_wakeup]
  else
    let r := hid_wait env.ready 5 0
    if 5 ≤ r.1 then r.2
    else r.2 ++ [UsbOp.hid_keyboard_report (keycode.getD 0 0) (keycode.drop 2)]

/-- The function `tinyusb_hid_consumer_report`. -/
def tinyusb_hid_consumer_report (env : UsbEnv) (keycode : Nat) : List UsbOp :=
  if env.suspended then [UsbOp.remote_wakeup]
  else
    let r := hid_wait env.ready 5 0
    if 5 ≤ r.1 then r.2
    else r.2 ++ [UsbOp.hid_consumer_report (keycode % 65536)]

/-! ## esp_hidd_prf_api.c: the BLE report functions -/

/-- The report identifiers that the BLE report functions pass to `hid_dev_send_report`. -/
inductive BleReportId
  | HID_RPT_ID_CC_IN
  | HID_RPT_ID_KEY_IN
  | HID_RPT_ID_MOUSE_IN
deriving DecidableEq, Repr

/-- A call of `hid_dev_send_report` with the report identifier and the report data. -/
inductive BleOp
  | hid_dev_send_report (id : BleReportId) (data : List Int)
deriving DecidableEq, Repr

/-- The function `esp_hidd_send_consumer_value`; the report data is the 16-bit `key`. The
function does not read `is_ble_connected`; the parameter is there for the statements. -/
def esp_hidd_send_consumer_value (_is_ble_connected : Bool) (key : Nat) : List BleOp :=
  [BleOp.hid_dev_send_report BleReportId.HID_RPT_ID_CC_IN [((key % 65536 : Nat) : Int)]]

/-- The function `esp_hidd_send_keyboard_value`. -/
def esp_hidd_send_keyboard_value (is_ble_connected : Bool) (buffer : List Nat) :
    List BleOp :=
  if !is_ble_connected then []
  else
    [BleOp.hid_dev_send_report BleReportId.HID_RPT_ID_KEY_IN
      (buffer.map (fun x => (x : Int)))]

/-- The function `esp_hidd_send_mouse_value`. -/
def esp_hidd_send_mouse_value (is_ble_connected : Bool) (buttons : Nat)
    (dx dy vertical horizontal : Int) : List BleOp :=
  if !is_ble_connected then []
  else
    [BleOp.hid_dev_send_report BleReportId.HID_RPT_ID_MOUSE_IN
      [(buttons : Int), dx, dy, vertical, horizontal]]

/-! ## Vocabulary of the statements about the report sinks -/

/-- The number of leading not-ready answers among the `n` answers from the `k`-th on. -/
def leading_not_ready (ready : Nat → Bool) : Nat → Nat → Nat
  | 0, _ => 0
  | n + 1, k => if ready k then 0 else leading_not_ready ready n (k + 1) + 1

/-- The calls of `n` turns of the wait: a readiness check answered not-ready, then a delay
of 5 ticks. -/
def not_ready_turns : Nat → List UsbOp
  | 0 => []
  | n + 1 => UsbOp.hid_ready false :: UsbOp.task_delay 5 :: not_ready_turns n

/-- The calls of a USB report function as the retry rule gives them: a remote wakeup when
suspended; else one delay per leading not-ready answer and then, if one of the first five
answers is ready, that check and the submission `submit`. -/
def retry_spec (env : UsbEnv) (submit : UsbOp) : List UsbOp :=
  if env.suspended then [UsbOp.remote_wakeup]
  else if leading_not_ready env.ready 5 0 < 5 then
    not_ready_turns (leading_not_ready env.ready 5 0) ++ [UsbOp.hid_ready true, submit]
  else not_ready_turns 5

/-- Calls of `tud_hid_ready`. -/
def UsbOp.is_ready_check : UsbOp → Bool
  | UsbOp.hid_ready _ => true
  | _ => false

/-- Calls of `vTaskDelay`. -/
def UsbOp.is_delay : UsbOp → Bool
  | UsbOp.task_delay _ => true
  | _ => false

/-- Submissions of a report to TinyUSB. -/
def UsbOp.is_submission : UsbOp → Bool
  | UsbOp.hid_mouse_report _ _ _ _ _ => true
  | UsbOp.hid_keyboard_report _ _ => true
  | UsbOp.hid_consumer_report _ => true
  | _ => false

/-- A run of loops `while (PS2_CLK_STATE == v);`, one for each `v` of the list, from read
`k` of the clock line: the read count at the end, or nothing when a loop hangs. -/
def clk_waits (env : Ps2Env) : List Nat → Nat → Option Nat
  | [], k => some k
  | v :: more, k =>
    match spin_wait env.clk v env.spin k with
    | none => none
    | some k1 => clk_waits env more k1

/-- The remaining `n` turns of the loop `for (int i = 0; i < 8; i++)` of `ps2_read`, with
`res` so far: wait while the clock is 1, sample the data line, wait while the clock is 0. -/
def ps2_read_bits (env : Ps2Env) :
    Nat → Nat → Nat → Nat × Nat → Option (Nat × (Nat × Nat))
  | 0, _, res, k => some (res, k)
  | n + 1, i, res, k =>
    match spin_wait env.clk 1 env.spin k.1 with
    | none => none
    | some c1 =>
      match spin_wait env.clk 0 env.spin c1 with
      | none => none
      | some c2 =>
        ps2_read_bits env n (i + 1)
          (if env.data k.2 ≠ 0 then (res ||| (1 <<< i)) % 256 else res) (c2, k.2 + 1)

/-- The function `ps2_read`, run from the read counts `k` (clock, data): the byte returned
and the read counts at the end, or nothing when a loop hangs; `printf` left out. -/
def ps2_read (env : Ps2Env) (k : Nat × Nat) : Option (Nat × (Nat × Nat)) :=
  match clk_waits env [1, 0] k.1 with
  | none => none
  | some c0 =>
    match ps2_read_bits env 8 0 0 (c0, k.2) with
    | none => none
    | some r =>
      match clk_waits env [1, 0, 1, 0] r.2.1 with
      | none => none
      | some c1 => some (r.1, (c1, r.2.2))

/-- A turn of the scan loop over USB on `board_keys` with the FN button held and the cell
`(7, 4)` asserted, every poll receiving the packet `dx = 5`. -/
def cycle_env_usb_busy : CycleEnv :=
  { cycle_env_cells [(7, 4)] 0 with
    polls := fun _ => poll_env_usb [(UartRead.bytes [0, 5, 0], UartRead.bytes [])] 1 }

theorem pm_cfg_lookup (n : Nat) (h : n ≤ 4) : ∃ c, pm_cfg[n]? = some c := by
  interval_cases n <;> exact ⟨_, rfl⟩

theorem update_ble_and_pm_some (env : FlushEnv) (s : PmState) (n : Nat) (h : n ≤ 4) :
    ∃ r, update_ble_and_pm env s n = some r ∧ r.1.curr_pm_state = s.curr_pm_state
      ∧ r.1.last_pm_timestamp = s.last_pm_timestamp
      ∧ r.1.is_pm_increase_rapid = s.is_pm_increase_rapid := by
  obtain ⟨c, hc⟩ := pm_cfg_lookup n h
  unfold update_ble_and_pm
  rw [hc]
  dsimp only
  split_ifs <;> exact ⟨_, rfl, rfl, rfl, rfl⟩

/-- C1. Escalation is immediate: with the lock taken and the charging signal low, a
request for a defined level `R` above the current level ends with the level equal to `R`,
whatever the timer reading and the recorded timestamp are. -/
theorem flush_power_state_escalates (env : FlushEnv) (s : PmState) (R : Nat)
    (hlock : env.lock_taken = true) (hch : env.charging = 0)
    (hup : s.curr_pm_state < R) (hR : R ≤ PM_CHARGING) :
    ∃ r, flush_power_state env s R = some r ∧ r.1.curr_pm_state = R := by
  obtain ⟨r, hr, -⟩ := update_ble_and_pm_some env
    { s with last_pm_timestamp := env.timer % UINT_MOD,
             is_pm_increase_rapid :=
               (env.charging_again == 0)
                 && ((s.curr_pm_state == PM_IDLE_SHORT_TIME && R == PM_KB_TP_ACTIVE)
                   || (s.curr_pm_state == PM_IDLE_LONG_TIME && decide (PM_KB_ACTIVE ≤ R))) }
    R hR
  have hnlt : ¬ R < s.curr_pm_state := by omega
  simp only [flush_power_state, hlock, hch, hnlt, hup, if_true, if_false, ne_eq,
    not_true_eq_false, Bool.true_eq_false, hr, Option.map_some']
  exact ⟨_, rfl, rfl⟩

theorem flush_power_state_escalates_witness :
    ∃ r, flush_power_state
        { lock_taken := true, timer := 7, charging := 0, charging_again := 0,
          ble_connected := true, gap_ok := true }
        { curr_pm_state := 1, last_pm_timestamp := 5, is_pm_increase_rapid := false,
          min_int := 32, max_int := 32, light_sleep_enable := true } 3 = some r
      ∧ r.1.curr_pm_state = 3 :=
  flush_power_state_escalates _ _ 3 rfl rfl (by decide) (by decide)

/-- C2. De-escalation is gradual and gated: with the lock taken and the charging signal low,
a request below the current level `L` (so `L` is above `PM_IDLE_LONG_TIME`) leaves the level
and the recorded timestamp as they were while the elapsed time `currtime - last_pm_timestamp`
(32-bit unsigned, as the code computes it) does not exceed the dwell duration configured for
`L`, and moves the level to exactly `L - 1` once the elapsed time exceeds it. -/
theorem flush_power_state_deescalates (env : FlushEnv) (s : PmState) (R : Nat)
    (c : kb_pm_state_t)
    (hlock : env.lock_taken = true) (hch : env.charging = 0)
    (hdown : R < s.curr_pm_state) (hL : s.curr_pm_state ≤ PM_CHARGING)
    (hc : pm_cfg[s.curr_pm_state]? = some c) :
    (diff_time (env.timer % UINT_MOD) s.last_pm_timestamp ≤ c.duration_us →
        ∃ r, flush_power_state env s R = some r ∧ r.1.curr_pm_state = s.curr_pm_state
          ∧ r.1.last_pm_timestamp = s.last_pm_timestamp ∧ r.2 = [])
    ∧ (c.duration_us < diff_time (env.timer % UINT_MOD) s.last_pm_timestamp →
        ∃ r, flush_power_state env s R = some r
          ∧ r.1.curr_pm_state = s.curr_pm_state - 1) := by
  have hnlt : ¬ s.curr_pm_state < s.curr_pm_state - 1 := by omega
  constructor
  · intro hle
    have hnot : ¬ c.duration_us < diff_time (env.timer % UINT_MOD) s.last_pm_timestamp := by
      omega
    simp only [flush_power_state, hlock, hch, hdown, hnlt, hc, hnot, if_true, if_false, ne_eq,
      not_true_eq_false, Bool.true_eq_false]
    exact ⟨_, rfl, rfl, rfl, rfl⟩
  · intro hgt
    have h4 : s.curr_pm_state - 1 ≤ 4 := by
      have : s.curr_pm_state ≤ 4 := hL
      omega
    obtain ⟨r, hr, -⟩ := update_ble_and_pm_some env
      { s with last_pm_timestamp := s.last_pm_timestamp,
               is_pm_increase_rapid :=
                 (env.charging_again == 0)
                   && ((s.curr_pm_state == PM_IDLE_SHORT_TIME
                         && s.curr_pm_state - 1 == PM_KB_TP_ACTIVE)
                     || (s.curr_pm_state == PM_IDLE_LONG_TIME
                         && decide (PM_KB_ACTIVE ≤ s.curr_pm_state - 1))) }
      (s.curr_pm_state - 1) h4
    simp only [flush_power_state, hlock, hch, hdown, hnlt, hc, hgt, if_true, if_false, ne_eq,
      not_true_eq_false, Bool.true_eq_false, hr, Option.map_some']
    exact ⟨_, rfl, rfl⟩

theorem flush_power_state_deescalates_witness :
    (∃ r, flush_power_state
        { lock_taken := true, timer := 100000000, charging := 0, charging_again := 0,
          ble_connected := false, gap_ok := true }
        { curr_pm_state := 3, last_pm_timestamp := 5, is_pm_increase_rapid := false,
          min_int := 10, max_int := 10, light_sleep_enable := false } 0 = some r
      ∧ r.1.curr_pm_state = 3 ∧ r.1.last_pm_timestamp = 5 ∧ r.2 = [])
    ∧ (∃ r, flush_power_state
        { lock_taken := true, timer := 130000000, charging := 0, charging_again := 0,
          ble_connected := false, gap_ok := true }
        { curr_pm_state := 3, last_pm_timestamp := 5, is_pm_increase_rapid := false,
          min_int := 10, max_int := 10, light_sleep_enable := false } 0 = some r
      ∧ r.1.curr_pm_state = 3 - 1) :=
  ⟨(flush_power_state_deescalates
      { lock_taken := true, timer := 100000000, charging := 0, charging_again := 0,
        ble_connected := false, gap_ok := true }
      { curr_pm_state := 3, last_pm_timestamp := 5, is_pm_increase_rapid := false,
        min_int := 10, max_int := 10, light_sleep_enable := false } 0
      { kb_int_us := 5000, ble_int_cnt := 10, duration_us := 120000000, is_sleep := false }
      rfl rfl (by decide) (by decide) rfl).1 (by decide),
   (flush_power_state_deescalates
      { lock_taken := true, timer := 130000000, charging := 0, charging_again := 0,
        ble_connected := false, gap_ok := true }
      { curr_pm_state := 3, last_pm_timestamp := 5, is_pm_increase_rapid := false,
        min_int := 10, max_int := 10, light_sleep_enable := false } 0
      { kb_int_us := 5000, ble_int_cnt := 10, duration_us := 120000000, is_sleep := false }
      rfl rfl (by decide) (by decide) rfl).2 (by decide)⟩

/-- C3. Charging override: with the lock taken and the charging signal asserted, every
request from every defined level ends with the level equal to `PM_CHARGING`, whatever the
requested level, the timer reading and the recorded timestamp are. -/
theorem flush_power_state_charging (env : FlushEnv) (s : PmState) (R : Nat)
    (hlock : env.lock_taken = true) (hch : env.charging ≠ 0)
    (hL : s.curr_pm_state ≤ PM_CHARGING) :
    ∃ r, flush_power_state env s R = some r ∧ r.1.curr_pm_state = PM_CHARGING := by
  have hL4 : s.curr_pm_state ≤ 4 := hL
  rcases Nat.lt_or_ge s.curr_pm_state 4 with hlt | hge
  · obtain ⟨r, hr, -⟩ := update_ble_and_pm_some env
      { s with last_pm_timestamp := env.timer % UINT_MOD,
               is_pm_increase_rapid :=
                 (env.charging_again == 0)
                   && ((s.curr_pm_state == PM_IDLE_SHORT_TIME && PM_CHARGING == PM_KB_TP_ACTIVE)
                     || (s.curr_pm_state == PM_IDLE_LONG_TIME
                         && decide (PM_KB_ACTIVE ≤ PM_CHARGING))) }
      PM_CHARGING (le_refl _)
    have hlt2 : s.curr_pm_state < PM_CHARGING := hlt
    simp only [flush_power_state, hlock, hch, hlt2, if_true, if_false, ne_eq,
      not_false_eq_true, Bool.true_eq_false, hr, Option.map_some']
    exact ⟨_, rfl, rfl⟩
  · have heq : s.curr_pm_state = 4 := by omega
    have hc : pm_cfg[s.curr_pm_state]? = some
        { kb_int_us := 2000, ble_int_cnt := 10, duration_us := 60000000, is_sleep := false } := by
      rw [heq]; rfl
    have hnlt : ¬ s.curr_pm_state < PM_CHARGING := by
      show ¬ s.curr_pm_state < 4
      omega
    have hd : diff_time (env.timer % UINT_MOD) (env.timer % UINT_MOD) = 0 := by
      unfold diff_time UINT_MOD
      omega
    simp only [flush_power_state, hlock, hch, hnlt, hc, hd, if_true, if_false, ne_eq,
      not_false_eq_true, Bool.true_eq_false, Nat.not_lt_zero]
    exact ⟨_, rfl, heq⟩

theorem flush_power_state_charging_witness :
    ∃ r, flush_power_state
        { lock_taken := true, timer := 99, charging := 1, charging_again := 1,
          ble_connected := true, gap_ok := false }
        { curr_pm_state := 0, last_pm_timestamp := 5, is_pm_increase_rapid := false,
          min_int := 800, max_int := 800, light_sleep_enable := true } 2 = some r
      ∧ r.1.curr_pm_state = PM_CHARGING :=
  flush_power_state_charging _ _ 2 rfl (by decide) (by decide)

theorem flush_power_state_some (env : FlushEnv) (s : PmState) (R : Nat)
    (hs : s.curr_pm_state ≤ 4) (hR : R ≤ 4) :
    ∃ r, flush_power_state env s R = some r ∧ r.1.curr_pm_state ≤ 4 := by
  obtain ⟨c, hc⟩ := pm_cfg_lookup s.curr_pm_state hs
  unfold flush_power_state
  by_cases hlock : env.lock_taken = false
  · rw [if_pos hlock]
    exact ⟨_, rfl, hs⟩
  · rw [if_neg hlock]
    have key : ∀ (n t : Nat) (b : Bool), n ≤ 4 →
        ∃ r, (update_ble_and_pm env
              { s with last_pm_timestamp := t, is_pm_increase_rapid := b } n).map
            (fun r => (({ r.1 with curr_pm_state := n,
                                   last_pm_timestamp := env.timer % UINT_MOD } : PmState),
              r.2)) = some r ∧ r.1.curr_pm_state ≤ 4 := by
      intro n t b hn
      obtain ⟨r, hr, -⟩ := update_ble_and_pm_some env
        { s with last_pm_timestamp := t, is_pm_increase_rapid := b } n hn
      rw [hr]
      exact ⟨_, rfl, hn⟩
    have h1 : s.curr_pm_state - 1 ≤ 4 := by omega
    have h4 : PM_CHARGING ≤ 4 := le_refl 4
    dsimp only
    rw [hc]
    by_cases hch : env.charging = 0
    · by_cases hlt : R < s.curr_pm_state
      · simp only [hch, hlt, if_true, if_false, ne_eq, not_true_eq_false]
        split_ifs
        all_goals first
          | exact key _ _ _ h1
          | exact ⟨_, rfl, hs⟩
      · simp only [hch, hlt, if_true, if_false, ne_eq, not_true_eq_false]
        split_ifs
        all_goals first
          | exact key _ _ _ hR
          | exact ⟨_, rfl, hs⟩
    · simp only [hch, if_true, if_false, ne_eq, not_false_eq_true]
      split_ifs
      all_goals first
        | exact key _ _ _ h4
        | exact ⟨_, rfl, hs⟩

/-! ## Theorems: trackpoint polling -/

theorem wrap_int8_of_range (x : Int) (h1 : -128 ≤ x) (h2 : x ≤ 127) : wrap_int8 x = x := by
  unfold wrap_int8
  omega

theorem wrap_int8_add_wrap (a b : Int) : wrap_int8 (wrap_int8 a + b) = wrap_int8 (a + b) := by
  unfold wrap_int8
  omega

theorem parse_packets_turn (turn : UartRead × UartRead) (pkt : Nat × Nat × Nat)
    (h : delivers turn pkt) :
    ∃ evs : List KbEvent, (∀ e ∈ evs, ∃ n r, e = KbEvent.uart_read n r) ∧
      ∀ rest acc, parse_packets (turn :: rest) acc =
        ((parse_packets rest (accumulate acc [pkt.1, pkt.2.1, pkt.2.2])).1,
          evs ++ (parse_packets rest (accumulate acc [pkt.1, pkt.2.1, pkt.2.2])).2.1,
          (parse_packets rest (accumulate acc [pkt.1, pkt.2.1, pkt.2.2])).2.2) := by
  obtain ⟨first, retry⟩ := turn
  rcases h with h | ⟨h1, h2⟩ | ⟨h1, h2⟩
  · refine ⟨[KbEvent.uart_read 3 3], ?_, ?_⟩
    · intro e he
      simp only [List.mem_singleton] at he
      exact ⟨_, _, he⟩
    · intro rest acc
      simp only at h
      subst h
      simp [parse_packets, uart_read_bytes]
  · refine ⟨[KbEvent.uart_read 3 1, KbEvent.uart_read 2 2], ?_, ?_⟩
    · intro e he
      simp only [List.mem_cons, List.mem_singleton, List.not_mem_nil, or_false] at he
      rcases he with he | he <;> exact ⟨_, _, he⟩
    · intro rest acc
      simp only at h1 h2
      subst h1 h2
      simp [parse_packets, uart_read_bytes]
  · refine ⟨[KbEvent.uart_read 3 2, KbEvent.uart_read 1 1], ?_, ?_⟩
    · intro e he
      simp only [List.mem_cons, List.mem_singleton, List.not_mem_nil, or_false] at he
      rcases he with he | he <;> exact ⟨_, _, he⟩
    · intro rest acc
      simp only at h1 h2
      subst h1 h2
      simp [parse_packets, uart_read_bytes]

theorem parse_packets_complete (turns : List (UartRead × UartRead))
    (pkts : List (Nat × Nat × Nat)) (h : List.Forall₂ delivers turns pkts) :
    ∃ evs : List KbEvent, (∀ e ∈ evs, ∃ n r, e = KbEvent.uart_read n r) ∧
      ∀ tail acc, parse_packets (turns ++ tail) acc =
        ((parse_packets tail (acc_all acc pkts)).1,
          evs ++ (parse_packets tail (acc_all acc pkts)).2.1,
          (parse_packets tail (acc_all acc pkts)).2.2) := by
  induction h with
  | nil =>
    exact ⟨[], by simp, by intro tail acc; simp [acc_all]⟩
  | cons hd _ ih =>
    obtain ⟨evs1, hev1, h1⟩ := parse_packets_turn _ _ hd
    obtain ⟨evs2, hev2, h2⟩ := ih
    refine ⟨evs1 ++ evs2, ?_, ?_⟩
    · intro e he
      rcases List.mem_append.mp he with he | he
      · exact hev1 e he
      · exact hev2 e he
    · intro tail acc
      rw [List.cons_append, h1, h2]
      simp [acc_all, List.append_assoc]

theorem parse_packets_empty (tail : List (UartRead × UartRead)) (acc : Sample)
    (h : starts_empty tail) : (parse_packets tail acc).1 = acc := by
  cases tail with
  | nil => simp [parse_packets]
  | cons turn rest =>
    obtain ⟨first, retry⟩ := turn
    have hn : ¬ (0 < (uart_read_bytes first 3).1) := by
      have : (uart_read_bytes first 3).1 ≤ 0 := h
      omega
    simp [parse_packets, hn]

theorem acc_all_spec (pkts : List (Nat × Nat × Nat)) :
    ∀ acc : Sample, acc.buttons < 256 → -128 ≤ acc.dx → acc.dx ≤ 127 → -128 ≤ acc.dy →
      acc.dy ≤ 127 → bytes_ok pkts →
      (acc_all acc pkts).buttons = acc.buttons ||| buttons_or pkts
        ∧ (acc_all acc pkts).dx = wrap_int8 (acc.dx + dx_sum pkts)
        ∧ (acc_all acc pkts).dy = wrap_int8 (acc.dy - dy_sum pkts)
        ∧ (acc_all acc pkts).is_recv = (acc.is_recv || !pkts.isEmpty) := by
  induction pkts with
  | nil =>
    intro acc _ h1 h2 h3 h4 _
    simp [acc_all, buttons_or, dx_sum, dy_sum, wrap_int8_of_range _ h1 h2,
      wrap_int8_of_range _ h3 h4]
  | cons p ps ih =>
    intro acc hb h1 h2 h3 h4 hok
    have hp : p.1 < 256 ∧ p.2.1 < 256 ∧ p.2.2 < 256 := hok p (List.mem_cons_self _ _)
    have hps : bytes_ok ps := fun q hq => hok q (List.mem_cons_of_mem _ hq)
    have hor : acc.buttons ||| p.1 < 256 := Nat.or_lt_two_pow (n := 8) hb hp.1
    have hbtn : (accumulate acc [p.1, p.2.1, p.2.2]).buttons = acc.buttons ||| p.1 := by
      simp only [accumulate, List.getD_cons_zero]
      rw [Nat.mod_eq_of_lt hp.1, Nat.mod_eq_of_lt hor]
    have hdx : (accumulate acc [p.1, p.2.1, p.2.2]).dx
        = wrap_int8 (acc.dx + ((p.2.1 % 256 : Nat) : Int)) := by
      simp [accumulate]
    have hdy : (accumulate acc [p.1, p.2.1, p.2.2]).dy
        = wrap_int8 (acc.dy - ((p.2.2 % 256 : Nat) : Int)) := by
      simp [accumulate]
    have hrecv : (accumulate acc [p.1, p.2.1, p.2.2]).is_recv = true := rfl
    have hr1 : -128 ≤ (accumulate acc [p.1, p.2.1, p.2.2]).dx
        ∧ (accumulate acc [p.1, p.2.1, p.2.2]).dx ≤ 127 := by
      rw [hdx]; unfold wrap_int8; omega
    have hr2 : -128 ≤ (accumulate acc [p.1, p.2.1, p.2.2]).dy
        ∧ (accumulate acc [p.1, p.2.1, p.2.2]).dy ≤ 127 := by
      rw [hdy]; unfold wrap_int8; omega
    obtain ⟨i1, i2, i3, i4⟩ := ih (accumulate acc [p.1, p.2.1, p.2.2])
      (by rw [hbtn]; exact hor) hr1.1 hr1.2 hr2.1 hr2.2 hps
    refine ⟨?_, ?_, ?_, ?_⟩
    · show (acc_all (accumulate acc [p.1, p.2.1, p.2.2]) ps).buttons = _
      rw [i1, hbtn]
      simp [buttons_or, Nat.or_assoc]
    · show (acc_all (accumulate acc [p.1, p.2.1, p.2.2]) ps).dx = _
      rw [i2, hdx]
      have : dx_sum (p :: ps) = byte_to_int8 p.2.1 + dx_sum ps := by simp [dx_sum]
      rw [this, wrap_int8_add_wrap, ← add_assoc]
      unfold byte_to_int8 wrap_int8
      omega
    · show (acc_all (accumulate acc [p.1, p.2.1, p.2.2]) ps).dy = _
      rw [i3, hdy]
      have : dy_sum (p :: ps) = byte_to_int8 p.2.2 + dy_sum ps := by simp [dy_sum]
      rw [this]
      unfold byte_to_int8 wrap_int8
      omega
    · show (acc_all (accumulate acc [p.1, p.2.1, p.2.2]) ps).is_recv = _
      rw [i4, hrecv]
      simp

/-- C4 (as amended). Packet decode: after a non-empty run of complete packets ended by an
empty read the sample is valid, its buttons are the bitwise OR of the button bytes cut to
the low three bits, and `dx` and `dy` are the sum of the X bytes and the negated sum of the
Y bytes reduced into the `int8_t` range, hence the exact sums whenever those lie in
`-128 .. 127`. -/
theorem parse_packets_decode (turns : List (UartRead × UartRead))
    (pkts : List (Nat × Nat × Nat)) (tail : List (UartRead × UartRead))
    (hne : pkts ≠ []) (hd : List.Forall₂ delivers turns pkts) (hb : bytes_ok pkts)
    (he : starts_empty tail) :
    (parse_packets (turns ++ tail) sample_start).1.is_recv = true
      ∧ (parse_packets (turns ++ tail) sample_start).1.buttons &&& 7 = buttons_or pkts &&& 7
      ∧ (parse_packets (turns ++ tail) sample_start).1.dx = wrap_int8 (dx_sum pkts)
      ∧ (parse_packets (turns ++ tail) sample_start).1.dy = wrap_int8 (- dy_sum pkts)
      ∧ (-128 ≤ dx_sum pkts → dx_sum pkts ≤ 127 →
          (parse_packets (turns ++ tail) sample_start).1.dx = dx_sum pkts)
      ∧ (-128 ≤ - dy_sum pkts → - dy_sum pkts ≤ 127 →
          (parse_packets (turns ++ tail) sample_start).1.dy = - dy_sum pkts) := by
  obtain ⟨evs, -, hpre⟩ := parse_packets_complete turns pkts hd
  have hs : (parse_packets (turns ++ tail) sample_start).1 = acc_all sample_start pkts := by
    rw [hpre tail sample_start]
    exact parse_packets_empty tail _ he
  obtain ⟨a1, a2, a3, a4⟩ := acc_all_spec pkts sample_start (by decide) (by decide)
    (by decide) (by decide) (by decide) hb
  have hdx : (acc_all sample_start pkts).dx = wrap_int8 (dx_sum pkts) := by
    rw [a2]; simp [sample_start]
  have hdy : (acc_all sample_start pkts).dy = wrap_int8 (- dy_sum pkts) := by
    rw [a3]; simp [sample_start]
  rw [hs]
  refine ⟨?_, ?_, hdx, hdy, ?_, ?_⟩
  · rw [a4]
    cases pkts with
    | nil => exact absurd rfl hne
    | cons p ps => simp
  · rw [a1]; simp [sample_start]
  · intro h1 h2
    rw [hdx, wrap_int8_of_range _ h1 h2]
  · intro h1 h2
    rw [hdy, wrap_int8_of_range _ h1 h2]

theorem parse_packets_decode_witness :
    (parse_packets ([(UartRead.bytes [1, 5, 253], UartRead.error)] ++ []) sample_start).1.is_recv
        = true
      ∧ (parse_packets ([(UartRead.bytes [1, 5, 253], UartRead.error)] ++ [])
          sample_start).1.buttons &&& 7 = 1
      ∧ (parse_packets ([(UartRead.bytes [1, 5, 253], UartRead.error)] ++ [])
          sample_start).1.dx = 5
      ∧ (parse_packets ([(UartRead.bytes [1, 5, 253], UartRead.error)] ++ [])
          sample_start).1.dy = 3 :=
  have h := parse_packets_decode [(UartRead.bytes [1, 5, 253], UartRead.error)]
    [(1, 5, 253)] [] (by decide)
    (List.Forall₂.cons (Or.inl rfl) List.Forall₂.nil)
    (by intro p hp; simp only [List.mem_singleton] at hp; subst hp; decide)
    trivial
  ⟨h.1, h.2.1, h.2.2.2.2.1 (by decide) (by decide), h.2.2.2.2.2 (by decide) (by decide)⟩

/-- C4, as first stated, fails: one complete packet whose Y byte is `0x80` (that is `-128`)
gives `dy = -128`, not the negated sum `128`; two complete packets whose X bytes are `100`
give `dx = -56`, not the sum `200`. -/
theorem parse_packets_decode_overflow :
    (parse_packets [(UartRead.bytes [0, 0, 128], UartRead.bytes [])] sample_start).1
        = { buttons := 0, dx := 0, dy := -128, is_recv := true }
      ∧ - dy_sum [(0, 0, 128)] = 128
      ∧ (parse_packets [(UartRead.bytes [0, 100, 0], UartRead.bytes []),
          (UartRead.bytes [0, 100, 0], UartRead.bytes [])] sample_start).1
        = { buttons := 0, dx := -56, dy := 0, is_recv := true }
      ∧ dx_sum [(0, 100, 0), (0, 100, 0)] = 200 := by
  decide

theorem parse_packets_short (turn : UartRead × UartRead) (h : short_turn turn) :
    ∃ evs : List KbEvent, (∀ e ∈ evs, ∃ n r, e = KbEvent.uart_read n r) ∧
      ∀ rest acc, parse_packets (turn :: rest) acc =
        ({ buttons := 0, dx := 0, dy := 0, is_recv := false },
          evs ++ [KbEvent.uart_flush], rest) := by
  obtain ⟨first, retry⟩ := turn
  obtain ⟨bs, hfirst, hpos, hlt, hretry⟩ := h
  simp only at hfirst hretry
  subst hfirst
  have hlen : (List.take 3 bs).length = bs.length := by
    rw [List.length_take]; omega
  rcases hretry with herr | ⟨bs2, hbs2, hsum⟩
  · subst herr
    refine ⟨[KbEvent.uart_read 3 bs.length, KbEvent.uart_read (3 - bs.length) (-1)], ?_, ?_⟩
    · intro e he
      simp only [List.mem_cons, List.mem_singleton, List.not_mem_nil, or_false] at he
      rcases he with he | he <;> exact ⟨_, _, he⟩
    · intro rest acc
      have h3 : ¬ ((bs.length : Int) + -1 = 3) := by omega
      simp [parse_packets, uart_read_bytes, hlen, hpos, hlt, h3]
  · subst hbs2
    have hlen2 : (List.take (3 - bs.length) bs2).length = bs2.length := by
      rw [List.length_take]; omega
    refine ⟨[KbEvent.uart_read 3 bs.length, KbEvent.uart_read (3 - bs.length) bs2.length],
      ?_, ?_⟩
    · intro e he
      simp only [List.mem_cons, List.mem_singleton, List.not_mem_nil, or_false] at he
      rcases he with he | he <;> exact ⟨_, _, he⟩
    · intro rest acc
      have h3 : ¬ ((bs.length : Int) + (bs2.length : Int) = 3) := by omega
      simp [parse_packets, uart_read_bytes, hlen, hlen2, hpos, hlt, h3]

/-- C5. Partial packets are never taken for motion: when the driver answers with any run of
complete packets and then a short first read whose second read leaves the packet
incomplete, the parsing loop ends with `buttons = dx = dy = 0` and `is_recv = false`, its
last driver call is `uart_flush_input`, the remaining answers are never asked for, and the
whole `poll_trackpoint` call returns having flushed the input and sent no mouse report. -/
theorem poll_trackpoint_short_read (turns : List (UartRead × UartRead))
    (pkts : List (Nat × Nat × Nat)) (turn : UartRead × UartRead)
    (rest : List (UartRead × UartRead))
    (hd : List.Forall₂ delivers turns pkts) (hshort : short_turn turn) :
    (∃ evs : List KbEvent, (∀ e ∈ evs, ∃ n r, e = KbEvent.uart_read n r) ∧
        parse_packets (turns ++ turn :: rest) sample_start =
          ({ buttons := 0, dx := 0, dy := 0, is_recv := false },
            evs ++ [KbEvent.uart_flush], rest))
    ∧ ∀ (tick_ms : Nat) (env : PollEnv) (s : KbState) (poll_us : Nat),
        0 ≤ s.uart1_fd → 0 < env.select_ret → s.pm.curr_pm_state ≤ PM_CHARGING →
        env.uart = turns ++ turn :: rest →
        ∃ r, poll_trackpoint tick_ms env s poll_us = some r
          ∧ (∀ e ∈ r.2, e.is_mouse = false) ∧ KbEvent.uart_flush ∈ r.2
          ∧ r.1.uart1_fd = s.uart1_fd := by
  obtain ⟨evs1, hev1, hpre⟩ := parse_packets_complete turns pkts hd
  obtain ⟨evs2, hev2, hsh⟩ := parse_packets_short turn hshort
  have hparse : parse_packets (turns ++ turn :: rest) sample_start =
      ({ buttons := 0, dx := 0, dy := 0, is_recv := false },
        (evs1 ++ evs2) ++ [KbEvent.uart_flush], rest) := by
    rw [hpre, hsh]
    simp [List.append_assoc]
  have hev : ∀ e ∈ evs1 ++ evs2, ∃ n r, e = KbEvent.uart_read n r := by
    intro e he
    rcases List.mem_append.mp he with he | he
    · exact hev1 e he
    · exact hev2 e he
  refine ⟨⟨evs1 ++ evs2, hev, hparse⟩, ?_⟩
  intro tick_ms env s poll_us hfd hsel hlvl huart
  obtain ⟨⟨pm1, pevs⟩, hflush, -⟩ :=
    flush_power_state_some env.flush s.pm PM_KB_TP_ACTIVE hlvl (by decide)
  have hp : parse_packets env.uart { buttons := 0, dx := 0, dy := 0, is_recv := false } =
      ({ buttons := 0, dx := 0, dy := 0, is_recv := false },
        (evs1 ++ evs2) ++ [KbEvent.uart_flush], rest) := by
    rw [huart]; exact hparse
  have h1 : ¬ s.uart1_fd < 0 := not_lt.mpr hfd
  have h2 : ¬ env.select_ret < 0 := not_lt.mpr (le_of_lt hsel)
  have h3 : env.select_ret ≠ 0 := ne_of_gt hsel
  simp only [poll_trackpoint, h1, h2, h3, hflush, hp, poll_finish, if_false, if_true, ne_eq,
    not_false_eq_true, Bool.false_eq_true]
  refine ⟨_, rfl, ?_, ?_, ?_⟩
  · intro e he
    simp only [List.mem_append] at he
    rcases he with ((he | he) | ((he | he) | he)) | he
    · simp only [List.mem_cons, List.mem_singleton, List.not_mem_nil, or_false] at he
      rcases he with rfl | rfl <;> rfl
    · obtain ⟨x, -, rfl⟩ := List.mem_map.mp he
      rfl
    · obtain ⟨n, r, rfl⟩ := hev1 e he
      rfl
    · obtain ⟨n, r, rfl⟩ := hev2 e he
      rfl
    · rw [List.mem_singleton] at he
      subst he
      rfl
    · exact absurd he (List.not_mem_nil _)
  · simp
  · split_ifs <;> rfl

theorem poll_trackpoint_short_read_witness :
    (∃ evs : List KbEvent, (∀ e ∈ evs, ∃ n r, e = KbEvent.uart_read n r) ∧
        parse_packets ([(UartRead.bytes [1, 5, 253], UartRead.error)]
            ++ (UartRead.bytes [1, 5], UartRead.bytes [])
              :: [(UartRead.bytes [1, 5, 253], UartRead.error)]) sample_start =
          ({ buttons := 0, dx := 0, dy := 0, is_recv := false },
            evs ++ [KbEvent.uart_flush], [(UartRead.bytes [1, 5, 253], UartRead.error)]))
    ∧ ∃ r, poll_trackpoint 1
          (poll_env_usb ([(UartRead.bytes [1, 5, 253], UartRead.error)]
            ++ (UartRead.bytes [1, 5], UartRead.bytes [])
              :: [(UartRead.bytes [1, 5, 253], UartRead.error)]) 1)
          { kb_initial 6 6 0 with uart1_fd := 3 } 4166 = some r
        ∧ (∀ e ∈ r.2, e.is_mouse = false) ∧ KbEvent.uart_flush ∈ r.2
        ∧ r.1.uart1_fd = 3 :=
  have h := poll_trackpoint_short_read [(UartRead.bytes [1, 5, 253], UartRead.error)]
    [(1, 5, 253)] (UartRead.bytes [1, 5], UartRead.bytes [])
    [(UartRead.bytes [1, 5, 253], UartRead.error)]
    (List.Forall₂.cons (Or.inl rfl) List.Forall₂.nil)
    ⟨[1, 5], rfl, by decide, by decide, Or.inr ⟨[], rfl, by decide⟩⟩
  ⟨h.1, h.2 1 (poll_env_usb _ 1) { kb_initial 6 6 0 with uart1_fd := 3 } 4166
    (by decide) (by decide) (by decide) rfl⟩

theorem scale_trackpoint_speed_exact (d : Int) (h1 : -43 ≤ d) (h2 : d ≤ 43) :
    scale_trackpoint_speed d = scaling_spec d := by
  unfold scale_trackpoint_speed scaling_spec MOUSE_SCALE_MIN wrap_int8
  split_ifs <;> omega

theorem filter_is_mouse_send_mouse (usb ble : Bool) (b : Nat) (x y v h : Int) :
    (send_mouse usb ble b x y v h).filter KbEvent.is_mouse = send_mouse usb ble b x y v h := by
  unfold send_mouse
  split_ifs <;> rfl

/-- C6 (as amended). Scaling transform: with the FN key released, the one mouse report of a
valid sample carries each axis value after the scaling step, and for every axis value `d`
in `-43 .. 43` that step yields `d` when `|d| ≤ 1`, `d + (d-1)*2` when `d > 1` and
`d + (d+1)*2` when `d < -1`; that value has the direction of `d` and the magnitude
`|d| + (|d|-1)*2`. -/
theorem poll_finish_scaling (env : PollEnv) (s : KbState) (smp : Sample)
    (hv : smp.is_recv = true) (hfn : env.button_fn ≠ 0) :
    (poll_finish env s smp).2.filter KbEvent.is_mouse
        = send_mouse env.usb_connected env.ble_connected (smp.buttons &&& 7)
            (scale_trackpoint_speed smp.dx) (scale_trackpoint_speed smp.dy) 0 0
      ∧ (∀ d : Int, -43 ≤ d → d ≤ 43 → scale_trackpoint_speed d = scaling_spec d)
      ∧ (∀ d : Int, 1 < |d| →
          Int.sign (scaling_spec d) = Int.sign d ∧ |scaling_spec d| = |d| + (|d| - 1) * 2) := by
  refine ⟨?_, scale_trackpoint_speed_exact, ?_⟩
  · simp only [poll_finish, mouse_report, hv, hfn, if_true, if_false]
    split_ifs
    · rw [List.filter_append, filter_is_mouse_send_mouse]
      simp [KbEvent.is_mouse]
    · exact filter_is_mouse_send_mouse _ _ _ _ _ _ _
  · intro d hd
    unfold scaling_spec
    rcases lt_or_le 0 d with hpos | hneg
    · have habs : |d| = d := abs_of_pos hpos
      rw [habs] at hd
      have hna : ¬ d.natAbs ≤ 1 := by omega
      rw [if_neg hna, if_pos hd, habs]
      have hres : 0 < d + (d - 1) * 2 := by omega
      rw [abs_of_pos hres, Int.sign_eq_one_of_pos hres, Int.sign_eq_one_of_pos hpos]
      exact ⟨rfl, rfl⟩
    · have hne : d ≠ 0 := by
        intro h0
        rw [h0] at hd
        simp at hd
      have hlt : d < 0 := lt_of_le_of_ne hneg hne
      have habs : |d| = -d := abs_of_neg hlt
      rw [habs] at hd
      have hna : ¬ d.natAbs ≤ 1 := by omega
      have hn1 : ¬ 1 < d := by omega
      rw [if_neg hna, if_neg hn1, habs]
      have hres : d + (d + 1) * 2 < 0 := by omega
      rw [abs_of_neg hres, Int.sign_eq_neg_one_of_neg hres, Int.sign_eq_neg_one_of_neg hlt]
      refine ⟨rfl, ?_⟩
      ring

theorem poll_finish_scaling_witness :
    (poll_finish (poll_env_usb [] 1) { kb_initial 6 6 0 with uart1_fd := 3 }
        { buttons := 1, dx := 5, dy := 0, is_recv := true }).2.filter KbEvent.is_mouse
      = [KbEvent.usb_mouse 1 13 0 0 0] :=
  (poll_finish_scaling (poll_env_usb [] 1) { kb_initial 6 6 0 with uart1_fd := 3 }
    { buttons := 1, dx := 5, dy := 0, is_recv := true } rfl (by decide)).1

/-- C6, as first stated, fails: the valid sample with `dx = 44` and the FN key released is
reported with `dx = -126`, not with `44 + (44-1)*2 = 130`, and the motion changes
direction. -/
theorem poll_finish_scaling_overflow :
    (poll_finish (poll_env_usb [] 1) { kb_initial 6 6 0 with uart1_fd := 3 }
        { buttons := 0, dx := 44, dy := 0, is_recv := true }).2
      = [KbEvent.usb_mouse 0 (-126) 0 0 0]
    ∧ scaling_spec 44 = 130 := by
  decide

/-! ## Theorems: trackpoint initialisation -/

theorem init_round_spec (tick_ms variant : Nat) (answers : Nat → Nat)
    (steps : List (Nat × Nat)) :
    ∀ k, (init_round tick_ms variant answers steps k).1
          = decide (acks answers steps.length k = steps.length)
      ∧ (init_round tick_ms variant answers steps k).2.2
          = k + min (acks answers steps.length k + 1) steps.length
      ∧ (init_round tick_ms variant answers steps k).2.1
          = ((answered answers steps k).take
              (min (acks answers steps.length k + 1) steps.length)).flatMap
              (render tick_ms variant) := by
  induction steps with
  | nil => intro k; simp [init_round, acks, answered]
  | cons st more ih =>
    intro k
    obtain ⟨ms, ch⟩ := st
    obtain ⟨i1, i2, i3⟩ := ih (k + 1)
    by_cases h : answers k % 256 = 0xfa
    · have hacks : acks answers (more.length + 1) k = acks answers more.length (k + 1) + 1 := by
        simp [acks, h]
      have hmin : min (acks answers more.length (k + 1) + 1 + 1) (more.length + 1)
          = min (acks answers more.length (k + 1) + 1) more.length + 1 := by omega
      simp only [init_round, h, ne_eq, not_true_eq_false, if_false, List.length_cons, hacks,
        hmin, answered, List.take_succ_cons, List.flatMap_cons, i1, i2, i3]
      refine ⟨?_, ?_, ?_⟩
      · simp
      · omega
      · simp [render, h]
    · have hacks : acks answers (more.length + 1) k = 0 := by
        simp [acks, h]
      simp only [init_round, h, ne_eq, not_false_eq_true, if_true, List.length_cons, hacks,
        answered]
      refine ⟨?_, ?_, ?_⟩
      · simp
      · omega
      · have : min (0 + 1) (more.length + 1) = 1 := by omega
        rw [this]
        simp [render]

theorem init_rounds_spec (tick_ms variant : Nat) (answers : Nat → Nat) :
    ∀ left nrtry k,
      (init_rounds tick_ms variant answers left nrtry k).2.1
          = (rounds_trace answers left k).flatMap (render tick_ms variant)
      ∧ ((init_rounds tick_ms variant answers left nrtry k).1 < nrtry + left ↔
          ∃ r, r < left ∧ (∀ j, j < r → acks answers 5 (round_start answers j k) ≠ 5)
            ∧ acks answers 5 (round_start answers r k) = 5)
      ∧ nrtry ≤ (init_rounds tick_ms variant answers left nrtry k).1 := by
  intro left
  induction left with
  | zero =>
    intro nrtry k
    simp [init_rounds, rounds_trace]
  | succ left ih =>
    intro nrtry k
    obtain ⟨r1, r2, r3⟩ := init_round_spec tick_ms variant answers init_round_steps k
    have hlen : init_round_steps.length = 5 := rfl
    rw [hlen] at r1 r2 r3
    by_cases hok : acks answers 5 k = 5
    · have hb : (init_round tick_ms variant answers init_round_steps k).1 = true := by
        rw [r1]; simp [hok]
      simp only [init_rounds, hb, if_true, rounds_trace, hok, List.append_nil]
      refine ⟨?_, ?_, le_refl _⟩
      · rw [r3]; rfl
      · constructor
        · intro _
          exact ⟨0, Nat.succ_pos _, fun j hj => absurd hj (Nat.not_lt_zero j), hok⟩
        · intro _
          omega
    · have hb : (init_round tick_ms variant answers init_round_steps k).1 = false := by
        rw [r1]; simp [hok]
      obtain ⟨i1, i2, i3⟩ := ih (nrtry + 1) (k + round_len answers k)
      have hk : (init_round tick_ms variant answers init_round_steps k).2.2
          = k + round_len answers k := by
        rw [r2]; rfl
      simp only [init_rounds, hb, Bool.false_eq_true, if_false, rounds_trace, hok, hk,
        List.flatMap_append]
      refine ⟨?_, ?_, ?_⟩
      · rw [i1, r3]; rfl
      · have hshift : nrtry + (left + 1) = nrtry + 1 + left := by omega
        rw [hshift, i2]
        constructor
        · rintro ⟨r, hr, hmin, hr5⟩
          refine ⟨r + 1, by omega, ?_, hr5⟩
          intro j hj
          cases j with
          | zero => exact hok
          | succ j => exact hmin j (by omega)
        · rintro ⟨r, hr, hmin, hr5⟩
          cases r with
          | zero => exact absurd hr5 hok
          | succ r =>
            exact ⟨r, by omega, fun j hj => hmin (j + 1) (by omega), hr5⟩
      · omega

theorem rounds_trace_length (answers : Nat → Nat) :
    ∀ left k, (rounds_trace answers left k).length ≤ 5 * left := by
  intro left
  induction left with
  | zero => intro k; simp [rounds_trace]
  | succ left ih =>
    intro k
    have h1 : ((answered answers init_round_steps k).take (round_len answers k)).length ≤ 5 := by
      rw [List.length_take]
      unfold round_len
      omega
    have h2 := ih (k + round_len answers k)
    simp only [rounds_trace, List.length_append]
    split_ifs
    · simp only [List.length_nil]
      omega
    · omega

theorem written_flatMap_render (tick_ms variant : Nat) (l : List (Nat × Nat × Nat)) :
    written (l.flatMap (render tick_ms variant)) = l.map (fun x => x.2.1) := by
  induction l with
  | nil => rfl
  | cons x more ih =>
    have hx : written (render tick_ms variant x) = [x.2.1] := rfl
    unfold written at ih hx ⊢
    rw [List.flatMap_cons, List.filterMap_append, ih, hx]
    rfl

theorem init_trackpad_cases (tick_ms : Nat) (env : InitEnv) (s : KbState) :
    (handshake_ok env.ps2_answers →
        init_trackpad tick_ms env s
          = ({ s with uart1_fd := env.open_fd },
              init_head tick_ms env.ps2_answers
                ++ (rounds_trace env.ps2_answers 5 1).flatMap
                    (render tick_ms (init_variant env.ps2_answers))
                ++ [KbEvent.uart_open env.open_fd]))
    ∧ (¬ handshake_ok env.ps2_answers →
        init_trackpad tick_ms env s
          = (s, init_head tick_ms env.ps2_answers
                ++ (rounds_trace env.ps2_answers 5 1).flatMap
                    (render tick_ms (init_variant env.ps2_answers)))) := by
  obtain ⟨h1, h2, -⟩ :=
    init_rounds_spec tick_ms (init_variant env.ps2_answers) env.ps2_answers 5 0 1
  have h2b : (init_rounds tick_ms (init_variant env.ps2_answers) env.ps2_answers 5 0 1).1 < 5
      ↔ handshake_ok env.ps2_answers := by
    have h05 : 0 + 5 = 5 := rfl
    rw [h05] at h2
    exact h2
  constructor
  · intro hok
    have hlt := h2b.mpr hok
    unfold init_trackpad
    simp only [init_variant] at h1 hlt ⊢
    simp only [hlt, if_true, h1]
    rfl
  · intro hno
    have hnlt : ¬ (init_rounds tick_ms (init_variant env.ps2_answers) env.ps2_answers 5 0 1).1
        < 5 := fun h => hno (h2b.mp h)
    unfold init_trackpad
    simp only [init_variant] at h1 hnlt ⊢
    simp only [hnlt, if_false, h1]
    rfl

theorem uart_open_not_mem_flatMap_render (tick_ms variant : Nat) (fd : Int)
    (l : List (Nat × Nat × Nat)) :
    KbEvent.uart_open fd ∉ l.flatMap (render tick_ms variant) := by
  intro h
  obtain ⟨x, -, hx⟩ := List.mem_flatMap.mp h
  simp [render] at hx

theorem rounds_trace_rounds (answers : Nat → Nat) :
    ∀ left k, rounds_trace answers left k
      = (List.range left).flatMap (fun r =>
          if (∀ j, j < r → acks answers 5 (round_start answers j k) ≠ 5) then
            (answered answers [(70, 0xff), (70, 0xff), (70, 0xf3), (3, 0x50), (3, 0xf4)]
                (round_start answers r k)).take (round_len answers (round_start answers r k))
          else []) := by
  intro left
  induction left with
  | zero => intro k; rfl
  | succ left ih =>
    intro k
    have hsteps : init_round_steps
        = [(70, 0xff), (70, 0xff), (70, 0xf3), (3, 0x50), (3, 0xf4)] := rfl
    rw [List.range_succ_eq_map, List.flatMap_cons, List.flatMap_map]
    have h0 : (∀ j, j < 0 → acks answers 5 (round_start answers j k) ≠ 5) :=
      fun j hj => absurd hj (Nat.not_lt_zero j)
    rw [if_pos h0]
    have hdef : rounds_trace answers (left + 1) k
        = (answered answers init_round_steps k).take (round_len answers k)
          ++ (if acks answers 5 k = 5 then []
              else rounds_trace answers left (k + round_len answers k)) := rfl
    rw [hdef, hsteps]
    have hk : round_start answers 0 k = k := rfl
    rw [hk]
    congr 1
    by_cases hok : acks answers 5 k = 5
    · rw [if_pos hok]
      symm
      rw [List.flatMap_eq_nil_iff]
      intro r _
      have hno : ¬ (∀ j, j < r + 1 → acks answers 5 (round_start answers j k) ≠ 5) :=
        fun h => h 0 (Nat.succ_pos r) hok
      show (if (∀ j, j < r + 1 → acks answers 5 (round_start answers j k) ≠ 5) then _ else _) = _
      rw [if_neg hno]
    · rw [if_neg hok, ih (k + round_len answers k)]
      apply List.flatMap_congr
      intro r _
      have hs : ∀ j, round_start answers (j + 1) k
          = round_start answers j (k + round_len answers k) := fun j => rfl
      have hiff : (∀ j, j < r + 1 → acks answers 5 (round_start answers j k) ≠ 5)
          ↔ (∀ j, j < r →
              acks answers 5 (round_start answers j (k + round_len answers k)) ≠ 5) := by
        constructor
        · intro h j hj
          rw [← hs j]
          exact h (j + 1) (by omega)
        · intro h j hj
          cases j with
          | zero => exact hok
          | succ j =>
            rw [hs j]
            exact h j (by omega)
      show _ = (if (∀ j, j < r + 1 → acks answers 5 (round_start answers j k) ≠ 5) then _ else _)
      rw [hs r]
      by_cases hc : (∀ j, j < r →
              acks answers 5 (round_start answers j (k + round_len answers k)) ≠ 5)
      · rw [if_pos hc, if_pos (hiff.mpr hc)]
      · rw [if_neg hc, if_neg (fun h => hc (hiff.mp h))]

theorem acks_five_iff (answers : Nat → Nat) (k : Nat) :
    acks answers 5 k = 5
      ↔ (answered answers [(70, 0xff), (70, 0xff), (70, 0xf3), (3, 0x50), (3, 0xf4)] k).take
            (round_len answers k)
          = [(70, 0xff, 0xfa), (70, 0xff, 0xfa), (70, 0xf3, 0xfa), (3, 0x50, 0xfa),
              (3, 0xf4, 0xfa)] := by
  have hall : acks answers 5 k = 5
      ↔ answers k % 256 = 0xfa ∧ answers (k + 1) % 256 = 0xfa ∧ answers (k + 2) % 256 = 0xfa
        ∧ answers (k + 3) % 256 = 0xfa ∧ answers (k + 4) % 256 = 0xfa := by
    simp only [acks]
    constructor
    · intro h
      split_ifs at h with h0 h1 h2 h3 h4 <;> first | omega | exact ⟨h0, h1, h2, h3, h4⟩
    · rintro ⟨h0, h1, h2, h3, h4⟩
      simp [h0, h1, h2, h3, h4]
  constructor
  · intro h
    obtain ⟨h0, h1, h2, h3, h4⟩ := hall.mp h
    have hl : round_len answers k = 5 := by
      unfold round_len
      rw [h]
      rfl
    rw [hl]
    simp [answered, h0, h1, h2, h3, h4]
  · intro h
    have hlen := congrArg List.length h
    rw [List.length_take] at hlen
    have hl : round_len answers k = 5 := by
      have h5 : (answered answers
          [(70, 0xff), (70, 0xff), (70, 0xf3), (3, 0x50), (3, 0xf4)] k).length = 5 := rfl
      have hle : round_len answers k ≤ 5 := by
        unfold round_len
        omega
      rw [h5] at hlen
      simp only [List.length_cons, List.length_nil] at hlen
      omega
    rw [hl] at h
    simp only [answered, List.take_succ_cons, List.take_zero, List.cons.injEq, Prod.mk.injEq,
      true_and, and_true] at h
    exact hall.mpr h

/-- C9. Handshake outcome: with the device given as the bytes returned by the successive
`ps2_read` calls, `init_trackpad` reaches its initialised branch (where it opens the UART)
exactly when one of the five rounds after the reset probe is started and has the five
bytes `0xff 0xff 0xf3 0x50 0xf4` written in that order, each answered by `0xfa`. The calls
made are the reset probe followed by the rounds; round `r` is started when no round before
it had five acknowledgements, and writes the bytes `0xff 0xff 0xf3 0x50 0xf4` (after delays
of 70, 70, 70, 3 and 3 ms) up to and including the first one whose answer is not `0xfa`;
and at most 26 bytes are written. -/
theorem init_trackpad_handshake (tick_ms : Nat) (env : InitEnv) (s : KbState) :
    (KbEvent.uart_open env.open_fd ∈ (init_trackpad tick_ms env s).2
        ↔ handshake_ok env.ps2_answers)
    ∧ (∃ tail, (init_trackpad tick_ms env s).2
          = init_head tick_ms env.ps2_answers
              ++ (rounds_trace env.ps2_answers 5 1).flatMap
                  (render tick_ms (init_variant env.ps2_answers))
              ++ tail
        ∧ (tail = [] ∨ tail = [KbEvent.uart_open env.open_fd]))
    ∧ written (init_trackpad tick_ms env s).2
        = 0xff :: (rounds_trace env.ps2_answers 5 1).map (fun x => x.2.1)
    ∧ (written (init_trackpad tick_ms env s).2).length ≤ 26
    ∧ rounds_trace env.ps2_answers 5 1
        = (List.range 5).flatMap (fun r =>
            if (∀ j, j < r →
                acks env.ps2_answers 5 (round_start env.ps2_answers j 1) ≠ 5) then
              (answered env.ps2_answers
                  [(70, 0xff), (70, 0xff), (70, 0xf3), (3, 0x50), (3, 0xf4)]
                  (round_start env.ps2_answers r 1)).take
                (round_len env.ps2_answers (round_start env.ps2_answers r 1))
            else [])
    ∧ (KbEvent.uart_open env.open_fd ∈ (init_trackpad tick_ms env s).2
        ↔ ∃ r, r < 5
          ∧ (∀ j, j < r → acks env.ps2_answers 5 (round_start env.ps2_answers j 1) ≠ 5)
          ∧ (answered env.ps2_answers
                [(70, 0xff), (70, 0xff), (70, 0xf3), (3, 0x50), (3, 0xf4)]
                (round_start env.ps2_answers r 1)).take
              (round_len env.ps2_answers (round_start env.ps2_answers r 1))
            = [(70, 0xff, 0xfa), (70, 0xff, 0xfa), (70, 0xf3, 0xfa), (3, 0x50, 0xfa),
                (3, 0xf4, 0xfa)])
    ∧ written (init_trackpad tick_ms env s).2
        = 0xff :: (List.range 5).flatMap (fun r =>
            if (∀ j, j < r →
                acks env.ps2_answers 5 (round_start env.ps2_answers j 1) ≠ 5) then
              [0xff, 0xff, 0xf3, 0x50, 0xf4].take
                (round_len env.ps2_answers (round_start env.ps2_answers r 1))
            else []) := by
  obtain ⟨hyes, hno⟩ := init_trackpad_cases tick_ms env s
  have hlen := rounds_trace_length env.ps2_answers 5 1
  have hw : ∀ tail, written tail = [] →
      written (init_head tick_ms env.ps2_answers
          ++ (rounds_trace env.ps2_answers 5 1).flatMap
              (render tick_ms (init_variant env.ps2_answers)) ++ tail)
        = 0xff :: (rounds_trace env.ps2_answers 5 1).map (fun x => x.2.1) := by
    intro tail ht
    have h0 : written (init_head tick_ms env.ps2_answers) = [0xff] := rfl
    have h1 := written_flatMap_render tick_ms (init_variant env.ps2_answers)
      (rounds_trace env.ps2_answers 5 1)
    unfold written at h0 h1 ht ⊢
    rw [List.filterMap_append, List.filterMap_append, h0, h1, ht]
    simp
  have hrounds := rounds_trace_rounds env.ps2_answers 5 1
  have hok_iff : handshake_ok env.ps2_answers
      ↔ ∃ r, r < 5
          ∧ (∀ j, j < r → acks env.ps2_answers 5 (round_start env.ps2_answers j 1) ≠ 5)
          ∧ (answered env.ps2_answers
                [(70, 0xff), (70, 0xff), (70, 0xf3), (3, 0x50), (3, 0xf4)]
                (round_start env.ps2_answers r 1)).take
              (round_len env.ps2_answers (round_start env.ps2_answers r 1))
            = [(70, 0xff, 0xfa), (70, 0xff, 0xfa), (70, 0xf3, 0xfa), (3, 0x50, 0xfa),
                (3, 0xf4, 0xfa)] := by
    unfold handshake_ok
    constructor
    · rintro ⟨r, hr, hmin, h5⟩
      exact ⟨r, hr, hmin, (acks_five_iff _ _).mp h5⟩
    · rintro ⟨r, hr, hmin, h5⟩
      exact ⟨r, hr, hmin, (acks_five_iff _ _).mpr h5⟩
  have hbytes : (rounds_trace env.ps2_answers 5 1).map (fun x => x.2.1)
      = (List.range 5).flatMap (fun r =>
            if (∀ j, j < r →
                acks env.ps2_answers 5 (round_start env.ps2_answers j 1) ≠ 5) then
              [0xff, 0xff, 0xf3, 0x50, 0xf4].take
                (round_len env.ps2_answers (round_start env.ps2_answers r 1))
            else []) := by
    rw [hrounds, List.map_flatMap]
    apply List.flatMap_congr
    intro r _
    by_cases hc : (∀ j, j < r →
        acks env.ps2_answers 5 (round_start env.ps2_answers j 1) ≠ 5)
    · rw [if_pos hc, if_pos hc, List.map_take]
      rfl
    · rw [if_neg hc, if_neg hc]
      rfl
  by_cases hok : handshake_ok env.ps2_answers
  · have heq := hyes hok
    have hwr := hw [KbEvent.uart_open env.open_fd] rfl
    have hmem : KbEvent.uart_open env.open_fd ∈ (init_trackpad tick_ms env s).2 := by
      rw [heq]; simp
    refine ⟨⟨fun _ => hok, fun _ => hmem⟩, ?_, ?_, ?_, hrounds,
      ⟨fun _ => hok_iff.mp hok, fun _ => hmem⟩, ?_⟩
    · rw [heq]; exact ⟨_, rfl, Or.inr rfl⟩
    · rw [heq]; exact hwr
    · rw [heq, hwr]
      simp only [List.length_cons, List.length_map]
      omega
    · rw [heq, hwr, hbytes]
  · have heq := hno hok
    have hwr := hw [] rfl
    rw [List.append_nil] at hwr
    have hnmem : KbEvent.uart_open env.open_fd ∉ (init_trackpad tick_ms env s).2 := by
      rw [heq]
      intro hmem
      rcases List.mem_append.mp hmem with hm | hm
      · simp [init_head] at hm
      · exact uart_open_not_mem_flatMap_render _ _ _ _ hm
    refine ⟨⟨fun h => absurd h hnmem, fun h => absurd h hok⟩, ?_, ?_, ?_, hrounds,
      ⟨fun h => absurd h hnmem, fun h => absurd (hok_iff.mpr h) hok⟩, ?_⟩
    · rw [heq]; exact ⟨[], by simp, Or.inl rfl⟩
    · rw [heq]; exact hwr
    · rw [heq, hwr]
      simp only [List.length_cons, List.length_map]
      omega
    · rw [heq, hwr, hbytes]

/-- Two devices: one that acknowledges every byte, and one that fails to acknowledge the
second byte of the first round and acknowledges everything else. -/
theorem init_trackpad_examples :
    written (init_trackpad 1 { ps2_answers := fun _ => 0xfa, open_fd := 3 }
        (kb_initial 6 6 0)).2
      = [0xff, 0xff, 0xff, 0xf3, 0x50, 0xf4]
    ∧ (init_trackpad 1 { ps2_answers := fun _ => 0xfa, open_fd := 3 }
        (kb_initial 6 6 0)).1.uart1_fd = 3
    ∧ written (init_trackpad 1 { ps2_answers := fun k => if k = 2 then 0 else 0xfa, open_fd := 3 }
        (kb_initial 6 6 0)).2
      = [0xff, 0xff, 0xff, 0xff, 0xff, 0xf3, 0x50, 0xf4]
    ∧ (init_trackpad 1 { ps2_answers := fun k => if k = 2 then 0 else 0xfa, open_fd := 3 }
        (kb_initial 6 6 0)).1.uart1_fd = 3 := by
  decide

theorem run_polls_failed (tick_ms : Nat) (s : KbState) (hfd : s.uart1_fd < 0) :
    ∀ polls : List (PollEnv × Nat),
      ∃ evs, run_polls tick_ms polls s = some (s, evs)
        ∧ (∀ e ∈ evs, ∃ t, e = KbEvent.delay t) ∧ evs.length = polls.length := by
  intro polls
  induction polls with
  | nil => exact ⟨[], rfl, by simp, rfl⟩
  | cons p more ih =>
    obtain ⟨penv, poll_us⟩ := p
    obtain ⟨evs, hrun, hall, hlen⟩ := ih
    refine ⟨KbEvent.delay (poll_us / 1000 / tick_ms) :: evs, ?_, ?_, ?_⟩
    · simp only [run_polls, poll_trackpoint, hfd, if_true, hrun]
      rfl
    · intro e he
      rcases List.mem_cons.mp he with he | he
      · exact ⟨_, he⟩
      · exact hall e he
    · simp [hlen]

/-- C10. Handshake exhaustion: when none of the five rounds is acknowledged in full, the
handle `uart1_fd` (negative at boot) stays negative, and every later sequence of
`poll_trackpoint` calls, whatever the poll windows and inputs, returns with the state
unchanged, each call having done nothing but one `vTaskDelay`: no mouse report, no power
request, no call on the UART or the PS2 lines. -/
theorem init_trackpad_exhausted (tick_ms : Nat) (env : InitEnv) (s : KbState)
    (hfd : s.uart1_fd < 0)
    (hfail : ∀ r, r < 5 →
      acks env.ps2_answers 5 (round_start env.ps2_answers r 1) ≠ 5) :
    (init_trackpad tick_ms env s).1.uart1_fd < 0
      ∧ KbEvent.uart_open env.open_fd ∉ (init_trackpad tick_ms env s).2
      ∧ ∀ polls : List (PollEnv × Nat),
          ∃ evs, run_polls tick_ms polls (init_trackpad tick_ms env s).1
              = some ((init_trackpad tick_ms env s).1, evs)
            ∧ (∀ e ∈ evs, ∃ t, e = KbEvent.delay t) ∧ evs.length = polls.length := by
  have hno : ¬ handshake_ok env.ps2_answers := by
    rintro ⟨r, hr, -, h5⟩
    exact hfail r hr h5
  have heq := (init_trackpad_cases tick_ms env s).2 hno
  rw [heq]
  refine ⟨hfd, ?_, run_polls_failed tick_ms s hfd⟩
  intro hmem
  rcases List.mem_append.mp hmem with hm | hm
  · simp [init_head] at hm
  · exact uart_open_not_mem_flatMap_render _ _ _ _ hm

theorem init_trackpad_exhausted_witness :
    (init_trackpad 1 { ps2_answers := answers_dead, open_fd := 3 } (kb_initial 6 6 0)).1.uart1_fd
        < 0
      ∧ KbEvent.uart_open 3
          ∉ (init_trackpad 1 { ps2_answers := answers_dead, open_fd := 3 } (kb_initial 6 6 0)).2
      ∧ ∀ polls : List (PollEnv × Nat),
          ∃ evs, run_polls 1 polls
              (init_trackpad 1 { ps2_answers := answers_dead, open_fd := 3 }
                (kb_initial 6 6 0)).1
              = some ((init_trackpad 1 { ps2_answers := answers_dead, open_fd := 3 }
                (kb_initial 6 6 0)).1, evs)
            ∧ (∀ e ∈ evs, ∃ t, e = KbEvent.delay t) ∧ evs.length = polls.length :=
  init_trackpad_exhausted 1 { ps2_answers := answers_dead, open_fd := 3 } (kb_initial 6 6 0)
    (by decide) (fun r _ => by simp [acks, answers_dead])

/-! ## Theorems: the scan loop -/

theorem filter_nil_of_forall (p : KbEvent → Bool) (l : List KbEvent)
    (h : ∀ e ∈ l, p e = false) : l.filter p = [] := by
  rw [List.filter_eq_nil_iff]
  intro e he
  rw [h e he]
  exact Bool.false_ne_true

theorem filter_pm_events (p : KbEvent → Bool) (hp : ∀ x, p (KbEvent.pm x) = false)
    (pevs : List PmEvent) : (pevs.map KbEvent.pm).filter p = [] := by
  apply filter_nil_of_forall
  intro e he
  obtain ⟨x, -, rfl⟩ := List.mem_map.mp he
  exact hp x

theorem parse_packets_events (p : KbEvent → Bool) (hr : ∀ n r, p (KbEvent.uart_read n r) = false)
    (hf : p KbEvent.uart_flush = false) :
    ∀ script acc, (parse_packets script acc).2.1.filter p = [] := by
  intro script
  induction script with
  | nil => intro acc; simp [parse_packets, hr]
  | cons turn rest ih =>
    intro acc
    obtain ⟨first, retry⟩ := turn
    simp only [parse_packets]
    split_ifs <;> simp [List.filter_append, ih, hr, hf, List.filter_cons]

theorem filter_is_key_report_send_mouse (usb ble : Bool) (b : Nat) (x y v h : Int) :
    (send_mouse usb ble b x y v h).filter KbEvent.is_key_report = [] := by
  unfold send_mouse
  split_ifs <;> rfl

theorem filter_mouse_report (env : PollEnv) (b : Nat) (x y : Int) :
    (mouse_report env b x y).filter KbEvent.is_mouse = mouse_report env b x y
      ∧ (mouse_report env b x y).filter KbEvent.is_key_report = [] := by
  unfold mouse_report
  by_cases hfn : env.button_fn = 0
  · rw [if_pos hfn]
    exact ⟨filter_is_mouse_send_mouse _ _ _ _ _ _ _,
      filter_is_key_report_send_mouse _ _ _ _ _ _ _⟩
  · rw [if_neg hfn]
    exact ⟨filter_is_mouse_send_mouse _ _ _ _ _ _ _,
      filter_is_key_report_send_mouse _ _ _ _ _ _ _⟩

theorem poll_finish_spec (env : PollEnv) (s : KbState) (smp : Sample) :
    (poll_finish env s smp).1.pm = s.pm
      ∧ (poll_finish env s smp).1.uart1_fd = s.uart1_fd
      ∧ (poll_finish env s smp).1.wakeup_time = s.wakeup_time
      ∧ (poll_finish env s smp).1.lasthid = s.lasthid
      ∧ (poll_finish env s smp).1.lasthotkey = s.lasthotkey
      ∧ (poll_finish env s smp).2.filter KbEvent.is_key_report = []
      ∧ (poll_finish env s smp).2.filter KbEvent.is_mouse
          = (if smp.is_recv = true then mouse_report env (smp.buttons &&& 7) smp.dx smp.dy
             else []) := by
  obtain ⟨m1, m2⟩ := filter_mouse_report env (smp.buttons &&& 7) smp.dx smp.dy
  unfold poll_finish
  dsimp only
  split_ifs
  · refine ⟨rfl, rfl, rfl, rfl, rfl, ?_, ?_⟩
    · rw [List.filter_append, m2]; rfl
    · rw [List.filter_append, m1]; simp [KbEvent.is_mouse]
  · exact ⟨rfl, rfl, rfl, rfl, rfl, m2, m1⟩
  · exact ⟨rfl, rfl, rfl, rfl, rfl, rfl, rfl⟩

theorem poll_trackpoint_spec (tick_ms : Nat) (env : PollEnv) (s : KbState) (poll_us : Nat)
    (h : s.pm.curr_pm_state ≤ 4) :
    ∃ r, poll_trackpoint tick_ms env s poll_us = some r
      ∧ r.1.pm.curr_pm_state ≤ 4
      ∧ r.1.lasthid = s.lasthid ∧ r.1.lasthotkey = s.lasthotkey
      ∧ r.1.uart1_fd = fd_after env s.uart1_fd
      ∧ r.2.filter KbEvent.is_key_report = []
      ∧ r.2.filter KbEvent.is_mouse = (if observes env s.uart1_fd then poll_report env else []) := by
  by_cases hfd : s.uart1_fd < 0
  · have hnf : ¬ (0 ≤ s.uart1_fd ∧ env.select_ret < 0) := fun hh => absurd hh.1 (not_le.mpr hfd)
    have hno : ¬ observes env s.uart1_fd := fun hh => absurd hh.1 (not_le.mpr hfd)
    refine ⟨(s, [KbEvent.delay (poll_us / 1000 / tick_ms)]), ?_, h, rfl, rfl, ?_, rfl, ?_⟩
    · simp only [poll_trackpoint, hfd, if_true]
    · simp only [fd_after, hnf, if_false]
    · rw [if_neg hno]; rfl
  · have hfd0 : 0 ≤ s.uart1_fd := not_lt.mp hfd
    by_cases hs : env.select_ret < 0
    · have hno : ¬ observes env s.uart1_fd := fun hh => absurd hh.2.1 (not_lt.mpr (le_of_lt hs))
      obtain ⟨f1, f2, -, f4, f5, f6, f7⟩ := poll_finish_spec env { s with uart1_fd := -1 }
        { buttons := 0, dx := 0, dy := 0, is_recv := false }
      have heq : poll_trackpoint tick_ms env s poll_us
          = some ((poll_finish env { s with uart1_fd := -1 }
                { buttons := 0, dx := 0, dy := 0, is_recv := false }).1,
              [KbEvent.uart_select poll_us, KbEvent.uart_close]
                ++ (poll_finish env { s with uart1_fd := -1 }
                  { buttons := 0, dx := 0, dy := 0, is_recv := false }).2) := by
        simp only [poll_trackpoint, hfd, hs, if_true, if_false]
      refine ⟨_, heq, ?_, ?_, ?_, ?_, ?_, ?_⟩
      · rw [f1]; exact h
      · rw [f4]
      · rw [f5]
      · rw [f2]; simp only [fd_after, hfd0, hs, and_self, if_true]
      · rw [List.filter_append, f6]; rfl
      · rw [List.filter_append, f7, if_neg hno]; rfl
    · by_cases hz : env.select_ret = 0
      · have hno : ¬ observes env s.uart1_fd := fun hh => by
          have := hh.2.1
          omega
        have hnf : ¬ (0 ≤ s.uart1_fd ∧ env.select_ret < 0) := fun hh => hs hh.2
        obtain ⟨f1, f2, -, f4, f5, f6, f7⟩ := poll_finish_spec env s
          { buttons := 0, dx := 0, dy := 0, is_recv := false }
        have heq : poll_trackpoint tick_ms env s poll_us
            = some ((poll_finish env s
                  { buttons := 0, dx := 0, dy := 0, is_recv := false }).1,
                [KbEvent.uart_select poll_us]
                  ++ (poll_finish env s
                    { buttons := 0, dx := 0, dy := 0, is_recv := false }).2) := by
          simp only [poll_trackpoint, hfd, hz, lt_self_iff_false, if_false, ne_eq,
            not_true_eq_false]
        refine ⟨_, heq, ?_, ?_, ?_, ?_, ?_, ?_⟩
        · rw [f1]; exact h
        · rw [f4]
        · rw [f5]
        · rw [f2]; simp only [fd_after, hnf, if_false]
        · rw [List.filter_append, f6]; rfl
        · rw [List.filter_append, f7, if_neg hno]; rfl
      · have hpos : 0 < env.select_ret := by omega
        have hnf : ¬ (0 ≤ s.uart1_fd ∧ env.select_ret < 0) := fun hh => hs hh.2
        obtain ⟨⟨pm1, pevs⟩, hflush, hpm1⟩ :=
          flush_power_state_some env.flush s.pm PM_KB_TP_ACTIVE h (by decide)
        obtain ⟨s1, hs1, hs1pm, hs1fd, hs1hid, hs1hot⟩ :
            ∃ s1 : KbState, s1 = (if (env.ble_connected && !env.usb_connected
                && pm_should_wait pm1) = true
              then { s with pm := pm1, wakeup_time := env.timer_wakeup % UINT_MOD }
              else { s with pm := pm1 })
              ∧ s1.pm = pm1 ∧ s1.uart1_fd = s.uart1_fd ∧ s1.lasthid = s.lasthid
              ∧ s1.lasthotkey = s.lasthotkey := by
          refine ⟨_, rfl, ?_, ?_, ?_, ?_⟩ <;> split_ifs <;> rfl
        obtain ⟨f1, f2, -, f4, f5, f6, f7⟩ := poll_finish_spec env s1
          (parse_packets env.uart { buttons := 0, dx := 0, dy := 0, is_recv := false }).1
        have hq1 := parse_packets_events KbEvent.is_key_report (fun _ _ => rfl) rfl env.uart
          { buttons := 0, dx := 0, dy := 0, is_recv := false }
        have hq2 := parse_packets_events KbEvent.is_mouse (fun _ _ => rfl) rfl env.uart
          { buttons := 0, dx := 0, dy := 0, is_recv := false }
        have hp1 := filter_pm_events KbEvent.is_key_report (fun _ => rfl) pevs
        have hp2 := filter_pm_events KbEvent.is_mouse (fun _ => rfl) pevs
        have heq : poll_trackpoint tick_ms env s poll_us
            = some ((poll_finish env s1 (parse_packets env.uart
                  { buttons := 0, dx := 0, dy := 0, is_recv := false }).1).1,
                [KbEvent.uart_select poll_us, KbEvent.power_request PM_KB_TP_ACTIVE]
                  ++ pevs.map KbEvent.pm
                  ++ (parse_packets env.uart
                    { buttons := 0, dx := 0, dy := 0, is_recv := false }).2.1
                  ++ (poll_finish env s1 (parse_packets env.uart
                    { buttons := 0, dx := 0, dy := 0, is_recv := false }).1).2) := by
          simp only [poll_trackpoint, hfd, hs, hz, hflush, if_false, if_true, ne_eq,
            not_false_eq_true, ← hs1]
        refine ⟨_, heq, ?_, ?_, ?_, ?_, ?_, ?_⟩
        · rw [f1, hs1pm]; exact hpm1
        · rw [f4, hs1hid]
        · rw [f5, hs1hot]
        · rw [f2, hs1fd]; simp only [fd_after, hnf, if_false]
        · simp only [List.filter_append, f6, hq1, hp1, List.append_nil]
          rfl
        · simp only [List.filter_append, f7, hq2, hp2, List.append_nil]
          by_cases hrecv : (parse_packets env.uart
              { buttons := 0, dx := 0, dy := 0, is_recv := false }).1.is_recv = true
          · have hobs : observes env s.uart1_fd := ⟨hfd0, hpos, hrecv⟩
            rw [if_pos hrecv, if_pos hobs]
            rfl
          · have hobs : ¬ observes env s.uart1_fd := fun hh => hrecv hh.2.2
            rw [if_neg hrecv, if_neg hobs]
            rfl

theorem filter_row_events (p : KbEvent → Bool) (hp : ∀ j l, p (KbEvent.row_read j l) = false)
    (env : CycleEnv) (i : Nat) : (row_events env i).filter p = [] := by
  apply filter_nil_of_forall
  intro e he
  obtain ⟨j, -, rfl⟩ := List.mem_map.mp he
  exact hp j _

theorem scan_columns_spec (b : Board) (env : CycleEnv) :
    ∀ (cols : List Nat) (a : ScanAcc) (s : KbState), s.pm.curr_pm_state ≤ 4 →
      ∃ r, scan_columns b env cols a s = some r
        ∧ r.1 = scan_matrix b env cols a
        ∧ r.2.1.pm.curr_pm_state ≤ 4
        ∧ r.2.1.lasthid = s.lasthid ∧ r.2.1.lasthotkey = s.lasthotkey
        ∧ r.2.2.filter KbEvent.is_key_report = []
        ∧ r.2.2.filter KbEvent.is_mouse
            = (observing env cols s.uart1_fd).flatMap (fun i => poll_report (env.polls i)) := by
  intro cols
  induction cols with
  | nil =>
    intro a s _
    exact ⟨(a, s, []), rfl, rfl, by assumption, rfl, rfl, rfl, rfl⟩
  | cons i more ih =>
    intro a s hs
    obtain ⟨c, hc⟩ := pm_cfg_lookup s.pm.curr_pm_state hs
    have hint : get_kb_scan_interval_us s.pm = some ((c.kb_int_us * 5 % UINT_MOD) / 6) := by
      simp only [get_kb_scan_interval_us, hc, Option.map_some']
    obtain ⟨⟨s1, pevs⟩, hpoll, p1, p2, p3, p4, p5, p6⟩ :=
      poll_trackpoint_spec b.portTICK_PERIOD_MS (env.polls i) s
        ((c.kb_int_us * 5 % UINT_MOD) / 6) hs
    obtain ⟨⟨a2, s2, evs⟩, hrec, q1, q2, q3, q4, q5, q6⟩ := ih (scan_rows b env i a) s1 p1
    have heq : scan_columns b env (i :: more) a s
        = some (a2, s2, row_events env i ++ [KbEvent.column_select i] ++ pevs ++ evs) := by
      simp only [scan_columns, hint, hpoll, hrec]
    have hr1 := filter_row_events KbEvent.is_key_report (fun _ _ => rfl) env i
    have hr2 := filter_row_events KbEvent.is_mouse (fun _ _ => rfl) env i
    simp only at p1 p2 p3 p4 p5 p6 q1 q2 q3 q4 q5 q6
    refine ⟨_, heq, ?_, q2, ?_, ?_, ?_, ?_⟩
    · exact q1
    · rw [q3, p2]
    · rw [q4, p3]
    · simp only [List.filter_append, hr1, p5, q5, List.append_nil]
      rfl
    · simp only [List.filter_append, hr2, p6, q6, p4, List.nil_append]
      have hcs : List.filter KbEvent.is_mouse [KbEvent.column_select i] = [] := rfl
      rw [hcs, List.nil_append]
      by_cases hobs : observes (env.polls i) s.uart1_fd
      · simp only [observing, hobs, if_true, List.flatMap_cons]
      · simp only [observing, hobs, if_false, List.nil_append]

theorem cycle_power_spec (env : CycleEnv) (a : ScanAcc) (s : KbState)
    (hs : s.pm.curr_pm_state ≤ 4) :
    ∃ r, cycle_power env a s = some r
      ∧ r.1.pm.curr_pm_state ≤ 4
      ∧ r.1.lasthid = s.lasthid ∧ r.1.lasthotkey = s.lasthotkey
      ∧ r.2.filter KbEvent.is_key_report = []
      ∧ r.2.filter KbEvent.is_mouse = [] := by
  unfold cycle_power
  by_cases hk : a.is_key_pressed = true
  · obtain ⟨⟨pm1, pevs⟩, hflush, hpm1⟩ :=
      flush_power_state_some env.flush s.pm PM_KB_ACTIVE hs (by decide)
    have hp1 := filter_pm_events KbEvent.is_key_report (fun _ => rfl) pevs
    have hp2 := filter_pm_events KbEvent.is_mouse (fun _ => rfl) pevs
    simp only [hk, if_true, hflush]
    split_ifs
    all_goals
      refine ⟨_, rfl, hpm1, rfl, rfl, ?_, ?_⟩
      · simp only [List.filter_append, hp1]; rfl
      · simp only [List.filter_append, hp2]; rfl
  · obtain ⟨⟨pm1, pevs⟩, hflush, hpm1⟩ :=
      flush_power_state_some env.flush s.pm PM_IDLE_LONG_TIME hs (by decide)
    have hp1 := filter_pm_events KbEvent.is_key_report (fun _ => rfl) pevs
    have hp2 := filter_pm_events KbEvent.is_mouse (fun _ => rfl) pevs
    simp only [hk, if_false, hflush, Bool.false_eq_true]
    refine ⟨_, rfl, hpm1, rfl, rfl, ?_, ?_⟩
    · simp only [List.filter_append, hp1]; rfl
    · simp only [List.filter_append, hp2]; rfl

theorem filter_send_keyboard (usb ble : Bool) (hid : List Nat) :
    (send_keyboard usb ble hid).filter KbEvent.is_key_report = send_keyboard usb ble hid
      ∧ (send_keyboard usb ble hid).filter KbEvent.is_mouse = [] := by
  unfold send_keyboard
  split_ifs <;> exact ⟨rfl, rfl⟩

theorem filter_send_consumer (usb ble : Bool) (k : Nat) :
    (send_consumer usb ble k).filter KbEvent.is_key_report = send_consumer usb ble k
      ∧ (send_consumer usb ble k).filter KbEvent.is_mouse = [] := by
  unfold send_consumer
  split_ifs <;> exact ⟨rfl, rfl⟩

theorem cycle_keyboard_spec (b : Board) (env : CycleEnv) (a : ScanAcc) (s : KbState) :
    (cycle_keyboard b env a s).1.pm = s.pm
      ∧ (cycle_keyboard b env a s).1.wakeup_time = s.wakeup_time
      ∧ (cycle_keyboard b env a s).1.lasthid = a.hid
      ∧ (cycle_keyboard b env a s).1.lasthotkey = s.lasthotkey
      ∧ (cycle_keyboard b env a s).2.filter KbEvent.is_key_report
          = (if a.hid ≠ s.lasthid then send_keyboard env.usb_connected env.ble_connected a.hid
             else [])
      ∧ (cycle_keyboard b env a s).2.filter KbEvent.is_mouse = [] := by
  obtain ⟨k1, k2⟩ := filter_send_keyboard env.usb_connected env.ble_connected a.hid
  unfold cycle_keyboard
  split_ifs
  all_goals
    refine ⟨rfl, rfl, rfl, rfl, ?_, ?_⟩
    · first
        | rfl
        | exact k1
        | (rw [List.filter_append, k1]; simp [KbEvent.is_key_report])
    · first
        | rfl
        | exact k2
        | (rw [List.filter_append, k2]; simp [KbEvent.is_mouse])

theorem cycle_consumer_spec (env : CycleEnv) (a : ScanAcc) (s : KbState) :
    (cycle_consumer env a s).1.pm = s.pm
      ∧ (cycle_consumer env a s).1.wakeup_time = s.wakeup_time
      ∧ (cycle_consumer env a s).1.lasthid = s.lasthid
      ∧ (cycle_consumer env a s).1.lasthotkey = a.hotkey
      ∧ (cycle_consumer env a s).2.filter KbEvent.is_key_report
          = (if a.hotkey ≠ s.lasthotkey then
               send_consumer env.usb_connected env.ble_connected a.hotkey
             else [])
      ∧ (cycle_consumer env a s).2.filter KbEvent.is_mouse = [] := by
  obtain ⟨k1, k2⟩ := filter_send_consumer env.usb_connected env.ble_connected a.hotkey
  unfold cycle_consumer
  split_ifs
  · exact ⟨rfl, rfl, rfl, rfl, k1, k2⟩
  · exact ⟨rfl, rfl, rfl, rfl, rfl, rfl⟩

theorem cycle_fnfunc_spec (b : Board) (env : CycleEnv) (a : ScanAcc) (s : KbState) :
    (cycle_fnfunc b env a s).1.pm = s.pm
      ∧ (cycle_fnfunc b env a s).1.wakeup_time = s.wakeup_time
      ∧ (cycle_fnfunc b env a s).1.lasthid = s.lasthid
      ∧ (cycle_fnfunc b env a s).1.lasthotkey = s.lasthotkey
      ∧ (cycle_fnfunc b env a s).2.filter KbEvent.is_key_report = []
      ∧ (cycle_fnfunc b env a s).2.filter KbEvent.is_mouse = [] := by
  unfold cycle_fnfunc do_fnfunc
  split_ifs <;> exact ⟨rfl, rfl, rfl, rfl, rfl, rfl⟩

theorem cycle_keepalive_spec (env : CycleEnv) (s : KbState) :
    (cycle_keepalive env s).filter KbEvent.is_key_report
        = (if wake_grace env s then [KbEvent.ble_keyboard hid_zero] else [])
      ∧ (cycle_keepalive env s).filter KbEvent.is_mouse
        = (if wake_grace env s then [KbEvent.ble_mouse 0 0 0 0 0] else []) := by
  unfold cycle_keepalive wake_grace
  split_ifs <;> exact ⟨rfl, rfl⟩

theorem keyboard_task_turn_spec (b : Board) (env : CycleEnv) (s : KbState)
    (hconn : env.usb_connected = true ∨ env.ble_connected = true)
    (hs : s.pm.curr_pm_state ≤ 4) :
    ∃ r, keyboard_task_turn b env s = some r
      ∧ r.1.pm.curr_pm_state ≤ 4
      ∧ r.1.lasthid = (snapshot b env).hid ∧ r.1.lasthotkey = (snapshot b env).hotkey
      ∧ r.2.filter KbEvent.is_key_report
          = (if (snapshot b env).hid ≠ s.lasthid then
               send_keyboard env.usb_connected env.ble_connected (snapshot b env).hid
             else [])
            ++ (if (snapshot b env).hotkey ≠ s.lasthotkey then
                  send_consumer env.usb_connected env.ble_connected (snapshot b env).hotkey
                else [])
            ++ (if wake_grace env r.1 then [KbEvent.ble_keyboard hid_zero] else [])
      ∧ r.2.filter KbEvent.is_mouse
          = (observing env (List.range 8) s.uart1_fd).flatMap
              (fun i => poll_report (env.polls i))
            ++ (if wake_grace env r.1 then [KbEvent.ble_mouse 0 0 0 0 0] else []) := by
  have hidle : ¬ (env.usb_connected = false ∧ env.ble_connected = false) := by
    rintro ⟨h1, h2⟩
    rcases hconn with h | h
    · rw [h1] at h; exact Bool.false_ne_true h
    · rw [h2] at h; exact Bool.false_ne_true h
  obtain ⟨⟨a, s1, evs1⟩, hscan, c1, c2, c3, c4, c5, c6⟩ :=
    scan_columns_spec b env (List.range 8) (scan_start b) s hs
  simp only at c1 c2 c3 c4 c5 c6
  obtain ⟨⟨s2, evs2⟩, hpow, w1, w2, w3, w4, w5⟩ := cycle_power_spec env a s1 c2
  simp only at w1 w2 w3 w4 w5
  obtain ⟨k1, k2, k3, k4, k5, k6⟩ := cycle_keyboard_spec b env a s2
  obtain ⟨n1, n2, n3, n4, n5, n6⟩ := cycle_consumer_spec env a (cycle_keyboard b env a s2).1
  obtain ⟨f1, f2, f3, f4, f5, f6⟩ :=
    cycle_fnfunc_spec b env a (cycle_consumer env a (cycle_keyboard b env a s2).1).1
  obtain ⟨g1, g2⟩ := cycle_keepalive_spec env
    (cycle_fnfunc b env a (cycle_consumer env a (cycle_keyboard b env a s2).1).1).1
  have heq : keyboard_task_turn b env s
      = some ((cycle_fnfunc b env a (cycle_consumer env a (cycle_keyboard b env a s2).1).1).1,
          evs1 ++ evs2 ++ (cycle_keyboard b env a s2).2
            ++ (cycle_consumer env a (cycle_keyboard b env a s2).1).2
            ++ (cycle_fnfunc b env a (cycle_consumer env a (cycle_keyboard b env a s2).1).1).2
            ++ cycle_keepalive env
                (cycle_fnfunc b env a
                  (cycle_consumer env a (cycle_keyboard b env a s2).1).1).1) := by
    simp only [keyboard_task_turn, hidle, if_false, hscan, hpow]
  rw [k4, w3, c4] at n5
  rw [w2, c3] at k5
  have ha : a = snapshot b env := c1
  rw [← ha]
  refine ⟨_, heq, ?_, ?_, ?_, ?_, ?_⟩
  · rw [f1, n1, k1]; exact w1
  · rw [f3, n3, k3]
  · rw [f4, n4]
  · simp only [List.filter_append, c5, w4, k5, n5, f5, g1, List.nil_append, List.append_nil]
  · simp only [List.filter_append, c6, w5, k6, n6, f6, g2, List.append_nil]

theorem poll_report_length (env : PollEnv)
    (h : env.usb_connected = true ∨ env.ble_connected = true) :
    (poll_report env).length = 1 := by
  have hsend : ∀ (bt : Nat) (x y v w : Int),
      (send_mouse env.usb_connected env.ble_connected bt x y v w).length = 1 := by
    intro bt x y v w
    unfold send_mouse
    rcases h with h | h
    · simp [h]
    · cases hu : env.usb_connected <;> simp [h]
  unfold poll_report mouse_report
  split_ifs <;> exact hsend _ _ _ _ _

theorem flatMap_poll_report_length (env : CycleEnv)
    (h : ∀ i, (env.polls i).usb_connected = true ∨ (env.polls i).ble_connected = true)
    (l : List Nat) :
    (l.flatMap (fun i => poll_report (env.polls i))).length = l.length := by
  induction l with
  | nil => rfl
  | cons i more ih =>
    rw [List.flatMap_cons, List.length_append, ih, poll_report_length _ (h i)]
    simp [Nat.add_comm]

/-- C7 (as amended). Report de-duplication: when two consecutive turns of the scan loop,
both with a transport connected, build the same keyboard snapshot and the same hotkey code,
the second turn sends no consumer-control report and no keyboard report for the snapshot;
the one keyboard report it can send is the zeroed keep-alive report over BLE, sent exactly
when BLE is connected, USB is not, and `currtime - wakeup_time < wakeup_period_us`. -/
theorem keyboard_task_turn_dedup (b : Board) (env1 env2 : CycleEnv) (s0 s1 : KbState)
    (evs1 : List KbEvent)
    (hconn1 : env1.usb_connected = true ∨ env1.ble_connected = true)
    (hconn2 : env2.usb_connected = true ∨ env2.ble_connected = true)
    (hs0 : s0.pm.curr_pm_state ≤ PM_CHARGING)
    (hturn1 : keyboard_task_turn b env1 s0 = some (s1, evs1))
    (hhid : (snapshot b env2).hid = (snapshot b env1).hid)
    (hhot : (snapshot b env2).hotkey = (snapshot b env1).hotkey) :
    ∃ r, keyboard_task_turn b env2 s1 = some r
      ∧ r.2.filter KbEvent.is_key_report
          = (if wake_grace env2 r.1 then [KbEvent.ble_keyboard hid_zero] else []) := by
  obtain ⟨r1, h1, p1, p2, p3, -, -⟩ := keyboard_task_turn_spec b env1 s0 hconn1 hs0
  rw [hturn1] at h1
  have hr1 : r1 = (s1, evs1) := (Option.some.inj h1).symm
  subst hr1
  simp only at p1 p2 p3
  obtain ⟨r2, h2, -, -, -, q4, -⟩ := keyboard_task_turn_spec b env2 s1 hconn2 p1
  refine ⟨r2, h2, ?_⟩
  have e1 : ¬ (snapshot b env2).hid ≠ s1.lasthid := by
    rw [p2, hhid]; exact fun h => h rfl
  have e2 : ¬ (snapshot b env2).hotkey ≠ s1.lasthotkey := by
    rw [p3, hhot]; exact fun h => h rfl
  rw [q4, if_neg e1, if_neg e2]
  rfl

theorem keyboard_task_turn_dedup_witness :
    ∃ s1 evs1,
      keyboard_task_turn board_example cycle_env_ble_quiet (kb_initial 6 6 0) = some (s1, evs1)
      ∧ ∃ r, keyboard_task_turn board_example cycle_env_two_packets s1 = some r
        ∧ r.2.filter KbEvent.is_key_report
            = (if wake_grace cycle_env_two_packets r.1 then [KbEvent.ble_keyboard hid_zero]
               else []) := by
  obtain ⟨r1, h1, -⟩ := keyboard_task_turn_spec board_example cycle_env_ble_quiet
    (kb_initial 6 6 0) (Or.inr rfl) (by decide)
  exact ⟨r1.1, r1.2, h1,
    keyboard_task_turn_dedup board_example cycle_env_ble_quiet cycle_env_two_packets
      (kb_initial 6 6 0) r1.1 r1.2 (Or.inr rfl) (Or.inl rfl) (by decide) h1
      (by decide) (by decide)⟩

/-- C7, as first stated, fails: two consecutive turns over BLE alone, within 15 s of boot and
with no key down, build the same all-zero snapshot and hotkey code 0, and the second turn
still sends a keyboard report, the zeroed keep-alive report over BLE. -/
theorem keyboard_task_turn_dedup_keepalive :
    (snapshot board_example cycle_env_ble_quiet_next).hid
        = (snapshot board_example cycle_env_ble_quiet).hid
      ∧ (snapshot board_example cycle_env_ble_quiet_next).hotkey
        = (snapshot board_example cycle_env_ble_quiet).hotkey
      ∧ ((keyboard_task_turn board_example cycle_env_ble_quiet (kb_initial 6 6 0)).bind
          (fun r1 => keyboard_task_turn board_example cycle_env_ble_quiet_next r1.1)).map
          (fun r => r.2.filter KbEvent.is_key_report)
        = some [KbEvent.ble_keyboard hid_zero] := by
  decide

/-- C8 (as amended). Mouse reports are sent once per poll: in a turn of the scan loop run
with a transport connected, every poll that observes valid motion sends exactly one mouse
report, built from the packets of that poll alone, and a poll that observes none sends no
report; so the turn sends as many motion-carrying mouse reports as it has polls with valid
motion, in poll order, and its only other mouse report is the zeroed keep-alive one. -/
theorem keyboard_task_turn_mouse (b : Board) (env : CycleEnv) (s : KbState)
    (hconn : env.usb_connected = true ∨ env.ble_connected = true)
    (hpolls : ∀ i, (env.polls i).usb_connected = true ∨ (env.polls i).ble_connected = true)
    (hs : s.pm.curr_pm_state ≤ PM_CHARGING) :
    ∃ r, keyboard_task_turn b env s = some r
      ∧ r.2.filter KbEvent.is_mouse
          = (observing env (List.range 8) s.uart1_fd).flatMap
              (fun i => poll_report (env.polls i))
            ++ (if wake_grace env r.1 then [KbEvent.ble_mouse 0 0 0 0 0] else [])
      ∧ ((observing env (List.range 8) s.uart1_fd).flatMap
            (fun i => poll_report (env.polls i))).length
          = (observing env (List.range 8) s.uart1_fd).length
      ∧ (∀ i, (poll_report (env.polls i)).length = 1) := by
  obtain ⟨r, h1, -, -, -, -, h6⟩ := keyboard_task_turn_spec b env s hconn hs
  exact ⟨r, h1, h6, flatMap_poll_report_length env hpolls _,
    fun i => poll_report_length _ (hpolls i)⟩

theorem keyboard_task_turn_mouse_witness :
    ∃ r, keyboard_task_turn board_example cycle_env_two_packets
          { kb_initial 6 6 0 with uart1_fd := 3 } = some r
      ∧ r.2.filter KbEvent.is_mouse
          = (observing cycle_env_two_packets (List.range 8) 3).flatMap
              (fun i => poll_report (cycle_env_two_packets.polls i))
            ++ (if wake_grace cycle_env_two_packets r.1 then [KbEvent.ble_mouse 0 0 0 0 0]
                else [])
      ∧ ((observing cycle_env_two_packets (List.range 8) 3).flatMap
            (fun i => poll_report (cycle_env_two_packets.polls i))).length
          = (observing cycle_env_two_packets (List.range 8) 3).length
      ∧ (∀ i, (poll_report (cycle_env_two_packets.polls i)).length = 1) :=
  keyboard_task_turn_mouse board_example cycle_env_two_packets
    { kb_initial 6 6 0 with uart1_fd := 3 } (Or.inl rfl)
    (fun i => by
      unfold cycle_env_two_packets
      dsimp only
      split_ifs <;> exact Or.inl rfl)
    (by decide)

/-- C8, as first stated, fails: in one turn over USB in which the polls of column turns 0
and 1 each receive one packet (`dx = 5`, then `dx = 7`), two mouse reports are sent, one
per poll (`dx = 13`, then `dx = 19`), not one report carrying the merged motion. -/
theorem keyboard_task_turn_mouse_twice :
    (keyboard_task_turn board_example cycle_env_two_packets
        { kb_initial 6 6 0 with uart1_fd := 3 }).map
        (fun r => r.2.filter KbEvent.is_mouse)
      = some [KbEvent.usb_mouse 0 13 0 0 0, KbEvent.usb_mouse 0 19 0 0 0]
    ∧ observing cycle_env_two_packets (List.range 8) 3 = [0, 1] := by
  decide

/-! ## Theorems: level changes, radio push and scan interval -/

theorem flush_power_state_locked (env : FlushEnv) (s : PmState) (R : Nat)
    (hlock : env.lock_taken = true) :
    flush_power_state env s R
      = flush_core env s (adjusted_request env s R).1 (adjusted_request env s R).2 := by
  have hl : ¬ env.lock_taken = false := by rw [hlock]; exact Bool.noConfusion
  unfold flush_power_state flush_core adjusted_request rapid_flag
  rw [if_neg hl]

theorem flush_power_state_unlocked (env : FlushEnv) (s : PmState) (R : Nat)
    (hlock : env.lock_taken = false) : flush_power_state env s R = some (s, []) := by
  unfold flush_power_state
  rw [if_pos hlock]

theorem pm_cfg_cnt_small (n : Nat) (c : kb_pm_state_t) (hc : pm_cfg[n]? = some c) :
    c.ble_int_cnt < 65536 ∧ n ≤ 4 := by
  have hn : n < 5 := by
    by_contra hge
    have : pm_cfg[n]? = none := List.getElem?_eq_none (by
      show pm_cfg.length ≤ n
      have : pm_cfg.length = 5 := rfl
      omega)
    rw [this] at hc
    exact Option.noConfusion hc
  interval_cases n <;> simp [pm_cfg] at hc <;> subst hc <;> exact ⟨by decide, by decide⟩

theorem update_ble_and_pm_spec (env : FlushEnv) (s : PmState) (n : Nat) (c : kb_pm_state_t)
    (hc : pm_cfg[n]? = some c) :
    ∃ u, update_ble_and_pm env s n = some u
      ∧ u.1.curr_pm_state = s.curr_pm_state
      ∧ u.1.last_pm_timestamp = s.last_pm_timestamp
      ∧ u.1.is_pm_increase_rapid = s.is_pm_increase_rapid
      ∧ u.1.light_sleep_enable = c.is_sleep
      ∧ (push_due env s c →
          gap_requests u.2 = [PmEvent.gap_update_conn_params c.ble_int_cnt c.ble_int_cnt]
            ∧ (env.gap_ok = true → u.1.min_int = c.ble_int_cnt ∧ u.1.max_int = c.ble_int_cnt)
            ∧ (env.gap_ok = false → u.1.min_int = s.min_int ∧ u.1.max_int = s.min_int))
      ∧ (¬ push_due env s c →
          gap_requests u.2 = [] ∧ u.1.min_int = s.min_int ∧ u.1.max_int = s.max_int) := by
  have hsmall : c.ble_int_cnt % 65536 = c.ble_int_cnt :=
    Nat.mod_eq_of_lt (pm_cfg_cnt_small n c hc).1
  unfold update_ble_and_pm push_due
  rw [hc]
  dsimp only
  rw [hsmall]
  by_cases hb : env.ble_connected = true
  · by_cases hd : c.ble_int_cnt = s.min_int
    · have hcond : (env.ble_connected && (c.ble_int_cnt != s.min_int)) = false := by
        simp [hd]
      rw [hcond]
      simp only [Bool.false_eq_true, if_false]
      split_ifs with hsl
      · refine ⟨_, rfl, rfl, rfl, rfl, rfl, ?_, ?_⟩
        · intro h; exact absurd hd h.2
        · intro _; exact ⟨rfl, rfl, rfl⟩
      · refine ⟨_, rfl, rfl, rfl, rfl, ?_, ?_, ?_⟩
        · simpa using hsl
        · intro h; exact absurd hd h.2
        · intro _; exact ⟨rfl, rfl, rfl⟩
    · have hcond : (env.ble_connected && (c.ble_int_cnt != s.min_int)) = true := by
        simp [hb, hd]
      rw [hcond]
      simp only [if_true]
      cases hg : env.gap_ok
      · simp only [Bool.false_eq_true, if_false]
        split_ifs with hsl
        · refine ⟨_, rfl, rfl, rfl, rfl, rfl, ?_, ?_⟩
          · intro _; exact ⟨rfl, fun h => by simp at h, fun _ => ⟨rfl, rfl⟩⟩
          · intro h; exact absurd ⟨hb, hd⟩ h
        · refine ⟨_, rfl, rfl, rfl, rfl, ?_, ?_, ?_⟩
          · simpa using hsl
          · intro _; exact ⟨rfl, fun h => by simp at h, fun _ => ⟨rfl, rfl⟩⟩
          · intro h; exact absurd ⟨hb, hd⟩ h
      · simp only [if_true]
        split_ifs with hsl
        · refine ⟨_, rfl, rfl, rfl, rfl, rfl, ?_, ?_⟩
          · intro _; exact ⟨rfl, fun _ => ⟨rfl, rfl⟩, fun h => by simp at h⟩
          · intro h; exact absurd ⟨hb, hd⟩ h
        · refine ⟨_, rfl, rfl, rfl, rfl, ?_, ?_, ?_⟩
          · simpa using hsl
          · intro _; exact ⟨rfl, fun _ => ⟨rfl, rfl⟩, fun h => by simp at h⟩
          · intro h; exact absurd ⟨hb, hd⟩ h
  · have hcond : (env.ble_connected && (c.ble_int_cnt != s.min_int)) = false := by
      simp [hb]
    rw [hcond]
    simp only [Bool.false_eq_true, if_false]
    split_ifs with hsl
    · refine ⟨_, rfl, rfl, rfl, rfl, rfl, ?_, ?_⟩
      · intro h; exact absurd h.1 hb
      · intro _; exact ⟨rfl, rfl, rfl⟩
    · refine ⟨_, rfl, rfl, rfl, rfl, ?_, ?_, ?_⟩
      · simpa using hsl
      · intro h; exact absurd h.1 hb
      · intro _; exact ⟨rfl, rfl, rfl⟩

theorem flush_core_applied (env : FlushEnv) (s : PmState) (n t : Nat)
    (r : PmState × List PmEvent) (h : flush_core env s n t = some r)
    (hne : r.1.curr_pm_state ≠ s.curr_pm_state) :
    r.1.curr_pm_state = n
      ∧ ∃ u, update_ble_and_pm env
            { s with last_pm_timestamp := t,
                     is_pm_increase_rapid := rapid_flag env s.curr_pm_state n } n = some u
          ∧ r = ({ u.1 with curr_pm_state := n, last_pm_timestamp := env.timer % UINT_MOD },
                 u.2) := by
  have key : ∀ q, (update_ble_and_pm env
        { s with last_pm_timestamp := t,
                 is_pm_increase_rapid := rapid_flag env s.curr_pm_state n } n).map
        (fun r : PmState × List PmEvent =>
          (({ r.1 with curr_pm_state := n,
                       last_pm_timestamp := env.timer % UINT_MOD } : PmState), r.2)) = some q →
      q.1.curr_pm_state = n
        ∧ ∃ u, update_ble_and_pm env
              { s with last_pm_timestamp := t,
                       is_pm_increase_rapid := rapid_flag env s.curr_pm_state n } n = some u
            ∧ q = ({ u.1 with curr_pm_state := n, last_pm_timestamp := env.timer % UINT_MOD },
                   u.2) := by
    intro q hq
    obtain ⟨u, hu, huq⟩ := Option.map_eq_some'.mp hq
    subst huq
    exact ⟨rfl, u, hu, rfl⟩
  unfold flush_core at h
  by_cases hlt : s.curr_pm_state < n
  · rw [if_pos hlt] at h
    exact key r h
  · rw [if_neg hlt] at h
    cases hcfg : pm_cfg[s.curr_pm_state]? with
    | none =>
      rw [hcfg] at h
      exact Option.noConfusion h
    | some c =>
      rw [hcfg] at h
      dsimp only at h
      by_cases hd : c.duration_us < diff_time (env.timer % UINT_MOD) t
      · rw [if_pos hd] at h
        exact key r h
      · rw [if_neg hd] at h
        have hr := (Option.some.inj h).symm
        subst hr
        exact absurd rfl hne

/-- C14. Rapid-wait flag: a `flush_power_state` call between defined levels returns, and
when it has changed the level from `c` to `n`, `pm_should_wait()` is true exactly when the
charging signal (as read in the flag expression) is low and either `c` is
`PM_IDLE_SHORT_TIME` and `n` is `PM_KB_TP_ACTIVE`, or `c` is `PM_IDLE_LONG_TIME` and `n` is
at least `PM_KB_ACTIVE`; `pm_should_wait()` only reads the flag. -/
theorem flush_power_state_rapid_wait (env : FlushEnv) (s : PmState) (R : Nat)
    (hs : s.curr_pm_state ≤ PM_CHARGING) (hR : R ≤ PM_CHARGING) :
    ∃ r, flush_power_state env s R = some r
      ∧ (r.1.curr_pm_state ≠ s.curr_pm_state →
          (pm_should_wait r.1 = true ↔
            env.charging_again = 0
              ∧ ((s.curr_pm_state = PM_IDLE_SHORT_TIME ∧ r.1.curr_pm_state = PM_KB_TP_ACTIVE)
                ∨ (s.curr_pm_state = PM_IDLE_LONG_TIME ∧ PM_KB_ACTIVE ≤ r.1.curr_pm_state))))
      ∧ pm_should_wait r.1 = r.1.is_pm_increase_rapid := by
  obtain ⟨r, hr, hr4⟩ := flush_power_state_some env s R hs hR
  refine ⟨r, hr, ?_, rfl⟩
  intro hne
  cases hlock : env.lock_taken
  · rw [flush_power_state_unlocked env s R hlock] at hr
    have := (Option.some.inj hr).symm
    subst this
    exact absurd rfl hne
  · rw [flush_power_state_locked env s R hlock] at hr
    obtain ⟨hn, u, hu, hru⟩ := flush_core_applied env s _ _ r hr hne
    obtain ⟨c, hc⟩ := pm_cfg_lookup (adjusted_request env s R).1 (by rw [← hn]; exact hr4)
    obtain ⟨u2, hu2, -, -, hflag, -⟩ := update_ble_and_pm_spec env
      { s with last_pm_timestamp := (adjusted_request env s R).2,
               is_pm_increase_rapid :=
                 rapid_flag env s.curr_pm_state (adjusted_request env s R).1 }
      (adjusted_request env s R).1 c hc
    rw [hu] at hu2
    have hu_eq := Option.some.inj hu2
    subst hu_eq
    have hfl : pm_should_wait r.1
        = rapid_flag env s.curr_pm_state (adjusted_request env s R).1 := by
      rw [hru]
      exact hflag
    rw [hfl, hn]
    simp [rapid_flag]

theorem flush_power_state_rapid_wait_witness :
    ∃ r, flush_power_state flush_env_rejected pm_state_wide PM_KB_TP_ACTIVE = some r
      ∧ (r.1.curr_pm_state ≠ pm_state_wide.curr_pm_state →
          (pm_should_wait r.1 = true ↔
            flush_env_rejected.charging_again = 0
              ∧ ((pm_state_wide.curr_pm_state = PM_IDLE_SHORT_TIME
                    ∧ r.1.curr_pm_state = PM_KB_TP_ACTIVE)
                ∨ (pm_state_wide.curr_pm_state = PM_IDLE_LONG_TIME
                    ∧ PM_KB_ACTIVE ≤ r.1.curr_pm_state))))
      ∧ pm_should_wait r.1 = r.1.is_pm_increase_rapid :=
  flush_power_state_rapid_wait flush_env_rejected pm_state_wide PM_KB_TP_ACTIVE
    (by decide) (by decide)

/-- C15. Radio-interval push, as the code performs it: a `flush_power_state` call between
defined levels returns, and when it has changed the level to `n`, the connection-parameter
update is requested (once) exactly when the BLE link is up and the interval count
configured for `n` differs from the latched `min_int`; after an accepted request `min_int`
and `max_int` both equal that count, and without a request both are as before. After a
rejected request both equal the `min_int` saved in `lastint` before the call: `min_int` is
restored, `max_int` is restored only when it was equal to `min_int`. -/
theorem flush_power_state_push (env : FlushEnv) (s : PmState) (R : Nat)
    (hs : s.curr_pm_state ≤ PM_CHARGING) (hR : R ≤ PM_CHARGING) :
    ∃ r, flush_power_state env s R = some r
      ∧ (r.1.curr_pm_state ≠ s.curr_pm_state →
          ∃ c, pm_cfg[r.1.curr_pm_state]? = some c
            ∧ (push_due env s c →
                gap_requests r.2
                    = [PmEvent.gap_update_conn_params c.ble_int_cnt c.ble_int_cnt]
                  ∧ (env.gap_ok = true →
                      r.1.min_int = c.ble_int_cnt ∧ r.1.max_int = c.ble_int_cnt)
                  ∧ (env.gap_ok = false →
                      r.1.min_int = s.min_int ∧ r.1.max_int = s.min_int))
            ∧ (¬ push_due env s c →
                gap_requests r.2 = [] ∧ r.1.min_int = s.min_int
                  ∧ r.1.max_int = s.max_int)) := by
  obtain ⟨r, hr, hr4⟩ := flush_power_state_some env s R hs hR
  refine ⟨r, hr, ?_⟩
  intro hne
  cases hlock : env.lock_taken
  · rw [flush_power_state_unlocked env s R hlock] at hr
    have := (Option.some.inj hr).symm
    subst this
    exact absurd rfl hne
  · rw [flush_power_state_locked env s R hlock] at hr
    obtain ⟨hn, u, hu, hru⟩ := flush_core_applied env s _ _ r hr hne
    obtain ⟨c, hc⟩ := pm_cfg_lookup (adjusted_request env s R).1 (by rw [← hn]; exact hr4)
    obtain ⟨u2, hu2, -, -, -, -, hdue, hnot⟩ := update_ble_and_pm_spec env
      { s with last_pm_timestamp := (adjusted_request env s R).2,
               is_pm_increase_rapid :=
                 rapid_flag env s.curr_pm_state (adjusted_request env s R).1 }
      (adjusted_request env s R).1 c hc
    rw [hu] at hu2
    have hu_eq := Option.some.inj hu2
    subst hu_eq
    refine ⟨c, by rw [hn]; exact hc, ?_, ?_⟩
    · intro hp
      have h := hdue hp
      rw [hru]
      exact h
    · intro hp
      have h := hnot hp
      rw [hru]
      exact h

theorem flush_power_state_push_witness :
    ∃ r, flush_power_state flush_env_rejected pm_state_wide PM_KB_TP_ACTIVE = some r
      ∧ (r.1.curr_pm_state ≠ pm_state_wide.curr_pm_state →
          ∃ c, pm_cfg[r.1.curr_pm_state]? = some c
            ∧ (push_due flush_env_rejected pm_state_wide c →
                gap_requests r.2
                    = [PmEvent.gap_update_conn_params c.ble_int_cnt c.ble_int_cnt]
                  ∧ (flush_env_rejected.gap_ok = true →
                      r.1.min_int = c.ble_int_cnt ∧ r.1.max_int = c.ble_int_cnt)
                  ∧ (flush_env_rejected.gap_ok = false →
                      r.1.min_int = pm_state_wide.min_int
                        ∧ r.1.max_int = pm_state_wide.min_int))
            ∧ (¬ push_due flush_env_rejected pm_state_wide c →
                gap_requests r.2 = [] ∧ r.1.min_int = pm_state_wide.min_int
                  ∧ r.1.max_int = pm_state_wide.max_int)) :=
  flush_power_state_push flush_env_rejected pm_state_wide PM_KB_TP_ACTIVE
    (by decide) (by decide)

/-- C15, the failing input: with `min_int = 16` and `max_int = 32` latched, a change from
`PM_IDLE_LONG_TIME` to `PM_KB_TP_ACTIVE` over an established BLE link requests the update,
and when the radio layer rejects it the branch commented "restore last parameter" leaves
the latched maximum at 16, not at 32 as before the call. -/
theorem flush_power_state_push_rejected :
    flush_power_state flush_env_rejected pm_state_wide PM_KB_TP_ACTIVE
      = some ({ curr_pm_state := PM_KB_TP_ACTIVE, last_pm_timestamp := 5000000,
                is_pm_increase_rapid := true, min_int := 16, max_int := 16,
                light_sleep_enable := false },
              [PmEvent.gap_update_conn_params 10 10, PmEvent.pm_configure false])
    ∧ pm_state_wide.max_int = 32 := by
  decide

/-- C16. Scan interval: at every defined level `get_kb_scan_interval_us()` returns the
configured scan interval times 5, a product below `2^32`, divided by 6 with integer
division; the value is strictly below the configured interval, and it is 20833, 4166, 4166,
4166 and 1666 microseconds for the five levels in order. -/
theorem get_kb_scan_interval_us_value (s : PmState) (hs : s.curr_pm_state ≤ PM_CHARGING) :
    (∃ c, pm_cfg[s.curr_pm_state]? = some c
        ∧ get_kb_scan_interval_us s = some (c.kb_int_us * 5 / 6)
        ∧ c.kb_int_us * 5 < UINT_MOD
        ∧ c.kb_int_us * 5 / 6 < c.kb_int_us)
    ∧ (List.range 5).map (fun l => get_kb_scan_interval_us { s with curr_pm_state := l })
        = [some 20833, some 4166, some 4166, some 4166, some 1666] := by
  constructor
  · have key : ∀ l, l ≤ 4 → ∃ c, pm_cfg[l]? = some c
        ∧ (pm_cfg[l]?).map (fun c => (c.kb_int_us * 5 % UINT_MOD) / 6)
            = some (c.kb_int_us * 5 / 6)
        ∧ c.kb_int_us * 5 < UINT_MOD ∧ c.kb_int_us * 5 / 6 < c.kb_int_us := by
      intro l hl
      interval_cases l <;> exact ⟨_, rfl, by decide, by decide, by decide⟩
    exact key s.curr_pm_state hs
  · simp [get_kb_scan_interval_us, List.range_succ, pm_cfg, UINT_MOD]

theorem get_kb_scan_interval_us_value_witness :
    (∃ c, pm_cfg[pm_state_wide.curr_pm_state]? = some c
        ∧ get_kb_scan_interval_us pm_state_wide = some (c.kb_int_us * 5 / 6)
        ∧ c.kb_int_us * 5 < UINT_MOD
        ∧ c.kb_int_us * 5 / 6 < c.kb_int_us)
    ∧ (List.range 5).map
        (fun l => get_kb_scan_interval_us { pm_state_wide with curr_pm_state := l })
        = [some 20833, some 4166, some 4166, some 4166, some 1666] :=
  get_kb_scan_interval_us_value pm_state_wide (by decide)

/-! ## Theorems: keymap lookup and key resolution -/

set_option maxRecDepth 100000 in
theorem kbtbl_e580_rows_find :
    ∀ r ∈ kbtbl_e580_rows,
      kbtbl_e580_rows.find? (fun q => names_cell q.1 q.2.1 r.1 r.2.1) = some r := by
  decide

set_option maxRecDepth 100000 in
theorem kbtbl_e580_rows_cells :
    ∀ i ∈ List.range 8, ∀ j ∈ List.range 18,
      kbtbl_e580_rows.find? (fun q => names_cell q.1 q.2.1 i j) = none
        ∨ kbtbl_e580_rows.any (fun r => r.1 == i && r.2.1 == j) = true := by
  decide

set_option maxRecDepth 100000 in
theorem fntbl_e580_rows_find :
    ∀ r ∈ fntbl_e580_rows,
      fntbl_e580_rows.find? (fun q => names_cell q.1 q.2.1 r.1 r.2.1) = some r := by
  decide

set_option maxRecDepth 100000 in
theorem fntbl_e580_rows_cells :
    ∀ i ∈ List.range 8, ∀ j ∈ List.range 18,
      fntbl_e580_rows.find? (fun q => names_cell q.1 q.2.1 i j) = none
        ∨ fntbl_e580_rows.any (fun r => r.1 == i && r.2.1 == j) = true := by
  decide

theorem search_hid_key_e580 (code : KeyName → Nat) (i j : Nat) :
    search_hid_key (kbtbl_e580 code) i j
      = (match kbtbl_e580_rows.find? (fun q => names_cell q.1 q.2.1 i j) with
         | some r => (code r.2.2.2 : Int)
         | none => -1) := by
  unfold search_hid_key kbtbl_e580
  rw [List.find?_map]
  cases h : List.find? (fun q => names_cell q.1 q.2.1 i j) kbtbl_e580_rows with
  | none =>
    have h2 : List.find?
        ((fun e : keytable_t => (e.scan1 % 256 ||| ((e.scan2 % 256) <<< 8)) == cmbcode i j)
          ∘ fun r : Nat × Nat × Nat × KeyName =>
            ({ scan1 := r.1, scan2 := r.2.1, ch := r.2.2.1, hidcode := code r.2.2.2 }
              : keytable_t)) kbtbl_e580_rows = none := h
    rw [h2]
    rfl
  | some r =>
    have h2 : List.find?
        ((fun e : keytable_t => (e.scan1 % 256 ||| ((e.scan2 % 256) <<< 8)) == cmbcode i j)
          ∘ fun r : Nat × Nat × Nat × KeyName =>
            ({ scan1 := r.1, scan2 := r.2.1, ch := r.2.2.1, hidcode := code r.2.2.2 }
              : keytable_t)) kbtbl_e580_rows = some r := h
    rw [h2]
    rfl

theorem search_fn_e580 (code : KeyName → Nat) (fnc : FnName → Nat) (i j : Nat) :
    search_fn (fntbl_e580 code fnc) i j
      = (fntbl_e580_rows.find? (fun q => names_cell q.1 q.2.1 i j)).map
          (fun r => { scan1 := r.1, scan2 := r.2.1,
                      hidcode := (match r.2.2.1 with
                        | none => 0
                        | some k => code k),
                      fncode := fnc r.2.2.2 }) := by
  unfold search_fn fntbl_e580
  rw [List.find?_map]
  rfl

/-- C11. Keymap lookup (E580): whatever values the key code and function code macros have,
`search_hid_key` at the cell of an entry of `kbtbl` returns the code of that entry, and `-1`
at every cell (column below 8, row below 18) that no entry names; `search_fn` returns the
entry of `fntbl` that names the cell, and null for a cell that no entry names. Cell
`(0, 1)` gives `KEY_ESC` in the primary table and `FN_FNLOCK` with consumer code 0 in the
hotkey table. -/
theorem keymap_e580_lookup (code : KeyName → Nat) (fnc : FnName → Nat) :
    (∀ e ∈ kbtbl_e580 code,
        search_hid_key (kbtbl_e580 code) e.scan1 e.scan2 = (e.hidcode : Int))
    ∧ (∀ i j, i < 8 → j < 18 → (∀ e ∈ kbtbl_e580 code, ¬ (e.scan1 = i ∧ e.scan2 = j)) →
        search_hid_key (kbtbl_e580 code) i j = -1)
    ∧ (∀ e ∈ fntbl_e580 code fnc, search_fn (fntbl_e580 code fnc) e.scan1 e.scan2 = some e)
    ∧ (∀ i j, i < 8 → j < 18 → (∀ e ∈ fntbl_e580 code fnc, ¬ (e.scan1 = i ∧ e.scan2 = j)) →
        search_fn (fntbl_e580 code fnc) i j = none)
    ∧ search_hid_key (kbtbl_e580 code) 0 1 = (code KeyName.KEY_ESC : Int)
    ∧ search_fn (fntbl_e580 code fnc) 0 1
        = some { scan1 := 0, scan2 := 1, hidcode := 0, fncode := fnc FnName.FN_FNLOCK } := by
  refine ⟨?_, ?_, ?_, ?_, ?_, ?_⟩
  · intro e he
    obtain ⟨r, hr, rfl⟩ := List.mem_map.mp he
    rw [search_hid_key_e580]
    dsimp only
    rw [kbtbl_e580_rows_find r hr]
  · intro i j hi hj hno
    rw [search_hid_key_e580]
    rcases kbtbl_e580_rows_cells i (List.mem_range.mpr hi) j (List.mem_range.mpr hj) with h | h
    · rw [h]
    · exfalso
      obtain ⟨r, hr, hcell⟩ := List.any_eq_true.mp h
      have hc : r.1 = i ∧ r.2.1 = j := by simpa using hcell
      exact hno _ (List.mem_map.mpr ⟨r, hr, rfl⟩) hc
  · intro e he
    obtain ⟨r, hr, rfl⟩ := List.mem_map.mp he
    rw [search_fn_e580]
    dsimp only
    rw [fntbl_e580_rows_find r hr]
    rfl
  · intro i j hi hj hno
    rw [search_fn_e580]
    rcases fntbl_e580_rows_cells i (List.mem_range.mpr hi) j (List.mem_range.mpr hj) with h | h
    · rw [h]
      rfl
    · exfalso
      obtain ⟨r, hr, hcell⟩ := List.any_eq_true.mp h
      have hc : r.1 = i ∧ r.2.1 = j := by simpa using hcell
      exact hno _ (List.mem_map.mpr ⟨r, hr, rfl⟩) hc
  · rw [search_hid_key_e580]
    rfl
  · rw [search_fn_e580]
    rfl

theorem scan_matrix_eq_fold (b : Board) (env : CycleEnv) :
    ∀ (cols : List Nat) (a : ScanAcc),
      scan_matrix b env cols a
        = (cols.flatMap (fun i => (List.range 18).map (fun j => (i, j)))).foldl
            (scan_step b env) a := by
  intro cols
  induction cols with
  | nil => intro a; rfl
  | cons i more ih =>
    intro a
    have hrow : scan_rows b env i a
        = ((List.range 18).map (fun j => (i, j))).foldl (scan_step b env) a := by
      unfold scan_rows
      rw [List.foldl_map]
      rfl
    have hstep : scan_matrix b env (i :: more) a
        = scan_matrix b env more (scan_rows b env i a) := rfl
    rw [hstep, ih, hrow, List.flatMap_cons, List.foldl_append]

theorem snapshot_eq_fold (b : Board) (env : CycleEnv) :
    snapshot b env = scan_cells.foldl (scan_step b env) (scan_start b) :=
  scan_matrix_eq_fold b env (List.range 8) (scan_start b)

theorem search_hid_key_mem (tbl : List keytable_t) (i j : Nat)
    (h : 0 < search_hid_key tbl i j) :
    ∃ e ∈ tbl, search_hid_key tbl i j = (e.hidcode : Int) := by
  unfold search_hid_key at h ⊢
  cases hf : tbl.find?
      (fun e => (e.scan1 % 256 ||| ((e.scan2 % 256) <<< 8)) == cmbcode i j) with
  | none =>
    rw [hf] at h
    exact absurd h (by decide)
  | some e =>
    exact ⟨e, List.mem_of_find?_eq_some hf, rfl⟩

theorem modifier_bit_lt (m : Nat) (k : Int) (hm : m < 256) :
    m ||| (1 <<< (k.toNat &&& 7)) < 256 := by
  have h7 : k.toNat &&& 7 ≤ 7 := Nat.and_le_right
  have hbit : (1 : Nat) <<< (k.toNat &&& 7) < 2 ^ 8 := by
    rw [Nat.one_shiftLeft]
    exact Nat.pow_lt_pow_right (by decide) (by omega)
  exact Nat.or_lt_two_pow (n := 8) hm hbit

theorem scan_step_released (b : Board) (env : CycleEnv) (a : ScanAcc) (c : Nat × Nat)
    (m k : Nat) (hcodes : ∀ e ∈ b.kbtbl, e.hidcode < 256)
    (hfn : env.button_fn c.1 c.2 ≠ 0)
    (hid : a.hid = [m, 0, k, 0, 0, 0, 0, 0]) (hm : m < 256) (hot : a.hotkey = 0) :
    (scan_step b env a c).hotkey = 0 ∧ (scan_step b env a c).fnfunc = a.fnfunc
      ∧ (if env.row c.1 c.2 = 0 ∧ 0 < search_hid_key b.kbtbl c.1 c.2 then
          if is_modifier b (search_hid_key b.kbtbl c.1 c.2) then
            (scan_step b env a c).hid
                = [m ||| (1 <<< ((search_hid_key b.kbtbl c.1 c.2).toNat &&& 7)),
                   0, k, 0, 0, 0, 0, 0]
              ∧ (scan_step b env a c).is_key_pressed = a.is_key_pressed
          else if a.is_key_pressed = false then
            (scan_step b env a c).hid
                = [m, 0, (search_hid_key b.kbtbl c.1 c.2).toNat, 0, 0, 0, 0, 0]
              ∧ (scan_step b env a c).is_key_pressed = true
          else
            (scan_step b env a c).hid = a.hid
              ∧ (scan_step b env a c).is_key_pressed = a.is_key_pressed
        else
          (scan_step b env a c).hid = a.hid
            ∧ (scan_step b env a c).is_key_pressed = a.is_key_pressed) := by
  unfold scan_step scan_cell
  by_cases hrow : env.row c.1 c.2 = 0
  · by_cases hpos : 0 < search_hid_key b.kbtbl c.1 c.2
    · have hboth : env.row c.1 c.2 = 0 ∧ 0 < search_hid_key b.kbtbl c.1 c.2 := ⟨hrow, hpos⟩
      obtain ⟨e, he, hkey⟩ := search_hid_key_mem b.kbtbl c.1 c.2 hpos
      have hlt : (search_hid_key b.kbtbl c.1 c.2).toNat < 256 := by
        rw [hkey]
        exact hcodes e he
      by_cases hmod : is_modifier b (search_hid_key b.kbtbl c.1 c.2)
      · have hmod2 := hmod
        unfold is_modifier at hmod2
        simp only [if_pos hrow, if_pos hfn, if_pos hpos, if_pos hboth, if_pos hmod, if_pos hmod2]
        refine ⟨trivial, trivial, ?_, trivial⟩
        simp only [hid, List.getD_cons_zero, List.set_cons_zero]
        rw [Nat.mod_eq_of_lt (modifier_bit_lt m _ hm)]
      · have hmod2 := hmod
        unfold is_modifier at hmod2
        by_cases hp : a.is_key_pressed = false
        · simp only [if_pos hrow, if_pos hfn, if_pos hpos, if_pos hboth, if_neg hmod,
            if_neg hmod2, if_pos hp]
          refine ⟨trivial, trivial, ?_, trivial⟩
          simp only [hid, List.set_cons_succ, List.set_cons_zero]
          rw [Nat.mod_eq_of_lt hlt]
        · simp only [if_pos hrow, if_pos hfn, if_pos hpos, if_pos hboth, if_neg hmod,
            if_neg hmod2, if_neg hp]
          exact ⟨trivial, trivial, trivial, trivial⟩
    · have hboth : ¬ (env.row c.1 c.2 = 0 ∧ 0 < search_hid_key b.kbtbl c.1 c.2) :=
        fun h => hpos h.2
      simp only [if_pos hrow, if_pos hfn, if_neg hpos, if_neg hboth]
      exact ⟨hot, trivial, trivial, trivial⟩
  · have hboth : ¬ (env.row c.1 c.2 = 0 ∧ 0 < search_hid_key b.kbtbl c.1 c.2) :=
      fun h => hrow h.1
    simp only [if_neg hrow, if_neg hboth]
    exact ⟨hot, trivial, trivial, trivial⟩

theorem pressed_keys_cons (b : Board) (env : CycleEnv) (c : Nat × Nat)
    (more : List (Nat × Nat)) :
    pressed_keys b env (c :: more)
      = if env.row c.1 c.2 = 0 ∧ 0 < search_hid_key b.kbtbl c.1 c.2 then
          search_hid_key b.kbtbl c.1 c.2 :: pressed_keys b env more
        else pressed_keys b env more := by
  unfold pressed_keys
  by_cases hrow : env.row c.1 c.2 = 0
  · by_cases hpos : 0 < search_hid_key b.kbtbl c.1 c.2
    · rw [if_pos ⟨hrow, hpos⟩]
      simp [List.filter_cons, hrow, hpos]
    · rw [if_neg (fun h => hpos h.2)]
      simp [List.filter_cons, hrow, hpos]
  · rw [if_neg (fun h => hrow h.1)]
    simp [List.filter_cons, hrow]

theorem primary_key_cons (b : Board) (k : Int) (more : List Int) :
    primary_key b (k :: more) = if is_modifier b k then primary_key b more else k.toNat := by
  unfold primary_key
  by_cases hmod : is_modifier b k
  · simp [List.filter_cons, hmod]
  · simp [List.filter_cons, hmod]

theorem fold_released (b : Board) (env : CycleEnv)
    (hcodes : ∀ e ∈ b.kbtbl, e.hidcode < 256) :
    ∀ (cells : List (Nat × Nat)) (a : ScanAcc) (m k : Nat),
      (∀ c ∈ cells, env.button_fn c.1 c.2 ≠ 0) →
      a.hid = [m, 0, k, 0, 0, 0, 0, 0] → m < 256 → a.hotkey = 0 →
      (a.is_key_pressed = false → k = 0) →
      (cells.foldl (scan_step b env) a).hid
          = [m ||| modifier_bits b (pressed_keys b env cells), 0,
             if a.is_key_pressed = false then primary_key b (pressed_keys b env cells)
             else k, 0, 0, 0, 0, 0]
        ∧ (cells.foldl (scan_step b env) a).hotkey = 0
        ∧ (cells.foldl (scan_step b env) a).fnfunc = a.fnfunc := by
  intro cells
  induction cells with
  | nil =>
    intro a m k _ hid hm hot hk
    refine ⟨?_, hot, rfl⟩
    have hbits : modifier_bits b (pressed_keys b env []) = 0 := rfl
    have hprim : primary_key b (pressed_keys b env []) = 0 := rfl
    rw [List.foldl_nil, hid, hbits, hprim, Nat.or_zero]
    by_cases hp : a.is_key_pressed = false
    · rw [if_pos hp, hk hp]
    · rw [if_neg hp]
  | cons c more ih =>
    intro a m k hfn hid hm hot hk
    have hfnc : env.button_fn c.1 c.2 ≠ 0 := hfn c (List.mem_cons_self _ _)
    have hfnm : ∀ d ∈ more, env.button_fn d.1 d.2 ≠ 0 :=
      fun d hd => hfn d (List.mem_cons_of_mem _ hd)
    obtain ⟨h1, h2, h3⟩ := scan_step_released b env a c m k hcodes hfnc hid hm hot
    rw [List.foldl_cons, pressed_keys_cons]
    by_cases hboth : env.row c.1 c.2 = 0 ∧ 0 < search_hid_key b.kbtbl c.1 c.2
    · rw [if_pos hboth] at h3 ⊢
      by_cases hmod : is_modifier b (search_hid_key b.kbtbl c.1 c.2)
      · rw [if_pos hmod] at h3
        obtain ⟨i1, i2, i3⟩ := ih _ _ k hfnm h3.1 (modifier_bit_lt m _ hm) h1
          (fun h => hk (h3.2 ▸ h))
        refine ⟨?_, i2, i3.trans h2⟩
        rw [i1, h3.2, primary_key_cons, if_pos hmod]
        simp only [modifier_bits, if_pos hmod, Nat.or_assoc]
      · rw [if_neg hmod] at h3
        by_cases hp : a.is_key_pressed = false
        · rw [if_pos hp] at h3
          obtain ⟨i1, i2, i3⟩ := ih _ m _ hfnm h3.1 hm h1
            (fun h => by rw [h3.2] at h; exact absurd h (by decide))
          refine ⟨?_, i2, i3.trans h2⟩
          rw [i1, h3.2, primary_key_cons, if_neg hmod, if_pos hp]
          simp only [modifier_bits, if_neg hmod, Nat.zero_or]
          rfl
        · rw [if_neg hp] at h3
          obtain ⟨i1, i2, i3⟩ := ih _ m k hfnm (h3.1.trans hid) hm h1
            (fun h => hk (h3.2 ▸ h))
          refine ⟨?_, i2, i3.trans h2⟩
          rw [i1, h3.2, if_neg hp, if_neg hp]
          simp only [modifier_bits, if_neg hmod, Nat.zero_or]
    · rw [if_neg hboth] at h3 ⊢
      obtain ⟨i1, i2, i3⟩ := ih _ m k hfnm (h3.1.trans hid) hm h1
            (fun h => hk (h3.2 ▸ h))
      refine ⟨?_, i2, i3.trans h2⟩
      rw [i1, h3.2]

theorem search_fn_mem (tbl : List fn_keytable_t) (i j : Nat) (e : fn_keytable_t)
    (h : search_fn tbl i j = some e) : e ∈ tbl :=
  List.mem_of_find?_eq_some h

theorem scan_step_held (b : Board) (env : CycleEnv) (a : ScanAcc) (c : Nat × Nat)
    (hfn : env.button_fn c.1 c.2 = 0) :
    scan_step b env a c
      = if env.row c.1 c.2 = 0 then
          match search_fn b.fntbl c.1 c.2 with
          | some fnitem =>
            { is_key_pressed := true, hotkey := fnitem.hidcode % 65536,
              fnfunc := fnitem.fncode, hid := hid_zero }
          | none => a
        else a := by
  unfold scan_step scan_cell
  have hnot : ¬ (env.button_fn c.1 c.2 ≠ 0) := fun h => h hfn
  by_cases hrow : env.row c.1 c.2 = 0
  · simp only [if_pos hrow, if_neg hnot]
  · simp only [if_neg hrow]

theorem pressed_fn_cons (b : Board) (env : CycleEnv) (c : Nat × Nat)
    (more : List (Nat × Nat)) :
    pressed_fn b env (c :: more)
      = if env.row c.1 c.2 = 0 then
          match search_fn b.fntbl c.1 c.2 with
          | some fnitem => fnitem :: pressed_fn b env more
          | none => pressed_fn b env more
        else pressed_fn b env more := by
  unfold pressed_fn
  by_cases hrow : env.row c.1 c.2 = 0
  · rw [if_pos hrow]
    cases hs : search_fn b.fntbl c.1 c.2 with
    | none => simp [List.filter_cons, hrow, List.filterMap_cons, hs]
    | some it => simp [List.filter_cons, hrow, List.filterMap_cons, hs]
  · rw [if_neg hrow]
    simp [List.filter_cons, hrow]

theorem last_fn_mem (d : Nat × Nat) :
    ∀ (l : List fn_keytable_t), l ≠ [] → ∃ e ∈ l, last_fn d l = (e.hidcode, e.fncode) := by
  intro l
  induction l generalizing d with
  | nil => intro h; exact absurd rfl h
  | cons it more ih =>
    intro _
    by_cases hm : more = []
    · subst hm
      exact ⟨it, List.mem_cons_self _ _, rfl⟩
    · obtain ⟨e, he, hl⟩ := ih (it.hidcode, it.fncode) hm
      exact ⟨e, List.mem_cons_of_mem _ he, hl⟩

theorem pressed_fn_mem (b : Board) (env : CycleEnv) (cells : List (Nat × Nat))
    (e : fn_keytable_t) (h : e ∈ pressed_fn b env cells) :
    ∃ c ∈ cells, env.row c.1 c.2 = 0 ∧ search_fn b.fntbl c.1 c.2 = some e := by
  unfold pressed_fn at h
  obtain ⟨c, hc, hs⟩ := List.mem_filterMap.mp h
  obtain ⟨hc1, hc2⟩ := List.mem_filter.mp hc
  exact ⟨c, hc1, by simpa using hc2, hs⟩

theorem pressed_fn_nil (b : Board) (env : CycleEnv) (cells : List (Nat × Nat))
    (h : ∀ c ∈ cells, env.row c.1 c.2 = 0 → search_fn b.fntbl c.1 c.2 = none) :
    pressed_fn b env cells = [] := by
  induction cells with
  | nil => rfl
  | cons c more ih =>
    rw [pressed_fn_cons]
    have ihm := ih (fun d hd => h d (List.mem_cons_of_mem _ hd))
    by_cases hrow : env.row c.1 c.2 = 0
    · rw [if_pos hrow, h c (List.mem_cons_self _ _) hrow]
      exact ihm
    · rw [if_neg hrow]
      exact ihm

theorem search_fn_e580_fnlock (code : KeyName → Nat) (fnc : FnName → Nat) :
    search_fn (fntbl_e580 code fnc) 0 1
      = some { scan1 := 0, scan2 := 1, hidcode := 0, fncode := fnc FnName.FN_FNLOCK } := by
  rw [search_fn_e580]
  rfl

/-- C12. Key resolution with FN released: when the FN button reads released at every cell
of a cycle and every code of the primary table fits a byte, byte 0 of the snapshot is the
OR of the bits `1 << (code & 7)` over the asserted cells whose (positive) code lies in
`KEY_LEFTCTRL .. KEY_RIGHTMETA`, byte 2 is the code of the first asserted cell in scan
order whose (positive) code is outside that range, or 0, every other byte is 0, the hotkey
code is 0 and the function code is `FN_NOP`. -/
theorem snapshot_fn_released (b : Board) (env : CycleEnv)
    (hfn : ∀ c ∈ scan_cells, env.button_fn c.1 c.2 ≠ 0)
    (hcodes : ∀ e ∈ b.kbtbl, e.hidcode < 256) :
    (snapshot b env).hid
        = [modifier_bits b (pressed_keys b env scan_cells), 0,
           primary_key b (pressed_keys b env scan_cells), 0, 0, 0, 0, 0]
      ∧ (snapshot b env).hotkey = 0 ∧ (snapshot b env).fnfunc = b.FN_NOP := by
  rw [snapshot_eq_fold]
  obtain ⟨h1, h2, h3⟩ :=
    fold_released b env hcodes scan_cells (scan_start b) 0 0 hfn rfl (by decide) rfl
      (fun _ => rfl)
  refine ⟨?_, h2, h3⟩
  rw [h1, Nat.zero_or]
  rfl

set_option maxRecDepth 100000 in
theorem snapshot_fn_released_witness :
    (∀ c ∈ scan_cells,
        (cycle_env_cells [(7, 9), (4, 1), (1, 0), (0, 1)] 1).button_fn c.1 c.2 ≠ 0)
      ∧ (∀ e ∈ board_keys.kbtbl, e.hidcode < 256)
      ∧ pressed_keys board_keys (cycle_env_cells [(7, 9), (4, 1), (1, 0), (0, 1)] 1)
          scan_cells = [0x29, 0xe1, 0x04, 0xe0]
      ∧ (snapshot board_keys (cycle_env_cells [(7, 9), (4, 1), (1, 0), (0, 1)] 1)).hid
          = [3, 0, 0x29, 0, 0, 0, 0, 0]
      ∧ (snapshot board_keys (cycle_env_cells [(7, 9), (4, 1), (1, 0), (0, 1)] 1)).hotkey
          = 0
      ∧ (snapshot board_keys (cycle_env_cells [(7, 9), (4, 1), (1, 0), (0, 1)] 1)).fnfunc
          = board_keys.FN_NOP :=
  ⟨by decide, by decide, by decide,
    (snapshot_fn_released board_keys (cycle_env_cells [(7, 9), (4, 1), (1, 0), (0, 1)] 1)
      (by decide) (by decide)).1.trans (by decide),
    (snapshot_fn_released board_keys (cycle_env_cells [(7, 9), (4, 1), (1, 0), (0, 1)] 1)
      (by decide) (by decide)).2⟩

theorem pressed_fn_e580_fnlock (tick_ms : Nat) (code : KeyName → Nat) (fnc : FnName → Nat)
    (env : CycleEnv) (hrow : ∀ c ∈ scan_cells, (env.row c.1 c.2 = 0 ↔ c = (0, 1))) :
    pressed_fn (board_e580 tick_ms code fnc) env scan_cells
      = [{ scan1 := 0, scan2 := 1, hidcode := 0, fncode := fnc FnName.FN_FNLOCK }] := by
  unfold pressed_fn
  have hfilter : scan_cells.filter (fun c => decide (env.row c.1 c.2 = 0))
      = scan_cells.filter (fun c => decide (c = (0, 1))) := by
    apply List.filter_congr
    intro c hc
    simp only [decide_eq_decide]
    exact hrow c hc
  have hone : scan_cells.filter (fun c => decide (c = (0, 1))) = [(0, 1)] := by decide
  rw [hfilter, hone]
  have hs : search_fn (board_e580 tick_ms code fnc).fntbl 0 1
      = some { scan1 := 0, scan2 := 1, hidcode := 0, fncode := fnc FnName.FN_FNLOCK } :=
    search_fn_e580_fnlock code fnc
  simp only [List.filterMap_cons, hs, List.filterMap_nil]

theorem fold_held_pressed (b : Board) (env : CycleEnv) :
    ∀ (cells : List (Nat × Nat)) (a : ScanAcc),
      (∀ c ∈ cells, env.button_fn c.1 c.2 = 0) →
      (∀ e ∈ pressed_fn b env cells, e.hidcode < 65536) → a.hid = hid_zero →
      (cells.foldl (scan_step b env) a).hid = hid_zero
        ∧ ((cells.foldl (scan_step b env) a).hotkey, (cells.foldl (scan_step b env) a).fnfunc)
            = last_fn (a.hotkey, a.fnfunc) (pressed_fn b env cells) := by
  intro cells
  induction cells with
  | nil =>
    intro a _ _ hid
    exact ⟨hid, rfl⟩
  | cons c more ih =>
    intro a hfn hcodes hid
    have hfnc : env.button_fn c.1 c.2 = 0 := hfn c (List.mem_cons_self _ _)
    have hfnm : ∀ d ∈ more, env.button_fn d.1 d.2 = 0 :=
      fun d hd => hfn d (List.mem_cons_of_mem _ hd)
    rw [pressed_fn_cons] at hcodes
    rw [List.foldl_cons, pressed_fn_cons, scan_step_held b env a c hfnc]
    by_cases hrow : env.row c.1 c.2 = 0
    · simp only [if_pos hrow] at hcodes ⊢
      cases hs : search_fn b.fntbl c.1 c.2 with
      | none =>
        rw [hs] at hcodes
        exact ih a hfnm hcodes hid
      | some it =>
        rw [hs] at hcodes
        dsimp only at hcodes ⊢
        obtain ⟨i1, i2⟩ := ih (ScanAcc.mk true hid_zero (it.hidcode % 65536) it.fncode)
          hfnm (fun e he => hcodes e (List.mem_cons_of_mem _ he)) rfl
        refine ⟨i1, ?_⟩
        rw [i2]
        dsimp only
        rw [Nat.mod_eq_of_lt (hcodes it (List.mem_cons_self _ _))]
        rfl
    · simp only [if_neg hrow] at hcodes ⊢
      exact ih a hfnm hcodes hid

/-- C13. Key resolution with FN held: when the FN button reads held at every cell of a
cycle and every consumer code of the hotkey table fits 16 bits, the snapshot is all zero
and the hotkey code and function code are those of the last asserted cell, in scan order,
that the hotkey table names: 0 and `FN_NOP` when no asserted cell is in the table, and
otherwise those of the entry of an asserted cell. On the E580 keymap, with only cell
`(0, 1)` asserted, the function code is `FN_FNLOCK`, the hotkey code is 0 and the snapshot
is all zero. -/
theorem snapshot_fn_held :
    (∀ (b : Board) (env : CycleEnv),
      (∀ c ∈ scan_cells, env.button_fn c.1 c.2 = 0) →
      (∀ e ∈ b.fntbl, e.hidcode < 65536) →
        (snapshot b env).hid = hid_zero
        ∧ ((snapshot b env).hotkey, (snapshot b env).fnfunc)
            = last_fn (0, b.FN_NOP) (pressed_fn b env scan_cells)
        ∧ ((∀ c ∈ scan_cells, env.row c.1 c.2 = 0 → search_fn b.fntbl c.1 c.2 = none) →
            (snapshot b env).hotkey = 0 ∧ (snapshot b env).fnfunc = b.FN_NOP)
        ∧ ((∃ c ∈ scan_cells, env.row c.1 c.2 = 0 ∧ search_fn b.fntbl c.1 c.2 ≠ none) →
            ∃ c ∈ scan_cells, ∃ e, env.row c.1 c.2 = 0 ∧ search_fn b.fntbl c.1 c.2 = some e
              ∧ (snapshot b env).hotkey = e.hidcode ∧ (snapshot b env).fnfunc = e.fncode))
    ∧ (∀ (tick_ms : Nat) (code : KeyName → Nat) (fnc : FnName → Nat) (env : CycleEnv),
      (∀ c ∈ scan_cells, env.button_fn c.1 c.2 = 0) →
      (∀ c ∈ scan_cells, (env.row c.1 c.2 = 0 ↔ c = (0, 1))) →
        (snapshot (board_e580 tick_ms code fnc) env).fnfunc = fnc FnName.FN_FNLOCK
        ∧ (snapshot (board_e580 tick_ms code fnc) env).hotkey = 0
        ∧ (snapshot (board_e580 tick_ms code fnc) env).hid = hid_zero) := by
  constructor
  · intro b env hfn hcodes
    rw [snapshot_eq_fold]
    obtain ⟨h1, h2⟩ := fold_held_pressed b env scan_cells (scan_start b) hfn
      (fun e he => by
        obtain ⟨c, _, _, hs⟩ := pressed_fn_mem b env scan_cells e he
        exact hcodes e (search_fn_mem _ _ _ _ hs)) rfl
    have h2s : ((scan_cells.foldl (scan_step b env) (scan_start b)).hotkey,
        (scan_cells.foldl (scan_step b env) (scan_start b)).fnfunc)
        = last_fn (0, b.FN_NOP) (pressed_fn b env scan_cells) := h2
    refine ⟨h1, h2s, ?_, ?_⟩
    · intro hnone
      rw [pressed_fn_nil b env scan_cells hnone] at h2s
      exact ⟨congrArg Prod.fst h2s, congrArg Prod.snd h2s⟩
    · intro hsome
      obtain ⟨c, hc, hrow, hs⟩ := hsome
      have hne : pressed_fn b env scan_cells ≠ [] := by
        intro hnil
        obtain ⟨e, he⟩ := Option.ne_none_iff_exists.mp hs
        have hmem : e ∈ pressed_fn b env scan_cells := by
          unfold pressed_fn
          exact List.mem_filterMap.mpr
            ⟨c, List.mem_filter.mpr ⟨hc, by simpa using hrow⟩, he.symm⟩
        rw [hnil] at hmem
        exact absurd hmem (List.not_mem_nil _)
      obtain ⟨e, he, hl⟩ := last_fn_mem (0, b.FN_NOP) _ hne
      obtain ⟨d, hd, hdrow, hds⟩ := pressed_fn_mem b env scan_cells e he
      rw [hl] at h2s
      exact ⟨d, hd, e, hdrow, hds, congrArg Prod.fst h2s, congrArg Prod.snd h2s⟩
  · intro tick_ms code fnc env hfn hrow
    rw [snapshot_eq_fold]
    have hp := pressed_fn_e580_fnlock tick_ms code fnc env hrow
    obtain ⟨h1, h2⟩ := fold_held_pressed (board_e580 tick_ms code fnc) env scan_cells
      (scan_start (board_e580 tick_ms code fnc)) hfn
      (fun e he => by
        rw [hp] at he
        rw [List.mem_singleton.mp he]
        exact Nat.zero_lt_succ _) rfl
    rw [hp] at h2
    exact ⟨congrArg Prod.snd h2, congrArg Prod.fst h2, h1⟩

set_option maxRecDepth 100000 in
theorem snapshot_fn_held_witness :
    (snapshot board_keys (cycle_env_cells [(0, 1), (7, 4)] 0)).hid = hid_zero
      ∧ ((snapshot board_keys (cycle_env_cells [(0, 1), (7, 4)] 0)).hotkey,
          (snapshot board_keys (cycle_env_cells [(0, 1), (7, 4)] 0)).fnfunc) = (0xe2, 0)
      ∧ (snapshot (board_e580 1 key_code_example fn_code_example)
            (cycle_env_cells [(0, 1)] 0)).fnfunc = 1
      ∧ (snapshot (board_e580 1 key_code_example fn_code_example)
            (cycle_env_cells [(0, 1)] 0)).hotkey = 0
      ∧ (snapshot (board_e580 1 key_code_example fn_code_example)
            (cycle_env_cells [(0, 1)] 0)).hid = hid_zero :=
  ⟨(snapshot_fn_held.1 board_keys (cycle_env_cells [(0, 1), (7, 4)] 0)
      (by decide) (by decide)).1,
    (snapshot_fn_held.1 board_keys (cycle_env_cells [(0, 1), (7, 4)] 0)
      (by decide) (by decide)).2.1.trans (by decide),
    snapshot_fn_held.2 1 key_code_example fn_code_example (cycle_env_cells [(0, 1)] 0)
      (by decide) (by decide)⟩

theorem pan_sign (d : Int) :
    (if 0 < d then (1 : Int) else if d < 0 then -1 else 0) = Int.sign d
      ∧ (if d < 0 then (1 : Int) else if 0 < d then -1 else 0) = -Int.sign d := by
  rcases lt_trichotomy d 0 with h | h | h
  · have h1 : ¬ 0 < d := by omega
    rw [if_neg h1, if_pos h, if_pos h, Int.sign_eq_neg_one_of_neg h]
    exact ⟨rfl, rfl⟩
  · subst h
    exact ⟨rfl, rfl⟩
  · have h1 : ¬ d < 0 := by omega
    rw [if_pos h, if_neg h1, if_pos h, Int.sign_eq_one_of_pos h]
    exact ⟨rfl, rfl⟩

/-- C18. Panning: for a valid sample decoded while the FN button reads held, the one mouse
report of the poll carries `dx = 0` and `dy = 0`, the vertical pan `-sign dy`, the
horizontal pan `sign dx` (each of them -1, 0 or 1) and the three button bits of the
sample; the poll emits no other mouse report. -/
theorem poll_finish_panning (env : PollEnv) (s : KbState) (smp : Sample)
    (hv : smp.is_recv = true) (hfn : env.button_fn = 0) :
    (poll_finish env s smp).2.filter KbEvent.is_mouse
        = send_mouse env.usb_connected env.ble_connected (smp.buttons &&& 7) 0 0
            (-Int.sign smp.dy) (Int.sign smp.dx)
      ∧ (Int.sign smp.dx = -1 ∨ Int.sign smp.dx = 0 ∨ Int.sign smp.dx = 1)
      ∧ (-Int.sign smp.dy = -1 ∨ -Int.sign smp.dy = 0 ∨ -Int.sign smp.dy = 1) := by
  refine ⟨?_, ?_, ?_⟩
  · rw [(poll_finish_spec env s smp).2.2.2.2.2.2, if_pos hv]
    unfold mouse_report
    rw [if_pos hfn]
    dsimp only
    rw [(pan_sign smp.dx).1, (pan_sign smp.dy).2]
  · rcases lt_trichotomy smp.dx 0 with h | h | h
    · exact Or.inl (Int.sign_eq_neg_one_of_neg h)
    · exact Or.inr (Or.inl (by rw [h]; rfl))
    · exact Or.inr (Or.inr (Int.sign_eq_one_of_pos h))
  · rcases lt_trichotomy smp.dy 0 with h | h | h
    · exact Or.inr (Or.inr (by rw [Int.sign_eq_neg_one_of_neg h]; rfl))
    · exact Or.inr (Or.inl (by rw [h]; rfl))
    · exact Or.inl (by rw [Int.sign_eq_one_of_pos h])

theorem poll_finish_panning_witness :
    (poll_finish (poll_env_usb [] 0) { kb_initial 6 6 0 with uart1_fd := 3 }
        { buttons := 0x0d, dx := -9, dy := -4, is_recv := true }).2.filter KbEvent.is_mouse
      = [KbEvent.usb_mouse 5 0 0 1 (-1)] :=
  (poll_finish_panning (poll_env_usb [] 0) { kb_initial 6 6 0 with uart1_fd := 3 }
    { buttons := 0x0d, dx := -9, dy := -4, is_recv := true } rfl rfl).1.trans (by decide)

theorem routed_send_keyboard (usb ble : Bool) (h : List Nat) :
    routed usb ble (send_keyboard usb ble h) := by
  cases usb <;> cases ble <;> simp [routed, send_keyboard, KbEvent.via_usb, KbEvent.via_ble]

theorem routed_send_consumer (usb ble : Bool) (h : Nat) :
    routed usb ble (send_consumer usb ble h) := by
  cases usb <;> cases ble <;> simp [routed, send_consumer, KbEvent.via_usb, KbEvent.via_ble]

theorem routed_send_mouse (usb ble : Bool) (bt : Nat) (x y v w : Int) :
    routed usb ble (send_mouse usb ble bt x y v w) := by
  cases usb <;> cases ble <;> simp [routed, send_mouse, KbEvent.via_usb, KbEvent.via_ble]

theorem routed_mouse_report (env : PollEnv) (bt : Nat) (x y : Int) :
    routed env.usb_connected env.ble_connected (mouse_report env bt x y) := by
  unfold mouse_report
  by_cases hfn : env.button_fn = 0
  · rw [if_pos hfn]
    exact routed_send_mouse _ _ _ _ _ _ _
  · rw [if_neg hfn]
    exact routed_send_mouse _ _ _ _ _ _ _

theorem routed_mem (usb ble : Bool) (l : List KbEvent) (h : routed usb ble l) :
    (usb = true → ∀ e ∈ l, e.via_ble = false)
      ∧ (usb = false → ∀ e ∈ l, e.via_usb = false) := by
  obtain ⟨h1, h2, h3⟩ := h
  constructor
  · intro hu e he
    have := (h1 hu).2
    rw [List.filter_eq_nil_iff] at this
    simpa using this e he
  · intro hu e he
    cases hb : ble with
    | true =>
      have := (h2 hu hb).2
      rw [List.filter_eq_nil_iff] at this
      simpa using this e he
    | false =>
      rw [h3 hu hb] at he
      exact absurd he (List.not_mem_nil _)

theorem report_event_mem (l : List KbEvent) (e : KbEvent) (he : e ∈ l)
    (h : e.via_usb = true ∨ e.via_ble = true) :
    e ∈ l.filter KbEvent.is_key_report ∨ e ∈ l.filter KbEvent.is_mouse := by
  have hcls : e.is_key_report = true ∨ e.is_mouse = true := by
    cases e <;> simp [KbEvent.via_usb, KbEvent.via_ble] at h <;>
      simp [KbEvent.is_key_report, KbEvent.is_mouse]
  rcases hcls with hk | hm
  · exact Or.inl (List.mem_filter.mpr ⟨he, hk⟩)
  · exact Or.inr (List.mem_filter.mpr ⟨he, hm⟩)

theorem keyboard_task_turn_idle (b : Board) (env : CycleEnv) (s : KbState)
    (hs : s.pm.curr_pm_state ≤ 4)
    (hidle : env.usb_connected = false ∧ env.ble_connected = false) :
    ∃ r, keyboard_task_turn b env s = some r
      ∧ ∀ e ∈ r.2, e.via_usb = false ∧ e.via_ble = false := by
  obtain ⟨⟨pm1, pevs⟩, hflush, -⟩ :=
    flush_power_state_some env.flush s.pm PM_IDLE_LONG_TIME hs (by decide)
  have heq : keyboard_task_turn b env s
      = some ({ s with pm := pm1 },
          [KbEvent.delay 2000, KbEvent.power_request PM_IDLE_LONG_TIME]
            ++ pevs.map KbEvent.pm) := by
    unfold keyboard_task_turn
    rw [if_pos hidle, hflush]
  refine ⟨_, heq, ?_⟩
  intro e he
  rcases List.mem_append.mp he with h | h
  · simp only [List.mem_cons, List.mem_singleton, List.not_mem_nil, or_false] at h
    rcases h with h | h <;> subst h <;> exact ⟨rfl, rfl⟩
  · obtain ⟨x, -, rfl⟩ := List.mem_map.mp h
    exact ⟨rfl, rfl⟩

theorem keyboard_task_turn_sinks (b : Board) (env : CycleEnv) (s : KbState)
    (hs : s.pm.curr_pm_state ≤ 4)
    (hpoll : ∀ i, (env.polls i).usb_connected = env.usb_connected
      ∧ (env.polls i).ble_connected = env.ble_connected) :
    ∃ r, keyboard_task_turn b env s = some r
      ∧ (env.usb_connected = true → ∀ e ∈ r.2, e.via_ble = false)
      ∧ (env.usb_connected = false → ∀ e ∈ r.2, e.via_usb = false)
      ∧ (env.usb_connected = false → env.ble_connected = false →
          ∀ e ∈ r.2, e.via_ble = false) := by
  by_cases hidle : env.usb_connected = false ∧ env.ble_connected = false
  · obtain ⟨r, hr, hall⟩ := keyboard_task_turn_idle b env s hs hidle
    exact ⟨r, hr, fun _ e he => (hall e he).2, fun _ e he => (hall e he).1,
      fun _ _ e he => (hall e he).2⟩
  · have hconn : env.usb_connected = true ∨ env.ble_connected = true := by
      cases hu : env.usb_connected with
      | true => exact Or.inl rfl
      | false =>
        cases hb : env.ble_connected with
        | true => exact Or.inr rfl
        | false => exact absurd ⟨hu, hb⟩ hidle
    obtain ⟨r, hr, -, -, -, hkey, hmouse⟩ := keyboard_task_turn_spec b env s hconn hs
    have hk := routed_mem _ _ _
      (routed_send_keyboard env.usb_connected env.ble_connected (snapshot b env).hid)
    have hc := routed_mem _ _ _
      (routed_send_consumer env.usb_connected env.ble_connected (snapshot b env).hotkey)
    have hm : ∀ i, (env.usb_connected = true → ∀ e ∈ poll_report (env.polls i),
          e.via_ble = false)
        ∧ (env.usb_connected = false → ∀ e ∈ poll_report (env.polls i),
          e.via_usb = false) := by
      intro i
      have := routed_mem _ _ _ (routed_mouse_report (env.polls i)
        ((poll_sample (env.polls i)).buttons &&& 7) (poll_sample (env.polls i)).dx
        (poll_sample (env.polls i)).dy)
      rw [(hpoll i).1] at this
      exact this
    have hmem : ∀ e ∈ r.2, e.via_usb = true ∨ e.via_ble = true →
        (e ∈ send_keyboard env.usb_connected env.ble_connected (snapshot b env).hid
          ∨ e ∈ send_consumer env.usb_connected env.ble_connected (snapshot b env).hotkey
          ∨ (∃ i, e ∈ poll_report (env.polls i))
          ∨ (wake_grace env r.1 ∧ (e = KbEvent.ble_keyboard hid_zero
              ∨ e = KbEvent.ble_mouse 0 0 0 0 0))) := by
      intro e he hvia
      rcases report_event_mem r.2 e he hvia with h | h
      · rw [hkey] at h
        rcases List.mem_append.mp h with h | h
        · rcases List.mem_append.mp h with h | h
          · split_ifs at h
            · exact Or.inl h
            · exact absurd h (List.not_mem_nil _)
          · split_ifs at h
            · exact Or.inr (Or.inl h)
            · exact absurd h (List.not_mem_nil _)
        · split_ifs at h with hw
          · exact Or.inr (Or.inr (Or.inr ⟨hw, Or.inl (List.mem_singleton.mp h)⟩))
          · exact absurd h (List.not_mem_nil _)
      · rw [hmouse] at h
        rcases List.mem_append.mp h with h | h
        · obtain ⟨i, -, hi⟩ := List.mem_flatMap.mp h
          exact Or.inr (Or.inr (Or.inl ⟨i, hi⟩))
        · split_ifs at h with hw
          · exact Or.inr (Or.inr (Or.inr ⟨hw, Or.inr (List.mem_singleton.mp h)⟩))
          · exact absurd h (List.not_mem_nil _)
    refine ⟨r, hr, ?_, ?_, ?_⟩
    · intro hu e he
      cases hv : e.via_ble with
      | false => rfl
      | true =>
        exfalso
        rcases hmem e he (Or.inr hv) with h | h | ⟨i, h⟩ | ⟨hw, -⟩
        · rw [hk.1 hu e h] at hv; exact Bool.false_ne_true hv
        · rw [hc.1 hu e h] at hv; exact Bool.false_ne_true hv
        · rw [(hm i).1 hu e h] at hv; exact Bool.false_ne_true hv
        · rw [hw.2.1] at hu; exact Bool.false_ne_true hu
    · intro hu e he
      cases hv : e.via_usb with
      | false => rfl
      | true =>
        exfalso
        rcases hmem e he (Or.inl hv) with h | h | ⟨i, h⟩ | ⟨-, h | h⟩
        · rw [hk.2 hu e h] at hv; exact Bool.false_ne_true hv
        · rw [hc.2 hu e h] at hv; exact Bool.false_ne_true hv
        · rw [(hm i).2 hu e h] at hv; exact Bool.false_ne_true hv
        · rw [h] at hv; exact Bool.false_ne_true hv
        · rw [h] at hv; exact Bool.false_ne_true hv
    · intro hu hb
      exact absurd ⟨hu, hb⟩ hidle

theorem filter_via_usb_length (l : List KbEvent) :
    (l.filter KbEvent.via_usb).length
      = ((l.filter KbEvent.is_key_report).filter KbEvent.via_usb).length
        + ((l.filter KbEvent.is_mouse).filter KbEvent.via_usb).length := by
  induction l with
  | nil => rfl
  | cons e more ih =>
    cases e <;>
      simp [List.filter_cons, KbEvent.via_usb, KbEvent.is_key_report, KbEvent.is_mouse, ih] <;>
      omega

theorem filter_via_ble_length (l : List KbEvent) :
    (l.filter KbEvent.via_ble).length
      = ((l.filter KbEvent.is_key_report).filter KbEvent.via_ble).length
        + ((l.filter KbEvent.is_mouse).filter KbEvent.via_ble).length := by
  induction l with
  | nil => rfl
  | cons e more ih =>
    cases e <;>
      simp [List.filter_cons, KbEvent.via_ble, KbEvent.is_key_report, KbEvent.is_mouse, ih] <;>
      omega

theorem flatMap_filter_length (p : KbEvent → Bool) (f : Nat → List KbEvent)
    (hf : ∀ i, ∃ e, f i = [e] ∧ p e = true) :
    ∀ l : List Nat, ((l.flatMap f).filter p).length = l.length := by
  intro l
  induction l with
  | nil => rfl
  | cons i more ih =>
    obtain ⟨e, he, hp⟩ := hf i
    rw [List.flatMap_cons, List.filter_append, List.length_append, ih, he]
    simp [List.filter_cons, hp]
    omega

theorem filter_ite_length (p : KbEvent → Bool) (c : Prop) [Decidable c] (e : KbEvent)
    (hp : p e = true) :
    ((if c then [e] else []).filter p).length = if c then 1 else 0 := by
  split_ifs <;> simp [hp]

theorem poll_report_usb (env : PollEnv) (hu : env.usb_connected = true) :
    ∃ bt x y v h, poll_report env = [KbEvent.usb_mouse bt x y v h] := by
  unfold poll_report mouse_report send_mouse
  rw [hu]
  by_cases hfn : env.button_fn = 0
  · rw [if_pos hfn]
    exact ⟨_, _, _, _, _, rfl⟩
  · rw [if_neg hfn]
    exact ⟨_, _, _, _, _, rfl⟩

theorem poll_report_ble (env : PollEnv) (hu : env.usb_connected = false)
    (hb : env.ble_connected = true) :
    ∃ bt x y v h, poll_report env = [KbEvent.ble_mouse bt x y v h] := by
  unfold poll_report mouse_report send_mouse
  rw [hu, hb]
  by_cases hfn : env.button_fn = 0
  · rw [if_pos hfn]
    exact ⟨_, _, _, _, _, rfl⟩
  · rw [if_neg hfn]
    exact ⟨_, _, _, _, _, rfl⟩

theorem keyboard_task_turn_deliveries (b : Board) (env : CycleEnv) (s : KbState)
    (hs : s.pm.curr_pm_state ≤ 4)
    (hpoll : ∀ i, (env.polls i).usb_connected = env.usb_connected
      ∧ (env.polls i).ble_connected = env.ble_connected) :
    ∃ r, keyboard_task_turn b env s = some r
      ∧ (env.usb_connected = true →
          r.2.filter KbEvent.is_key_report
            = (if (snapshot b env).hid ≠ s.lasthid then
                 [KbEvent.usb_keyboard (snapshot b env).hid] else [])
              ++ (if (snapshot b env).hotkey ≠ s.lasthotkey then
                    [KbEvent.usb_consumer (snapshot b env).hotkey] else [])
          ∧ r.2.filter KbEvent.is_mouse
              = (observing env (List.range 8) s.uart1_fd).flatMap
                  (fun i => poll_report (env.polls i))
          ∧ (∀ i, ∃ bt x y v h, poll_report (env.polls i) = [KbEvent.usb_mouse bt x y v h])
          ∧ (r.2.filter KbEvent.via_usb).length
              = (observing env (List.range 8) s.uart1_fd).length
                + (if (snapshot b env).hid ≠ s.lasthid then 1 else 0)
                + (if (snapshot b env).hotkey ≠ s.lasthotkey then 1 else 0))
      ∧ (env.usb_connected = false → env.ble_connected = true →
          r.2.filter KbEvent.is_key_report
            = (if (snapshot b env).hid ≠ s.lasthid then
                 [KbEvent.ble_keyboard (snapshot b env).hid] else [])
              ++ (if (snapshot b env).hotkey ≠ s.lasthotkey then
                    [KbEvent.ble_consumer (snapshot b env).hotkey] else [])
              ++ (if wake_grace env r.1 then [KbEvent.ble_keyboard hid_zero] else [])
          ∧ r.2.filter KbEvent.is_mouse
              = (observing env (List.range 8) s.uart1_fd).flatMap
                  (fun i => poll_report (env.polls i))
                ++ (if wake_grace env r.1 then [KbEvent.ble_mouse 0 0 0 0 0] else [])
          ∧ (∀ i, ∃ bt x y v h, poll_report (env.polls i) = [KbEvent.ble_mouse bt x y v h])
          ∧ (r.2.filter KbEvent.via_ble).length
              = (observing env (List.range 8) s.uart1_fd).length
                + (if (snapshot b env).hid ≠ s.lasthid then 1 else 0)
                + (if (snapshot b env).hotkey ≠ s.lasthotkey then 1 else 0)
                + (if wake_grace env r.1 then 2 else 0)) := by
  by_cases hidle : env.usb_connected = false ∧ env.ble_connected = false
  · obtain ⟨r, hr, -⟩ := keyboard_task_turn_idle b env s hs hidle
    refine ⟨r, hr, ?_, ?_⟩
    · intro hu
      rw [hidle.1] at hu
      exact absurd hu Bool.false_ne_true
    · intro _ hb
      rw [hidle.2] at hb
      exact absurd hb Bool.false_ne_true
  · have hconn : env.usb_connected = true ∨ env.ble_connected = true := by
      cases hu : env.usb_connected with
      | true => exact Or.inl rfl
      | false =>
        cases hb : env.ble_connected with
        | true => exact Or.inr rfl
        | false => exact absurd ⟨hu, hb⟩ hidle
    obtain ⟨r, hr, -, -, -, hkey, hmouse⟩ := keyboard_task_turn_spec b env s hconn hs
    refine ⟨r, hr, ?_, ?_⟩
    · intro hu
      have hnw : ¬ wake_grace env r.1 := by
        rintro ⟨-, h, -⟩
        rw [hu] at h
        exact Bool.noConfusion h
      have hpr : ∀ i, ∃ bt x y v h, poll_report (env.polls i) = [KbEvent.usb_mouse bt x y v h] :=
        fun i => poll_report_usb (env.polls i) (by rw [(hpoll i).1]; exact hu)
      have hk : r.2.filter KbEvent.is_key_report
            = (if (snapshot b env).hid ≠ s.lasthid then
                 [KbEvent.usb_keyboard (snapshot b env).hid] else [])
              ++ (if (snapshot b env).hotkey ≠ s.lasthotkey then
                    [KbEvent.usb_consumer (snapshot b env).hotkey] else []) := by
        rw [hkey, if_neg hnw, List.append_nil]
        unfold send_keyboard send_consumer
        rw [hu]
        rfl
      have hm : r.2.filter KbEvent.is_mouse
              = (observing env (List.range 8) s.uart1_fd).flatMap
                  (fun i => poll_report (env.polls i)) := by
        rw [hmouse, if_neg hnw, List.append_nil]
      refine ⟨hk, hm, hpr, ?_⟩
      rw [filter_via_usb_length, hk, hm, List.filter_append, List.length_append,
        filter_ite_length KbEvent.via_usb _ (KbEvent.usb_keyboard (snapshot b env).hid) rfl,
        filter_ite_length KbEvent.via_usb _ (KbEvent.usb_consumer (snapshot b env).hotkey) rfl,
        flatMap_filter_length KbEvent.via_usb (fun i => poll_report (env.polls i))
          (fun i => by
            obtain ⟨bt, x, y, v, h, he⟩ := hpr i
            exact ⟨_, he, rfl⟩)]
      omega
    · intro hu hb
      have hpr : ∀ i, ∃ bt x y v h, poll_report (env.polls i) = [KbEvent.ble_mouse bt x y v h] :=
        fun i => poll_report_ble (env.polls i) (by rw [(hpoll i).1]; exact hu)
          (by rw [(hpoll i).2]; exact hb)
      have hk : r.2.filter KbEvent.is_key_report
            = (if (snapshot b env).hid ≠ s.lasthid then
                 [KbEvent.ble_keyboard (snapshot b env).hid] else [])
              ++ (if (snapshot b env).hotkey ≠ s.lasthotkey then
                    [KbEvent.ble_consumer (snapshot b env).hotkey] else [])
              ++ (if wake_grace env r.1 then [KbEvent.ble_keyboard hid_zero] else []) := by
        rw [hkey]
        unfold send_keyboard send_consumer
        rw [hu, hb]
        rfl
      refine ⟨hk, hmouse, hpr, ?_⟩
      rw [filter_via_ble_length, hk, hmouse]
      simp only [List.filter_append, List.length_append]
      rw [filter_ite_length KbEvent.via_ble _ (KbEvent.ble_keyboard (snapshot b env).hid) rfl,
        filter_ite_length KbEvent.via_ble _ (KbEvent.ble_consumer (snapshot b env).hotkey) rfl,
        filter_ite_length KbEvent.via_ble _ (KbEvent.ble_keyboard hid_zero) rfl,
        filter_ite_length KbEvent.via_ble _ (KbEvent.ble_mouse 0 0 0 0 0) rfl,
        flatMap_filter_length KbEvent.via_ble (fun i => poll_report (env.polls i))
          (fun i => by
            obtain ⟨bt, x, y, v, h, he⟩ := hpr i
            exact ⟨_, he, rfl⟩)]
      by_cases c3 : wake_grace env r.1
      · simp only [if_pos c3]
        omega
      · simp only [if_neg c3]
        omega

/-- C19. Transport routing: each keyboard report call, consumer report call and mouse
report call of the scan loop goes to exactly one sink, the USB sink when the USB flag is
set (whatever the BLE flag) and the BLE sink when only the BLE flag is set, and to none when
neither is set. In a whole turn whose polls read the same flags: no call reaches the BLE
sinks while the USB flag is set, none reaches the USB sinks while it is clear, and none
reaches any sink when both flags are clear; with the USB flag set, the report calls of the
turn are one `tinyusb_hid_keyboard_report` when the snapshot changed, one
`tinyusb_hid_consumer_report` when the hotkey changed and one `tinyusb_hid_mouse_report` for
each poll that observed motion, and nothing else; with only the BLE flag set they are the
same reports through `esp_hidd_send_keyboard_value`, `esp_hidd_send_consumer_value` and
`esp_hidd_send_mouse_value`, followed by the two zeroed reports of the wake-grace window
when it is open. -/
theorem keyboard_task_turn_routing :
    (∀ (usb ble : Bool) (hid : List Nat), routed usb ble (send_keyboard usb ble hid))
    ∧ (∀ (usb ble : Bool) (hotkey : Nat), routed usb ble (send_consumer usb ble hotkey))
    ∧ (∀ (env : PollEnv) (buttons : Nat) (dx dy : Int),
        routed env.usb_connected env.ble_connected (mouse_report env buttons dx dy))
    ∧ (∀ (b : Board) (env : CycleEnv) (s : KbState),
        s.pm.curr_pm_state ≤ 4 →
        (∀ i, (env.polls i).usb_connected = env.usb_connected
          ∧ (env.polls i).ble_connected = env.ble_connected) →
        ∃ r, keyboard_task_turn b env s = some r
          ∧ (env.usb_connected = true → ∀ e ∈ r.2, e.via_ble = false)
          ∧ (env.usb_connected = false → ∀ e ∈ r.2, e.via_usb = false)
          ∧ (env.usb_connected = false → env.ble_connected = false →
              ∀ e ∈ r.2, e.via_ble = false))
    ∧ (∀ (b : Board) (env : CycleEnv) (s : KbState),
        s.pm.curr_pm_state ≤ 4 →
        (∀ i, (env.polls i).usb_connected = env.usb_connected
          ∧ (env.polls i).ble_connected = env.ble_connected) →
        ∃ r, keyboard_task_turn b env s = some r
          ∧ (env.usb_connected = true →
              r.2.filter KbEvent.is_key_report
                = (if (snapshot b env).hid ≠ s.lasthid then
                     [KbEvent.usb_keyboard (snapshot b env).hid] else [])
                  ++ (if (snapshot b env).hotkey ≠ s.lasthotkey then
                        [KbEvent.usb_consumer (snapshot b env).hotkey] else [])
              ∧ r.2.filter KbEvent.is_mouse
                  = (observing env (List.range 8) s.uart1_fd).flatMap
                      (fun i => poll_report (env.polls i))
              ∧ (∀ i, ∃ bt x y v h,
                  poll_report (env.polls i) = [KbEvent.usb_mouse bt x y v h])
              ∧ (r.2.filter KbEvent.via_usb).length
                  = (observing env (List.range 8) s.uart1_fd).length
                    + (if (snapshot b env).hid ≠ s.lasthid then 1 else 0)
                    + (if (snapshot b env).hotkey ≠ s.lasthotkey then 1 else 0))
          ∧ (env.usb_connected = false → env.ble_connected = true →
              r.2.filter KbEvent.is_key_report
                = (if (snapshot b env).hid ≠ s.lasthid then
                     [KbEvent.ble_keyboard (snapshot b env).hid] else [])
                  ++ (if (snapshot b env).hotkey ≠ s.lasthotkey then
                        [KbEvent.ble_consumer (snapshot b env).hotkey] else [])
                  ++ (if wake_grace env r.1 then [KbEvent.ble_keyboard hid_zero] else [])
              ∧ r.2.filter KbEvent.is_mouse
                  = (observing env (List.range 8) s.uart1_fd).flatMap
                      (fun i => poll_report (env.polls i))
                    ++ (if wake_grace env r.1 then [KbEvent.ble_mouse 0 0 0 0 0] else [])
              ∧ (∀ i, ∃ bt x y v h,
                  poll_report (env.polls i) = [KbEvent.ble_mouse bt x y v h])
              ∧ (r.2.filter KbEvent.via_ble).length
                  = (observing env (List.range 8) s.uart1_fd).length
                    + (if (snapshot b env).hid ≠ s.lasthid then 1 else 0)
                    + (if (snapshot b env).hotkey ≠ s.lasthotkey then 1 else 0)
                    + (if wake_grace env r.1 then 2 else 0))) :=
  ⟨routed_send_keyboard, routed_send_consumer, routed_mouse_report, keyboard_task_turn_sinks,
    keyboard_task_turn_deliveries⟩

set_option maxRecDepth 100000 in
theorem keyboard_task_turn_routing_witness :
    (keyboard_task_turn board_keys cycle_env_usb_busy
        { kb_initial 6 6 0 with uart1_fd := 3, lasthid := [0, 0, 4, 0, 0, 0, 0, 0] }).map
        (fun r => r.2.filter KbEvent.via_usb)
      = some [KbEvent.usb_mouse 0 13 0 0 0, KbEvent.usb_mouse 0 13 0 0 0,
          KbEvent.usb_mouse 0 13 0 0 0, KbEvent.usb_mouse 0 13 0 0 0,
          KbEvent.usb_mouse 0 13 0 0 0, KbEvent.usb_mouse 0 13 0 0 0,
          KbEvent.usb_mouse 0 13 0 0 0, KbEvent.usb_mouse 0 13 0 0 0,
          KbEvent.usb_keyboard hid_zero, KbEvent.usb_consumer 0xe2]
      ∧ (∃ r, keyboard_task_turn board_keys cycle_env_usb_busy
            { kb_initial 6 6 0 with uart1_fd := 3, lasthid := [0, 0, 4, 0, 0, 0, 0, 0] } = some r
          ∧ r.2.filter KbEvent.is_key_report
              = [KbEvent.usb_keyboard hid_zero, KbEvent.usb_consumer 0xe2]
          ∧ (r.2.filter KbEvent.via_usb).length = 10
          ∧ ∀ e ∈ r.2, e.via_ble = false)
      ∧ (keyboard_task_turn board_example cycle_env_ble_busy
          { kb_initial 6 6 0 with uart1_fd := 3 }).map
          (fun r => r.2.filter KbEvent.via_ble)
        = some [KbEvent.ble_mouse 0 13 0 0 0, KbEvent.ble_mouse 0 13 0 0 0,
            KbEvent.ble_mouse 0 13 0 0 0, KbEvent.ble_mouse 0 13 0 0 0,
            KbEvent.ble_mouse 0 13 0 0 0, KbEvent.ble_mouse 0 13 0 0 0,
            KbEvent.ble_mouse 0 13 0 0 0, KbEvent.ble_mouse 0 13 0 0 0,
            KbEvent.ble_keyboard [0, 0, 0x29, 0, 0, 0, 0, 0],
            KbEvent.ble_keyboard hid_zero, KbEvent.ble_mouse 0 0 0 0 0]
      ∧ ∃ r, keyboard_task_turn board_example cycle_env_ble_busy
            { kb_initial 6 6 0 with uart1_fd := 3 } = some r
          ∧ ∀ e ∈ r.2, e.via_usb = false := by
  refine ⟨by decide, ?_, by decide, ?_⟩
  · obtain ⟨r, hr, hu, -⟩ :=
      keyboard_task_turn_routing.2.2.2.2 board_keys cycle_env_usb_busy
        { kb_initial 6 6 0 with uart1_fd := 3, lasthid := [0, 0, 4, 0, 0, 0, 0, 0] }
        (by decide) (fun _ => ⟨rfl, rfl⟩)
    obtain ⟨r2, hr2, hno, -⟩ :=
      keyboard_task_turn_routing.2.2.2.1 board_keys cycle_env_usb_busy
        { kb_initial 6 6 0 with uart1_fd := 3, lasthid := [0, 0, 4, 0, 0, 0, 0, 0] }
        (by decide) (fun _ => ⟨rfl, rfl⟩)
    have hsame : r2 = r := Option.some.inj (hr2.symm.trans hr)
    obtain ⟨hk, -, -, hlen⟩ := hu rfl
    refine ⟨r, hr, ?_, ?_, ?_⟩
    · rw [hk]
      decide
    · rw [hlen]
      decide
    · rw [← hsame]
      exact hno rfl
  · obtain ⟨r, hr, -, h2, -⟩ :=
      keyboard_task_turn_routing.2.2.2.1 board_example cycle_env_ble_busy
        { kb_initial 6 6 0 with uart1_fd := 3 } (by decide) (fun _ => ⟨rfl, rfl⟩)
    exact ⟨r, hr, h2 rfl⟩

theorem poll_finish_locks (env : PollEnv) (s : KbState) (smp : Sample) :
    locks (poll_finish env s smp).1 = locks s := by
  unfold poll_finish
  dsimp only
  split_ifs <;> rfl

theorem poll_trackpoint_locks (tick_ms : Nat) (env : PollEnv) (s : KbState) (poll_us : Nat)
    (r : KbState × List KbEvent) (h : poll_trackpoint tick_ms env s poll_us = some r) :
    locks r.1 = locks s := by
  unfold poll_trackpoint at h
  by_cases hfd : s.uart1_fd < 0
  · rw [if_pos hfd] at h
    rw [← Option.some.inj h]
  · rw [if_neg hfd] at h
    dsimp only at h
    by_cases hs : env.select_ret < 0
    · rw [if_pos hs] at h
      rw [← Option.some.inj h]
      exact poll_finish_locks _ _ _
    · rw [if_neg hs] at h
      by_cases hz : env.select_ret ≠ 0
      · rw [if_pos hz] at h
        cases hf : flush_power_state env.flush s.pm PM_KB_TP_ACTIVE with
        | none =>
          rw [hf] at h
          exact absurd h (by simp)
        | some q =>
          rw [hf] at h
          dsimp only at h
          rw [← Option.some.inj h]
          dsimp only
          rw [poll_finish_locks]
          split_ifs <;> rfl
      · rw [if_neg hz] at h
        rw [← Option.some.inj h]
        exact poll_finish_locks _ _ _

theorem scan_columns_locks (b : Board) (env : CycleEnv) :
    ∀ (cols : List Nat) (a : ScanAcc) (s : KbState) (r : ScanAcc × KbState × List KbEvent),
      scan_columns b env cols a s = some r → locks r.2.1 = locks s := by
  intro cols
  induction cols with
  | nil =>
    intro a s r h
    have h2 : some (a, s, ([] : List KbEvent)) = some r := h
    rw [← Option.some.inj h2]
  | cons i more ih =>
    intro a s r h
    unfold scan_columns at h
    cases hg : get_kb_scan_interval_us s.pm with
    | none =>
      rw [hg] at h
      exact absurd h (by simp)
    | some us =>
      rw [hg] at h
      dsimp only at h
      cases hp : poll_trackpoint b.portTICK_PERIOD_MS (env.polls i) s us with
      | none =>
        rw [hp] at h
        exact absurd h (by simp)
      | some q =>
        rw [hp] at h
        dsimp only at h
        cases hr : scan_columns b env more (scan_rows b env i a) q.1 with
        | none =>
          rw [hr] at h
          exact absurd h (by simp)
        | some w =>
          rw [hr] at h
          dsimp only at h
          rw [← Option.some.inj h]
          dsimp only
          rw [ih _ _ _ hr]
          exact poll_trackpoint_locks _ _ _ _ _ hp

theorem cycle_power_locks (env : CycleEnv) (a : ScanAcc) (s : KbState)
    (r : KbState × List KbEvent) (h : cycle_power env a s = some r) :
    locks r.1 = locks s := by
  unfold cycle_power at h
  dsimp only at h
  by_cases hk : a.is_key_pressed = true
  · rw [if_pos hk] at h
    cases hf : flush_power_state env.flush s.pm PM_KB_ACTIVE with
    | none =>
      rw [hf] at h
      exact absurd h (by simp)
    | some q =>
      rw [hf] at h
      dsimp only at h
      split_ifs at h <;> rw [← Option.some.inj h] <;> rfl
  · rw [if_neg hk] at h
    cases hf : flush_power_state env.flush s.pm PM_IDLE_LONG_TIME with
    | none =>
      rw [hf] at h
      exact absurd h (by simp)
    | some q =>
      rw [hf] at h
      dsimp only at h
      rw [← Option.some.inj h]
      rfl

theorem cycle_consumer_locks (env : CycleEnv) (a : ScanAcc) (s : KbState) :
    locks (cycle_consumer env a s).1 = locks s := by
  unfold cycle_consumer
  split_ifs <;> rfl

theorem cycle_fnfunc_locks (b : Board) (env : CycleEnv) (a : ScanAcc) (s : KbState) :
    locks (cycle_fnfunc b env a s).1 = locks s := by
  unfold cycle_fnfunc do_fnfunc
  split_ifs <;> rfl

theorem cycle_keyboard_locks (b : Board) (env : CycleEnv) (a : ScanAcc) (s : KbState) :
    ((cycle_keyboard b env a s).1.is_caplk_on ≠ s.is_caplk_on
        ↔ a.hid ≠ s.lasthid ∧ a.hid.getD 2 0 = b.KEY_CAPSLOCK)
      ∧ ((cycle_keyboard b env a s).1.is_numlk_on ≠ s.is_numlk_on
        ↔ a.hid ≠ s.lasthid ∧ a.hid.getD 2 0 ≠ b.KEY_CAPSLOCK
          ∧ a.hid.getD 2 0 = b.KEY_NUMLOCK) := by
  unfold cycle_keyboard
  generalize a.hid.getD 2 0 = k
  by_cases hh : a.hid ≠ s.lasthid
  · rw [if_pos hh]
    dsimp only
    by_cases hc : k = b.KEY_CAPSLOCK
    · rw [if_pos hc]
      cases hon : s.is_caplk_on <;> simp [hh, hc, hon]
    · rw [if_neg hc]
      by_cases hn : k = b.KEY_NUMLOCK
      · rw [if_pos hn]
        have hc2 : ¬ b.KEY_NUMLOCK = b.KEY_CAPSLOCK := fun h => hc (hn.trans h)
        cases hon : s.is_numlk_on <;> simp [hh, hn, hon, hc2]
      · rw [if_neg hn]
        simp [hh, hc, hn]
  · rw [if_neg hh]
    simp [hh]

theorem keyboard_task_turn_lock_step (b : Board) (env : CycleEnv) (s : KbState)
    (hconn : env.usb_connected = true ∨ env.ble_connected = true)
    (hs : s.pm.curr_pm_state ≤ 4) :
    ∃ r, keyboard_task_turn b env s = some r
      ∧ (r.1.is_caplk_on ≠ s.is_caplk_on
          ↔ (snapshot b env).hid ≠ s.lasthid
            ∧ (snapshot b env).hid.getD 2 0 = b.KEY_CAPSLOCK)
      ∧ (r.1.is_numlk_on ≠ s.is_numlk_on
          ↔ (snapshot b env).hid ≠ s.lasthid
            ∧ (snapshot b env).hid.getD 2 0 ≠ b.KEY_CAPSLOCK
            ∧ (snapshot b env).hid.getD 2 0 = b.KEY_NUMLOCK) := by
  have hidle : ¬ (env.usb_connected = false ∧ env.ble_connected = false) := by
    rintro ⟨h1, h2⟩
    rcases hconn with h | h
    · rw [h1] at h; exact Bool.false_ne_true h
    · rw [h2] at h; exact Bool.false_ne_true h
  obtain ⟨⟨a, s1, evs1⟩, hscan, c1, c2, c3, -, -, -⟩ :=
    scan_columns_spec b env (List.range 8) (scan_start b) s hs
  simp only at c1 c2 c3
  obtain ⟨⟨s2, evs2⟩, hpow, -, w2, -, -, -⟩ := cycle_power_spec env a s1 c2
  simp only at w2
  have l1 : locks s1 = locks s := scan_columns_locks b env _ _ _ _ hscan
  have l2 : locks s2 = locks s1 := cycle_power_locks env a s1 _ hpow
  have l3 := cycle_consumer_locks env a (cycle_keyboard b env a s2).1
  have l4 := cycle_fnfunc_locks b env a (cycle_consumer env a (cycle_keyboard b env a s2).1).1
  have heq : keyboard_task_turn b env s
      = some ((cycle_fnfunc b env a (cycle_consumer env a (cycle_keyboard b env a s2).1).1).1,
          evs1 ++ evs2 ++ (cycle_keyboard b env a s2).2
            ++ (cycle_consumer env a (cycle_keyboard b env a s2).1).2
            ++ (cycle_fnfunc b env a (cycle_consumer env a (cycle_keyboard b env a s2).1).1).2
            ++ cycle_keepalive env
                (cycle_fnfunc b env a
                  (cycle_consumer env a (cycle_keyboard b env a s2).1).1).1) := by
    simp only [keyboard_task_turn, hidle, if_false, hscan, hpow]
  have hl : locks (cycle_fnfunc b env a
      (cycle_consumer env a (cycle_keyboard b env a s2).1).1).1
      = locks (cycle_keyboard b env a s2).1 := l4.trans l3
  have hs2 : locks s2 = locks s := l2.trans l1
  have hhid : s2.lasthid = s.lasthid := w2.trans c3
  have ha : a = snapshot b env := c1
  obtain ⟨k1, k2⟩ := cycle_keyboard_locks b env a s2
  rw [hhid, ha] at k1 k2
  refine ⟨_, heq, ?_, ?_⟩
  · have e1 : (cycle_fnfunc b env a
        (cycle_consumer env a (cycle_keyboard b env a s2).1).1).1.is_caplk_on
        = (cycle_keyboard b env a s2).1.is_caplk_on := congrArg Prod.fst hl
    have e2 : s2.is_caplk_on = s.is_caplk_on := congrArg Prod.fst hs2
    dsimp only
    rw [e1, ← e2, ha]
    exact k1
  · have e1 : (cycle_fnfunc b env a
        (cycle_consumer env a (cycle_keyboard b env a s2).1).1).1.is_numlk_on
        = (cycle_keyboard b env a s2).1.is_numlk_on := congrArg Prod.snd hl
    have e2 : s2.is_numlk_on = s.is_numlk_on := congrArg Prod.snd hs2
    dsimp only
    rw [e1, ← e2, ha]
    exact k2

/-- C20. Lock-key self-tracking, as the code performs it: across two consecutive turns of
the scan loop, both with a transport connected, the second turn flips `is_caplk_on` exactly
when its snapshot has `KEY_CAPSLOCK` in the keycode byte and differs, in any of its eight
bytes, from the snapshot of the first turn; it flips `is_numlk_on` exactly when its
snapshot has `KEY_NUMLOCK`, and not `KEY_CAPSLOCK`, in the keycode byte and differs from
the snapshot of the first turn; otherwise the boolean is left as it was. A change of the
modifier byte alone, with the lock key still held, therefore flips the boolean again. -/
theorem keyboard_task_turn_lock_keys (b : Board) (env1 env2 : CycleEnv) (s0 s1 : KbState)
    (evs1 : List KbEvent)
    (hconn1 : env1.usb_connected = true ∨ env1.ble_connected = true)
    (hconn2 : env2.usb_connected = true ∨ env2.ble_connected = true)
    (hs0 : s0.pm.curr_pm_state ≤ PM_CHARGING)
    (hturn1 : keyboard_task_turn b env1 s0 = some (s1, evs1)) :
    ∃ r, keyboard_task_turn b env2 s1 = some r
      ∧ (r.1.is_caplk_on ≠ s1.is_caplk_on
          ↔ (snapshot b env2).hid ≠ (snapshot b env1).hid
            ∧ (snapshot b env2).hid.getD 2 0 = b.KEY_CAPSLOCK)
      ∧ (r.1.is_numlk_on ≠ s1.is_numlk_on
          ↔ (snapshot b env2).hid ≠ (snapshot b env1).hid
            ∧ (snapshot b env2).hid.getD 2 0 ≠ b.KEY_CAPSLOCK
            ∧ (snapshot b env2).hid.getD 2 0 = b.KEY_NUMLOCK) := by
  obtain ⟨r1, h1, p1, p2, -, -, -⟩ := keyboard_task_turn_spec b env1 s0 hconn1 hs0
  rw [hturn1] at h1
  have hr1 : r1 = (s1, evs1) := (Option.some.inj h1).symm
  subst hr1
  simp only at p1 p2
  obtain ⟨r2, h2, q1, q2⟩ := keyboard_task_turn_lock_step b env2 s1 hconn2 p1
  rw [p2] at q1 q2
  exact ⟨r2, h2, q1, q2⟩

set_option maxRecDepth 100000 in
theorem keyboard_task_turn_lock_keys_witness :
    ∃ s1 evs1,
      keyboard_task_turn board_keys (cycle_env_cells [] 1) (kb_initial 6 6 0)
          = some (s1, evs1)
      ∧ ∃ r, keyboard_task_turn board_keys (cycle_env_cells [(1, 4)] 1) s1 = some r
        ∧ r.1.is_caplk_on ≠ s1.is_caplk_on ∧ ¬ (r.1.is_numlk_on ≠ s1.is_numlk_on) := by
  obtain ⟨r1, h1, -⟩ := keyboard_task_turn_spec board_keys (cycle_env_cells [] 1)
    (kb_initial 6 6 0) (Or.inl rfl) (by decide)
  obtain ⟨r, hr, hc, hn⟩ :=
    keyboard_task_turn_lock_keys board_keys (cycle_env_cells [] 1)
      (cycle_env_cells [(1, 4)] 1) (kb_initial 6 6 0) r1.1 r1.2 (Or.inl rfl) (Or.inl rfl)
      (by decide) h1
  exact ⟨r1.1, r1.2, h1, r, hr, hc.mpr (by decide), fun h => (hn.mp h).2.1 (by decide)⟩

set_option maxRecDepth 100000 in
/-- C20, the failing input: with CapsLock held through two consecutive turns and LeftShift
going down in the second, `KEY_CAPSLOCK` is the keycode of both snapshots, so the key makes
no new transition, and yet the second turn flips `is_caplk_on` again (from true back to
false). -/
theorem keyboard_task_turn_lock_keys_modifier :
    (snapshot board_keys (cycle_env_cells [(1, 4)] 1)).hid.getD 2 0
        = board_keys.KEY_CAPSLOCK
      ∧ (snapshot board_keys (cycle_env_cells [(1, 4), (1, 0)] 1)).hid.getD 2 0
        = board_keys.KEY_CAPSLOCK
      ∧ (keyboard_task_turn board_keys (cycle_env_cells [(1, 4)] 1) (kb_initial 6 6 0)).map
          (fun r => r.1.is_caplk_on) = some true
      ∧ ((keyboard_task_turn board_keys (cycle_env_cells [(1, 4)] 1) (kb_initial 6 6 0)).bind
          (fun r1 => keyboard_task_turn board_keys (cycle_env_cells [(1, 4), (1, 0)] 1)
            r1.1)).map (fun r => r.1.is_caplk_on) = some false := by
  decide

set_option maxRecDepth 1000000 in
theorem ps2_parity_all :
    ∀ b ∈ List.range 256, ((frame_bits b).sum + ps2_write_1_op b) % 2 = 1 := by
  decide

theorem ps2_write_op_eq (ch : Nat) : ps2_write_2_op ch = ps2_write_1_op ch := rfl

theorem data_levels_append (l1 l2 : List Ps2Op) :
    data_levels (l1 ++ l2) = data_levels l1 ++ data_levels l2 := by
  unfold data_levels
  exact List.filterMap_append _ _ _

theorem calls_append (l1 l2 : List Ps2Step) : calls (l1 ++ l2) = calls l1 ++ calls l2 := by
  unfold calls
  exact List.filterMap_append _ _ _

theorem ps2_data_put_level (x : Nat) :
    ps2_data_put (x &&& 1) = Ps2Step.call (Ps2Op.data_level (x % 2)) := by
  unfold ps2_data_put
  rw [Nat.and_one_is_mod]
  have h : x % 2 < 2 := Nat.mod_lt _ (by decide)
  by_cases h0 : x % 2 = 0
  · rw [h0]
    rfl
  · rw [if_pos h0]
    have h1 : x % 2 = 1 := by omega
    rw [h1]

theorem shift_bits (n ch : Nat) :
    (List.range n).map (fun i => ((ch >>> 1) >>> i) % 2)
      = ((List.range n).map Nat.succ).map (fun i => (ch >>> i) % 2) := by
  rw [List.map_map]
  apply List.map_congr_left
  intro i _
  show ((ch >>> 1) >>> i) % 2 = (ch >>> (i + 1)) % 2
  rw [Nat.add_comm, Nat.shiftRight_add]

theorem ps2_write_1_bits_levels :
    ∀ (n ch : Nat), ch < 256 →
      data_levels (calls (ps2_write_1_bits n ch))
        = (List.range n).map (fun i => (ch >>> i) % 2) := by
  intro n
  induction n with
  | zero => intro ch _; rfl
  | succ n ih =>
    intro ch hch
    have hlt : ch >>> 1 < 256 := by
      rw [Nat.shiftRight_eq_div_pow]
      exact lt_of_le_of_lt (Nat.div_le_self _ _) hch
    have hstep : data_levels (calls (ps2_write_1_bits (n + 1) ch))
        = (ch % 2) :: data_levels (calls (ps2_write_1_bits n ((ch >>> 1) % 256))) := by
      have hdef : ps2_write_1_bits (n + 1) ch
          = [Ps2Step.while_clk 0, ps2_data_put (ch &&& 1), Ps2Step.while_clk 1]
              ++ ps2_write_1_bits n ((ch >>> 1) % 256) := rfl
      rw [hdef, ps2_data_put_level, calls_append, data_levels_append]
      rfl
    rw [hstep, Nat.mod_eq_of_lt hlt, ih _ hlt, List.range_succ_eq_map, List.map_cons,
      shift_bits]
    rfl

theorem ps2_write_2_bits_levels :
    ∀ (n ch : Nat), ch < 256 →
      data_levels (calls (ps2_write_2_bits n ch))
        = (List.range n).map (fun i => (ch >>> i) % 2) := by
  intro n
  induction n with
  | zero => intro ch _; rfl
  | succ n ih =>
    intro ch hch
    have hlt : ch >>> 1 < 256 := by
      rw [Nat.shiftRight_eq_div_pow]
      exact lt_of_le_of_lt (Nat.div_le_self _ _) hch
    have hstep : data_levels (calls (ps2_write_2_bits (n + 1) ch))
        = (ch % 2) :: data_levels (calls (ps2_write_2_bits n ((ch >>> 1) % 256))) := by
      have hdef : ps2_write_2_bits (n + 1) ch
          = [Ps2Step.call (Ps2Op.usleep 20), ps2_data_put (ch &&& 1), Ps2Step.while_clk 0,
             Ps2Step.while_clk 1]
              ++ ps2_write_2_bits n ((ch >>> 1) % 256) := rfl
      rw [hdef, ps2_data_put_level, calls_append, data_levels_append]
      rfl
    rw [hstep, Nat.mod_eq_of_lt hlt, ih _ hlt, List.range_succ_eq_map, List.map_cons,
      shift_bits]
    rfl

theorem ps2_op_bit (ch : Nat) : ps2_write_1_op ch < 2 := by
  unfold ps2_write_1_op
  dsimp only
  rw [Nat.and_one_is_mod]
  exact Nat.mod_lt _ (by decide)

theorem ps2_data_put_bit (x : Nat) (h : x < 2) :
    ps2_data_put x = Ps2Step.call (Ps2Op.data_level x) := by
  unfold ps2_data_put
  by_cases h0 : x = 0
  · rw [h0]
    rfl
  · rw [if_pos h0]
    have h1 : x = 1 := by omega
    rw [h1]

theorem ps2_write_1_levels (b : Nat) (hb : b < 256) :
    data_levels (calls (ps2_write_1_steps b))
      = 0 :: (frame_bits b ++ [ps2_write_1_op b, 1]) := by
  unfold ps2_write_1_steps
  rw [ps2_data_put_bit _ (ps2_op_bit b), Nat.mod_eq_of_lt hb]
  simp only [calls_append, data_levels_append, ps2_write_1_bits_levels 8 b hb]
  rfl

theorem ps2_write_2_levels (b : Nat) (hb : b < 256) :
    data_levels (calls (ps2_write_2_steps b))
      = 0 :: (frame_bits b ++ [ps2_write_2_op b]) := by
  have h2 : ps2_write_2_op b < 2 := ps2_op_bit b
  unfold ps2_write_2_steps
  rw [ps2_data_put_bit (ps2_write_2_op b) h2, Nat.mod_eq_of_lt hb]
  simp only [calls_append, data_levels_append, ps2_write_2_bits_levels 8 b hb]
  rfl

theorem run_steps_prefix (env : Ps2Env) :
    ∀ (steps : List Ps2Step) (k : Nat × Nat),
      (run_steps env steps k).1 <+: calls steps
        ∧ ((run_steps env steps k).2 ≠ none → (run_steps env steps k).1 = calls steps) := by
  intro steps
  induction steps with
  | nil =>
    intro k
    exact ⟨List.prefix_refl _, fun _ => rfl⟩
  | cons st more ih =>
    intro k
    cases st with
    | call op =>
      obtain ⟨h1, h2⟩ := ih k
      have hrun : run_steps env (Ps2Step.call op :: more) k
          = (op :: (run_steps env more k).1, (run_steps env more k).2) := rfl
      have hcalls : calls (Ps2Step.call op :: more) = op :: calls more := rfl
      rw [hrun, hcalls]
      refine ⟨?_, ?_⟩
      · exact (List.prefix_cons_inj op).mpr h1
      · intro hne
        exact congrArg (List.cons op) (h2 hne)
    | while_clk v =>
      have hcalls : calls (Ps2Step.while_clk v :: more) = calls more := rfl
      have hrun : run_steps env (Ps2Step.while_clk v :: more) k
          = (match spin_wait env.clk v env.spin k.1 with
            | none => ([], none)
            | some k1 => run_steps env more (k1, k.2)) := rfl
      rw [hrun, hcalls]
      cases spin_wait env.clk v env.spin k.1 with
      | none => exact ⟨List.nil_prefix, fun h => absurd rfl h⟩
      | some k1 => exact ih (k1, k.2)
    | while_data v =>
      have hcalls : calls (Ps2Step.while_data v :: more) = calls more := rfl
      have hrun : run_steps env (Ps2Step.while_data v :: more) k
          = (match spin_wait env.data v env.spin k.2 with
            | none => ([], none)
            | some k2 => run_steps env more (k.1, k2)) := rfl
      rw [hrun, hcalls]
      cases spin_wait env.data v env.spin k.2 with
      | none => exact ⟨List.nil_prefix, fun h => absurd rfl h⟩
      | some k2 => exact ih (k.1, k2)

theorem spin_wait_some (line : Nat → Nat) (v : Nat) :
    ∀ (fuel k j : Nat), j < fuel → line (k + j) ≠ v →
      ∃ k1, spin_wait line v fuel k = some k1 := by
  intro fuel
  induction fuel with
  | zero => intro k j hj _; exact absurd hj (Nat.not_lt_zero _)
  | succ fuel ih =>
    intro k j hj hline
    unfold spin_wait
    by_cases hk : line k = v
    · rw [if_pos hk]
      cases j with
      | zero => exact absurd hk hline
      | succ j =>
        apply ih (k + 1) j (Nat.lt_of_succ_lt_succ hj)
        have hidx : k + 1 + j = k + (j + 1) := by omega
        rw [hidx]
        exact hline
    · rw [if_neg hk]
      exact ⟨_, rfl⟩

theorem run_steps_returns (env : Ps2Env)
    (hc0 : leaves env.clk 0 env.spin) (hc1 : leaves env.clk 1 env.spin)
    (hd1 : leaves env.data 1 env.spin) :
    ∀ (steps : List Ps2Step), steps.all waits_answered = true →
      ∀ k, (run_steps env steps k).2 ≠ none := by
  intro steps
  induction steps with
  | nil =>
    intro _ k
    exact Option.some_ne_none k
  | cons st more ih =>
    intro hall k
    rw [List.all_cons, Bool.and_eq_true] at hall
    obtain ⟨hst, hmore⟩ := hall
    cases st with
    | call op => exact ih hmore k
    | while_clk v =>
      have hv : v = 0 ∨ v = 1 := by simpa [waits_answered] using hst
      have hleave : leaves env.clk v env.spin := by
        rcases hv with h | h <;> rw [h] <;> assumption
      obtain ⟨j, hj, hline⟩ := hleave k.1
      obtain ⟨k1, hk1⟩ := spin_wait_some env.clk v env.spin k.1 j hj hline
      have hdef : run_steps env (Ps2Step.while_clk v :: more) k
          = (match spin_wait env.clk v env.spin k.1 with
            | none => ([], none)
            | some k1 => run_steps env more (k1, k.2)) := rfl
      have hrun : run_steps env (Ps2Step.while_clk v :: more) k
          = run_steps env more (k1, k.2) := by
        rw [hdef, hk1]
      rw [hrun]
      exact ih hmore _
    | while_data v =>
      have hv : v = 1 := by simpa [waits_answered] using hst
      obtain ⟨j, hj, hline⟩ := hd1 k.2
      rw [← hv] at hline
      obtain ⟨k2, hk2⟩ := spin_wait_some env.data v env.spin k.2 j hj hline
      have hdef : run_steps env (Ps2Step.while_data v :: more) k
          = (match spin_wait env.data v env.spin k.2 with
            | none => ([], none)
            | some k2 => run_steps env more (k.1, k2)) := rfl
      have hrun : run_steps env (Ps2Step.while_data v :: more) k
          = run_steps env more (k.1, k2) := by
        rw [hdef, hk2]
      rw [hrun]
      exact ih hmore _

theorem ps2_write_1_bits_waits : ∀ (n ch : Nat),
    (ps2_write_1_bits n ch).all waits_answered = true := by
  intro n
  induction n with
  | zero => intro ch; rfl
  | succ n ih =>
    intro ch
    have hdef : ps2_write_1_bits (n + 1) ch
        = [Ps2Step.while_clk 0, ps2_data_put (ch &&& 1), Ps2Step.while_clk 1]
            ++ ps2_write_1_bits n ((ch >>> 1) % 256) := rfl
    rw [hdef, List.all_append, ih]
    rfl

theorem ps2_write_2_bits_waits : ∀ (n ch : Nat),
    (ps2_write_2_bits n ch).all waits_answered = true := by
  intro n
  induction n with
  | zero => intro ch; rfl
  | succ n ih =>
    intro ch
    have hdef : ps2_write_2_bits (n + 1) ch
        = [Ps2Step.call (Ps2Op.usleep 20), ps2_data_put (ch &&& 1), Ps2Step.while_clk 0,
           Ps2Step.while_clk 1]
            ++ ps2_write_2_bits n ((ch >>> 1) % 256) := rfl
    rw [hdef, List.all_append, ih]
    rfl

theorem ps2_write_steps_waits (ch : Nat) :
    (ps2_write_1_steps ch).all waits_answered = true
      ∧ (ps2_write_2_steps ch).all waits_answered = true := by
  unfold ps2_write_1_steps ps2_write_2_steps
  simp only [List.all_append, ps2_write_1_bits_waits, ps2_write_2_bits_waits]
  exact ⟨rfl, rfl⟩

theorem data_levels_prefix (l1 l2 : List Ps2Op) (h : l1 <+: l2) :
    data_levels l1 <+: data_levels l2 := by
  unfold data_levels
  exact List.IsPrefix.filterMap _ h

theorem ps2_env_ticking_leaves :
    leaves ps2_env_ticking.clk 0 ps2_env_ticking.spin
      ∧ leaves ps2_env_ticking.clk 1 ps2_env_ticking.spin
      ∧ leaves ps2_env_ticking.data 1 ps2_env_ticking.spin := by
  refine ⟨?_, ?_, ?_⟩
  · intro k
    by_cases h : k % 2 = 0
    · exact ⟨1, by decide, by show (k + 1) % 2 ≠ 0; omega⟩
    · exact ⟨0, by decide, by show (k + 0) % 2 ≠ 0; omega⟩
  · intro k
    by_cases h : k % 2 = 0
    · exact ⟨0, by decide, by show (k + 0) % 2 ≠ 1; omega⟩
    · exact ⟨1, by decide, by show (k + 1) % 2 ≠ 1; omega⟩
  · intro k
    exact ⟨0, by decide, by show (0 : Nat) ≠ 1; decide⟩

/-- C17. Bit-level write frame: for every byte `b`, the levels that `ps2_write_1` and
`ps2_write_2` drive onto the data line are, in order, the 0 of the request-to-send, the
bits `b0 .. b7` of `b` (least significant first) and the parity bit `op`; `ps2_write_1`
then drives one 1 before it releases the line. A call that hangs in one of its loops has
driven an initial part of that frame; a call that returns has driven all of it, and a call
returns whenever the device leaves each awaited level within the loop bound. The number of
1 bits among `b0 .. b7` and `op` is odd, and both functions compute the same `op`. -/
theorem ps2_write_frame (b : Nat) (hb : b < 256) :
    (∀ (env : Ps2Env) (k : Nat × Nat),
        data_levels (ps2_write_1 env b k).1
            <+: 0 :: (frame_bits b ++ [ps2_write_1_op b, 1])
        ∧ data_levels (ps2_write_2 env b k).1 <+: 0 :: (frame_bits b ++ [ps2_write_2_op b])
        ∧ ((ps2_write_1 env b k).2 ≠ none →
            data_levels (ps2_write_1 env b k).1
              = 0 :: (frame_bits b ++ [ps2_write_1_op b, 1]))
        ∧ ((ps2_write_2 env b k).2 ≠ none →
            data_levels (ps2_write_2 env b k).1 = 0 :: (frame_bits b ++ [ps2_write_2_op b]))
        ∧ (leaves env.clk 0 env.spin → leaves env.clk 1 env.spin →
            leaves env.data 1 env.spin →
            (ps2_write_1 env b k).2 ≠ none ∧ (ps2_write_2 env b k).2 ≠ none))
      ∧ ((frame_bits b).sum + ps2_write_1_op b) % 2 = 1
      ∧ ps2_write_2_op b = ps2_write_1_op b := by
  refine ⟨?_, ps2_parity_all b (List.mem_range.mpr hb), ps2_write_op_eq b⟩
  intro env k
  obtain ⟨p1, r1⟩ := run_steps_prefix env (ps2_write_1_steps b) k
  obtain ⟨p2, r2⟩ := run_steps_prefix env (ps2_write_2_steps b) k
  have l1 := ps2_write_1_levels b hb
  have l2 := ps2_write_2_levels b hb
  refine ⟨?_, ?_, ?_, ?_, ?_⟩
  · rw [← l1]
    exact data_levels_prefix _ _ p1
  · rw [← l2]
    exact data_levels_prefix _ _ p2
  · intro hret
    rw [← l1]
    exact congrArg data_levels (r1 hret)
  · intro hret
    rw [← l2]
    exact congrArg data_levels (r2 hret)
  · intro hc0 hc1 hd1
    exact ⟨run_steps_returns env hc0 hc1 hd1 _ (ps2_write_steps_waits b).1 k,
      run_steps_returns env hc0 hc1 hd1 _ (ps2_write_steps_waits b).2 k⟩

theorem ps2_write_frame_witness :
    data_levels (ps2_write_1 ps2_env_ticking 0xf4 (0, 0)).1
        = [0, 0, 0, 1, 0, 1, 1, 1, 1, 0, 1]
      ∧ data_levels (ps2_write_2 ps2_env_ticking 0xf4 (0, 0)).1
        = [0, 0, 0, 1, 0, 1, 1, 1, 1, 0] :=
  ⟨(((ps2_write_frame 0xf4 (by decide)).1 ps2_env_ticking (0, 0)).2.2.1
      ((((ps2_write_frame 0xf4 (by decide)).1 ps2_env_ticking (0, 0)).2.2.2.2
        ps2_env_ticking_leaves.1 ps2_env_ticking_leaves.2.1
        ps2_env_ticking_leaves.2.2).1)).trans (by decide),
    (((ps2_write_frame 0xf4 (by decide)).1 ps2_env_ticking (0, 0)).2.2.2.1
      ((((ps2_write_frame 0xf4 (by decide)).1 ps2_env_ticking (0, 0)).2.2.2.2
        ps2_env_ticking_leaves.1 ps2_env_ticking_leaves.2.1
        ps2_env_ticking_leaves.2.2).2)).trans (by decide)⟩

theorem diff_time_self (t : Nat) : diff_time (t % UINT_MOD) (t % UINT_MOD) = 0 := by
  unfold diff_time
  rw [Nat.mod_mod, Nat.add_sub_cancel_left]
  exact Nat.mod_self _

theorem adjusted_request_cases (env : FlushEnv) (s : PmState) (R : Nat) (hR : R ≤ 4) :
    (adjusted_request env s R).1 ≤ 4 ∨ (adjusted_request env s R).1 < s.curr_pm_state := by
  unfold adjusted_request
  split_ifs with h1 h2
  · exact Or.inl (by show PM_CHARGING ≤ 4; decide)
  · exact Or.inr (by show s.curr_pm_state - 1 < s.curr_pm_state; omega)
  · exact Or.inl hR

theorem adjusted_request_same (env : FlushEnv) (s : PmState) (R : Nat)
    (h : (adjusted_request env s R).1 = s.curr_pm_state) :
    (adjusted_request env s R).2 = env.timer % UINT_MOD := by
  unfold adjusted_request at h ⊢
  split_ifs at h ⊢ with h1 h2
  · rfl
  · exfalso
    have : s.curr_pm_state - 1 = s.curr_pm_state := h
    omega
  · rfl

theorem flush_power_state_same_level (env : FlushEnv) (s : PmState) (R : Nat)
    (r : PmState × List PmEvent) (hs : s.curr_pm_state ≤ 4)
    (h : flush_power_state env s R = some r)
    (hsame : r.1.curr_pm_state = s.curr_pm_state) :
    r.2 = [] ∧ r.1.min_int = s.min_int ∧ r.1.max_int = s.max_int
      ∧ r.1.light_sleep_enable = s.light_sleep_enable
      ∧ (env.lock_taken = false → r.1 = s)
      ∧ (env.lock_taken = true →
          r.1.last_pm_timestamp = (adjusted_request env s R).2
            ∧ r.1.is_pm_increase_rapid
                = rapid_flag env s.curr_pm_state (adjusted_request env s R).1) := by
  cases hlock : env.lock_taken with
  | false =>
    rw [flush_power_state_unlocked env s R hlock] at h
    have hr := (Option.some.inj h).symm
    subst hr
    exact ⟨rfl, rfl, rfl, rfl, fun _ => rfl, fun h => absurd h (by decide)⟩
  | true =>
    rw [flush_power_state_locked env s R hlock] at h
    have hnot : ∀ u, update_ble_and_pm env
          { s with last_pm_timestamp := (adjusted_request env s R).2,
                   is_pm_increase_rapid
                     := rapid_flag env s.curr_pm_state (adjusted_request env s R).1 }
          (adjusted_request env s R).1 = some u →
        r = ({ u.1 with curr_pm_state := (adjusted_request env s R).1,
                        last_pm_timestamp := env.timer % UINT_MOD }, u.2) →
        (adjusted_request env s R).1 = s.curr_pm_state := by
      intro u _ hr
      rw [hr] at hsame
      exact hsame
    obtain ⟨c, hc⟩ := pm_cfg_lookup s.curr_pm_state hs
    unfold flush_core at h
    by_cases hlt : s.curr_pm_state < (adjusted_request env s R).1
    · exfalso
      rw [if_pos hlt] at h
      cases hu : update_ble_and_pm env
          { s with last_pm_timestamp := (adjusted_request env s R).2,
                   is_pm_increase_rapid
                     := rapid_flag env s.curr_pm_state (adjusted_request env s R).1 }
          (adjusted_request env s R).1 with
      | none =>
        rw [hu] at h
        exact absurd h (by simp)
      | some u =>
        rw [hu] at h
        have := hnot u hu (Option.some.inj h).symm
        omega
    · rw [if_neg hlt, hc] at h
      dsimp only at h
      by_cases hd : c.duration_us
          < diff_time (env.timer % UINT_MOD) (adjusted_request env s R).2
      · exfalso
        rw [if_pos hd] at h
        cases hu : update_ble_and_pm env
            { s with last_pm_timestamp := (adjusted_request env s R).2,
                     is_pm_increase_rapid
                       := rapid_flag env s.curr_pm_state (adjusted_request env s R).1 }
            (adjusted_request env s R).1 with
        | none =>
          rw [hu] at h
          exact absurd h (by simp)
        | some u =>
          rw [hu] at h
          have hn := hnot u hu (Option.some.inj h).symm
          rw [adjusted_request_same env s R hn, diff_time_self] at hd
          exact absurd hd (Nat.not_lt_zero _)
      · rw [if_neg hd] at h
        have hr := (Option.some.inj h).symm
        subst hr
        exact ⟨rfl, rfl, rfl, rfl, fun h => absurd h (by decide), fun _ => ⟨rfl, rfl⟩⟩

theorem adjusted_request_bounds (env : FlushEnv) (s : PmState) (R : Nat)
    (hs : s.curr_pm_state ≤ 4) (hR : R ≤ 4) :
    (adjusted_request env s R).1 ≤ 4
      ∧ s.curr_pm_state ≤ (adjusted_request env s R).1 + 1 := by
  unfold adjusted_request
  split_ifs with h1 h2
  · exact ⟨by show PM_CHARGING ≤ 4; decide, by show s.curr_pm_state ≤ 4 + 1; omega⟩
  · exact ⟨by show s.curr_pm_state - 1 ≤ 4; omega,
      by show s.curr_pm_state ≤ s.curr_pm_state - 1 + 1; omega⟩
  · exact ⟨hR, by show s.curr_pm_state ≤ R + 1; omega⟩

theorem flush_power_state_changed (env : FlushEnv) (s : PmState) (R : Nat)
    (r : PmState × List PmEvent) (hs : s.curr_pm_state ≤ 4) (hR : R ≤ 4)
    (h : flush_power_state env s R = some r)
    (hne : r.1.curr_pm_state ≠ s.curr_pm_state) :
    env.lock_taken = true
      ∧ r.1.curr_pm_state = (adjusted_request env s R).1
      ∧ r.1.last_pm_timestamp = env.timer % UINT_MOD
      ∧ r.1.is_pm_increase_rapid = rapid_flag env s.curr_pm_state r.1.curr_pm_state
      ∧ ∃ c, pm_cfg[r.1.curr_pm_state]? = some c
          ∧ r.1.light_sleep_enable = c.is_sleep
          ∧ (push_due env s c →
              gap_requests r.2
                  = [PmEvent.gap_update_conn_params c.ble_int_cnt c.ble_int_cnt]
                ∧ (env.gap_ok = true →
                    r.1.min_int = c.ble_int_cnt ∧ r.1.max_int = c.ble_int_cnt)
                ∧ (env.gap_ok = false → r.1.min_int = s.min_int ∧ r.1.max_int = s.min_int))
          ∧ (¬ push_due env s c →
              gap_requests r.2 = [] ∧ r.1.min_int = s.min_int ∧ r.1.max_int = s.max_int) := by
  cases hlock : env.lock_taken with
  | false =>
    rw [flush_power_state_unlocked env s R hlock] at h
    rw [← Option.some.inj h] at hne
    exact absurd rfl hne
  | true =>
    rw [flush_power_state_locked env s R hlock] at h
    obtain ⟨hn, u, hu, hr⟩ := flush_core_applied env s _ _ r h hne
    obtain ⟨hb, -⟩ := adjusted_request_bounds env s R hs hR
    obtain ⟨c, hc⟩ := pm_cfg_lookup _ hb
    obtain ⟨u2, hu2, -, -, e3, e4, e5, e6⟩ := update_ble_and_pm_spec env
      { s with last_pm_timestamp := (adjusted_request env s R).2,
               is_pm_increase_rapid
                 := rapid_flag env s.curr_pm_state (adjusted_request env s R).1 }
      _ c hc
    rw [hu] at hu2
    have huu : u2 = u := (Option.some.inj hu2).symm
    subst huu
    rw [hn]
    refine ⟨rfl, rfl, ?_, ?_, c, hc, ?_, ?_, ?_⟩
    · rw [hr]
    · rw [hr]
      exact e3
    · rw [hr]
      exact e4
    · intro hp
      rw [hr]
      exact e5 hp
    · intro hp
      rw [hr]
      exact e6 hp

theorem flush_power_state_lower (env : FlushEnv) (s : PmState) (R : Nat)
    (c : kb_pm_state_t)
    (hlock : env.lock_taken = true) (hch : env.charging = 0)
    (hdown : R < s.curr_pm_state) (hL : s.curr_pm_state ≤ 4)
    (hc : pm_cfg[s.curr_pm_state]? = some c) :
    ∃ r, flush_power_state env s R = some r
      ∧ (r.1.curr_pm_state ≠ s.curr_pm_state
          ↔ c.duration_us < diff_time (env.timer % UINT_MOD) s.last_pm_timestamp)
      ∧ (r.1.curr_pm_state ≠ s.curr_pm_state → r.1.curr_pm_state = s.curr_pm_state - 1) := by
  obtain ⟨r, hr, -⟩ := flush_power_state_some env s R hL (by omega)
  have hadj : adjusted_request env s R = (s.curr_pm_state - 1, s.last_pm_timestamp) := by
    unfold adjusted_request
    rw [if_neg (fun h => h hch), if_pos hdown]
  refine ⟨r, hr, ?_, ?_⟩
  · constructor
    · intro hne
      by_contra hd
      rw [flush_power_state_locked env s R hlock, hadj] at hr
      unfold flush_core at hr
      have hnlt : ¬ s.curr_pm_state < s.curr_pm_state - 1 := by omega
      rw [if_neg hnlt, hc] at hr
      dsimp only at hr
      rw [if_neg hd] at hr
      rw [← Option.some.inj hr] at hne
      exact hne rfl
    · intro hd hsame
      obtain ⟨-, -, -, -, -, hl⟩ := flush_power_state_same_level env s R r hL hr hsame
      obtain ⟨hl1, -⟩ := hl hlock
      rw [flush_power_state_locked env s R hlock, hadj] at hr
      unfold flush_core at hr
      have hnlt : ¬ s.curr_pm_state < s.curr_pm_state - 1 := by omega
      rw [if_neg hnlt, hc] at hr
      dsimp only at hr
      rw [if_pos hd] at hr
      cases hu : update_ble_and_pm env
          { s with last_pm_timestamp := s.last_pm_timestamp,
                   is_pm_increase_rapid
                     := rapid_flag env s.curr_pm_state (s.curr_pm_state - 1) }
          (s.curr_pm_state - 1) with
      | none =>
        rw [hu] at hr
        exact absurd hr (by simp)
      | some u =>
        rw [hu] at hr
        rw [← Option.some.inj hr] at hsame
        have : s.curr_pm_state - 1 = s.curr_pm_state := hsame
        omega
  · intro hne
    obtain ⟨-, h2, -⟩ := flush_power_state_changed env s R r hL (by omega) hr hne
    rw [h2, hadj]

theorem rapid_flag_same (env : FlushEnv) (L : Nat) : rapid_flag env L L = false := by
  unfold rapid_flag PM_IDLE_SHORT_TIME PM_KB_TP_ACTIVE PM_IDLE_LONG_TIME PM_KB_ACTIVE
  by_cases h1 : L = 1
  · subst h1
    simp
  · by_cases h0 : L = 0
    · subst h0
      simp
    · simp [h1, h0]

theorem flush_power_state_same (env : FlushEnv) (s : PmState)
    (hs : s.curr_pm_state ≤ 4) (hlock : env.lock_taken = true) (hch : env.charging = 0) :
    flush_power_state env s s.curr_pm_state
      = some ({ s with last_pm_timestamp := env.timer % UINT_MOD,
                       is_pm_increase_rapid := false }, []) := by
  obtain ⟨r, hr, -⟩ := flush_power_state_some env s s.curr_pm_state hs hs
  have hadj : adjusted_request env s s.curr_pm_state
      = (s.curr_pm_state, env.timer % UINT_MOD) := by
    unfold adjusted_request
    rw [if_neg (fun h => h hch), if_neg (Nat.lt_irrefl _)]
  have hsame : r.1.curr_pm_state = s.curr_pm_state := by
    by_contra hne
    obtain ⟨-, h2, -⟩ := flush_power_state_changed env s _ r hs hs hr hne
    rw [hadj] at h2
    exact hne h2
  obtain ⟨e1, e2, e3, e4, -, e6⟩ := flush_power_state_same_level env s _ r hs hr hsame
  obtain ⟨e7, e8⟩ := e6 hlock
  rw [hadj] at e7 e8
  rw [rapid_flag_same] at e8
  rw [hr]
  obtain ⟨⟨a1, a2, a3, a4, a5, a6⟩, evs⟩ := r
  simp only at hsame e1 e2 e3 e4 e7 e8
  subst hsame e1 e2 e3 e4 e7 e8
  rfl

theorem flush_power_state_step (env : FlushEnv) (s : PmState) (R : Nat)
    (hs : s.curr_pm_state ≤ 4) (hR : R ≤ 4) :
    ∃ r, flush_power_state env s R = some r
      ∧ r.1.curr_pm_state ≤ 4
      ∧ s.curr_pm_state ≤ r.1.curr_pm_state + 1
      ∧ (sleep_tracks s → sleep_tracks r.1) := by
  obtain ⟨r, hr, h4⟩ := flush_power_state_some env s R hs hR
  refine ⟨r, hr, h4, ?_, ?_⟩
  · by_cases hsame : r.1.curr_pm_state = s.curr_pm_state
    · omega
    · obtain ⟨-, h2, -⟩ := flush_power_state_changed env s R r hs hR hr hsame
      rw [h2]
      exact (adjusted_request_bounds env s R hs hR).2
  · intro ht
    by_cases hsame : r.1.curr_pm_state = s.curr_pm_state
    · obtain ⟨-, -, -, e4, -⟩ := flush_power_state_same_level env s R r hs hr hsame
      unfold sleep_tracks at ht ⊢
      rw [hsame, e4]
      exact ht
    · obtain ⟨-, -, -, -, c, hc, hsl, -⟩ :=
        flush_power_state_changed env s R r hs hR hr hsame
      unfold sleep_tracks
      rw [hc, hsl]
      rfl

theorem init_pm_sleep_tracks (charging timer : Nat) (s : PmState) :
    sleep_tracks (init_pm charging timer s).1
      ∧ (init_pm charging timer s).1.curr_pm_state ≤ 4 := by
  unfold init_pm
  split_ifs
  · exact ⟨rfl, by show PM_IDLE_LONG_TIME ≤ 4; decide⟩
  · exact ⟨rfl, by show PM_CHARGING ≤ 4; decide⟩

theorem flush_calls_step (calls : List (FlushEnv × Nat)) :
    ∀ (s : PmState), (∀ q ∈ calls, q.2 ≤ 4) → s.curr_pm_state ≤ 4 → sleep_tracks s →
      ∃ t, flush_calls calls s = some t ∧ t.curr_pm_state ≤ 4 ∧ sleep_tracks t := by
  induction calls with
  | nil =>
    intro s _ hs ht
    exact ⟨s, rfl, hs, ht⟩
  | cons q more ih =>
    intro s hreq hs ht
    obtain ⟨r, hr, h4, -, hkeep⟩ :=
      flush_power_state_step q.1 s q.2 hs (hreq q (List.mem_cons_self _ _))
    obtain ⟨t, hrun, ht4, htt⟩ :=
      ih r.1 (fun p hp => hreq p (List.mem_cons_of_mem _ hp)) h4 (hkeep ht)
    refine ⟨t, ?_, ht4, htt⟩
    have hdef : flush_calls (q :: more) s
        = (match flush_power_state q.1 s q.2 with
          | none => none
          | some r => flush_calls more r.1) := rfl
    rw [hdef, hr]
    exact hrun

/-- C28. A same-level request restarts the dwell timer: a `flush_power_state(L)` call at
level `L` that takes the lock with the charging signal low makes no call into the radio
layer or the sleep driver and changes nothing but two globals: `is_pm_increase_rapid`
becomes false and `last_pm_timestamp` becomes the current time. A later request below `L`
(lock taken, charging signal low) then changes the level exactly when the time elapsed
since this call exceeds the dwell duration of `L`. -/
theorem flush_power_state_restarts_dwell (env : FlushEnv) (s : PmState)
    (hs : s.curr_pm_state ≤ PM_CHARGING) (hlock : env.lock_taken = true)
    (hch : env.charging = 0) :
    flush_power_state env s s.curr_pm_state
        = some ({ s with last_pm_timestamp := env.timer % UINT_MOD,
                         is_pm_increase_rapid := false }, [])
      ∧ ∀ (env2 : FlushEnv) (R2 : Nat) (c : kb_pm_state_t),
          env2.lock_taken = true → env2.charging = 0 → R2 < s.curr_pm_state →
          pm_cfg[s.curr_pm_state]? = some c →
          ∃ r2, flush_power_state env2
                { s with last_pm_timestamp := env.timer % UINT_MOD,
                         is_pm_increase_rapid := false } R2 = some r2
            ∧ (r2.1.curr_pm_state ≠ s.curr_pm_state
                ↔ c.duration_us < diff_time (env2.timer % UINT_MOD) (env.timer % UINT_MOD))
            ∧ (r2.1.curr_pm_state ≠ s.curr_pm_state →
                r2.1.curr_pm_state = s.curr_pm_state - 1) := by
  refine ⟨flush_power_state_same env s hs hlock hch, ?_⟩
  intro env2 R2 c hlock2 hch2 hdown hc
  exact flush_power_state_lower env2
    { s with last_pm_timestamp := env.timer % UINT_MOD, is_pm_increase_rapid := false }
    R2 c hlock2 hch2 hdown hs hc

theorem flush_power_state_restarts_dwell_witness :
    flush_power_state flush_env_again
        { curr_pm_state := PM_KB_TP_ACTIVE, last_pm_timestamp := 5, is_pm_increase_rapid := true,
          min_int := 16, max_int := 16, light_sleep_enable := false } PM_KB_TP_ACTIVE
      = some ({ curr_pm_state := PM_KB_TP_ACTIVE, last_pm_timestamp := 6000000,
                is_pm_increase_rapid := false, min_int := 16, max_int := 16,
                light_sleep_enable := false }, []) :=
  (flush_power_state_restarts_dwell flush_env_again
    { curr_pm_state := PM_KB_TP_ACTIVE, last_pm_timestamp := 5, is_pm_increase_rapid := true,
      min_int := 16, max_int := 16, light_sleep_enable := false }
    (by decide) rfl rfl).1

/-- C29. Power level stays in range: from a state at one of the five defined levels, every
`flush_power_state` call with a request among the five (any charging signal, timestamps,
lock outcome and radio answer) indexes `pm_cfg` in bounds and returns, and the level after
it is again one of the five and at most one below the level before; so the table lookup of
`get_kb_scan_interval_us` is in bounds too. -/
theorem flush_power_state_in_range (env : FlushEnv) (s : PmState) (R : Nat)
    (hs : s.curr_pm_state ≤ PM_CHARGING) (hR : R ≤ PM_CHARGING) :
    ∃ r, flush_power_state env s R = some r
      ∧ r.1.curr_pm_state ≤ PM_CHARGING
      ∧ s.curr_pm_state ≤ r.1.curr_pm_state + 1
      ∧ r.1.curr_pm_state < nr_pm_states
      ∧ ∃ us, get_kb_scan_interval_us r.1 = some us := by
  obtain ⟨r, hr, h4, h1, -⟩ := flush_power_state_step env s R hs hR
  obtain ⟨c, hc⟩ := pm_cfg_lookup r.1.curr_pm_state h4
  refine ⟨r, hr, h4, h1, ?_, ?_⟩
  · show r.1.curr_pm_state < 5
    omega
  · unfold get_kb_scan_interval_us
    rw [hc]
    exact ⟨_, rfl⟩

theorem flush_power_state_in_range_witness :
    ∃ r, flush_power_state flush_env_again
        { curr_pm_state := PM_CHARGING, last_pm_timestamp := 5, is_pm_increase_rapid := false,
          min_int := 10, max_int := 10, light_sleep_enable := false } PM_IDLE_LONG_TIME
        = some r
      ∧ r.1.curr_pm_state ≤ PM_CHARGING
      ∧ PM_CHARGING ≤ r.1.curr_pm_state + 1
      ∧ r.1.curr_pm_state < nr_pm_states
      ∧ ∃ us, get_kb_scan_interval_us r.1 = some us :=
  flush_power_state_in_range flush_env_again
    { curr_pm_state := PM_CHARGING, last_pm_timestamp := 5, is_pm_increase_rapid := false,
      min_int := 10, max_int := 10, light_sleep_enable := false } PM_IDLE_LONG_TIME
    (by decide) (by decide)

/-- C30. Sleep flag tracks the level: after `init_pm` and any sequence of
`flush_power_state` calls with requests among the five levels (whatever the charging
signal, timestamps, lock outcomes and radio answers), every call returns and
`light_sleep_enable` equals the `is_sleep` setting of the current level; so it is false
whenever the level is `PM_KB_TP_ACTIVE` or `PM_CHARGING`. -/
theorem flush_calls_sleep_tracks (charging timer : Nat) (s0 : PmState)
    (calls : List (FlushEnv × Nat)) (hreq : ∀ q ∈ calls, q.2 ≤ PM_CHARGING) :
    ∃ s, flush_calls calls (init_pm charging timer s0).1 = some s
      ∧ s.curr_pm_state ≤ PM_CHARGING
      ∧ sleep_tracks s
      ∧ (s.curr_pm_state = PM_KB_TP_ACTIVE ∨ s.curr_pm_state = PM_CHARGING →
          s.light_sleep_enable = false) := by
  obtain ⟨i1, i2⟩ := init_pm_sleep_tracks charging timer s0
  obtain ⟨s, hrun, h4, ht⟩ := flush_calls_step calls _ hreq i2 i1
  refine ⟨s, hrun, h4, ht, ?_⟩
  intro hlevel
  unfold sleep_tracks at ht
  rcases hlevel with h | h
  · rw [h] at ht
    exact (Option.some.inj ht).symm
  · rw [h] at ht
    exact (Option.some.inj ht).symm

theorem flush_calls_sleep_tracks_witness :
    ∃ s, flush_calls [(flush_env_rejected, PM_KB_TP_ACTIVE), (flush_env_again, PM_KB_ACTIVE)]
          (init_pm 0 1000 (pm_initial 16 16)).1 = some s
      ∧ s.curr_pm_state ≤ PM_CHARGING
      ∧ sleep_tracks s
      ∧ (s.curr_pm_state = PM_KB_TP_ACTIVE ∨ s.curr_pm_state = PM_CHARGING →
          s.light_sleep_enable = false) :=
  flush_calls_sleep_tracks 0 1000 (pm_initial 16 16)
    [(flush_env_rejected, PM_KB_TP_ACTIVE), (flush_env_again, PM_KB_ACTIVE)] (by decide)

/-- C24 (as amended). Retry of a rejected radio push: after a `flush_power_state` call whose
push was rejected, `min_int` is still the value latched before it, and the next call
returns; if that call leaves the level where it was it makes no call at all into the radio
layer, and if it changes the level to `n` it requests the push (of the interval count of
`n`) exactly when the BLE link is up and that count differs from the latched `min_int`. -/
theorem flush_power_state_retry (env1 env2 : FlushEnv) (s0 s1 : PmState)
    (evs1 : List PmEvent) (R1 R2 : Nat)
    (hs0 : s0.curr_pm_state ≤ PM_CHARGING) (hR1 : R1 ≤ PM_CHARGING)
    (hR2 : R2 ≤ PM_CHARGING)
    (hcall1 : flush_power_state env1 s0 R1 = some (s1, evs1))
    (hpush : gap_requests evs1 ≠ []) (hrej : env1.gap_ok = false) :
    s1.min_int = s0.min_int
      ∧ ∃ r, flush_power_state env2 s1 R2 = some r
          ∧ (r.1.curr_pm_state = s1.curr_pm_state → gap_requests r.2 = [])
          ∧ (r.1.curr_pm_state ≠ s1.curr_pm_state →
              ∃ c, pm_cfg[r.1.curr_pm_state]? = some c
                ∧ (push_due env2 s1 c →
                    gap_requests r.2
                      = [PmEvent.gap_update_conn_params c.ble_int_cnt c.ble_int_cnt])
                ∧ (¬ push_due env2 s1 c → gap_requests r.2 = [])) := by
  obtain ⟨r1, hr1, h14⟩ := flush_power_state_some env1 s0 R1 hs0 hR1
  rw [hcall1] at hr1
  have he : r1 = (s1, evs1) := (Option.some.inj hr1).symm
  subst he
  have hs1 : s1.curr_pm_state ≤ 4 := h14
  have hne1 : s1.curr_pm_state ≠ s0.curr_pm_state := by
    intro hsame
    obtain ⟨e1, -⟩ := flush_power_state_same_level env1 s0 R1 (s1, evs1) hs0 hcall1 hsame
    have : evs1 = [] := e1
    rw [this] at hpush
    exact hpush rfl
  obtain ⟨-, -, -, -, c1, -, -, p1, p2⟩ :=
    flush_power_state_changed env1 s0 R1 (s1, evs1) hs0 hR1 hcall1 hne1
  have hmin : s1.min_int = s0.min_int := by
    by_cases hp : push_due env1 s0 c1
    · exact ((p1 hp).2.2 hrej).1
    · exact (p2 hp).2.1
  obtain ⟨r, hr, -⟩ := flush_power_state_some env2 s1 R2 hs1 hR2
  refine ⟨hmin, r, hr, ?_, ?_⟩
  · intro hsame
    obtain ⟨e1, -⟩ := flush_power_state_same_level env2 s1 R2 r hs1 hr hsame
    rw [e1]
    rfl
  · intro hne
    obtain ⟨-, -, -, -, c, hc, -, q1, q2⟩ :=
      flush_power_state_changed env2 s1 R2 r hs1 hR2 hr hne
    exact ⟨c, hc, fun hp => (q1 hp).1, fun hp => (q2 hp).1⟩

theorem flush_power_state_retry_witness :
    ∃ s1 evs1, flush_power_state flush_env_rejected pm_state_idle PM_KB_TP_ACTIVE
        = some (s1, evs1)
      ∧ s1.min_int = pm_state_idle.min_int
      ∧ ∃ r, flush_power_state flush_env_again s1 PM_CHARGING = some r
          ∧ (r.1.curr_pm_state = s1.curr_pm_state → gap_requests r.2 = [])
          ∧ (r.1.curr_pm_state ≠ s1.curr_pm_state →
              ∃ c, pm_cfg[r.1.curr_pm_state]? = some c
                ∧ (push_due flush_env_again s1 c →
                    gap_requests r.2
                      = [PmEvent.gap_update_conn_params c.ble_int_cnt c.ble_int_cnt])
                ∧ (¬ push_due flush_env_again s1 c → gap_requests r.2 = [])) :=
  ⟨_, _, rfl,
    flush_power_state_retry flush_env_rejected flush_env_again pm_state_idle _ _
      PM_KB_TP_ACTIVE PM_CHARGING (by decide) (by decide) (by decide) rfl (by decide) rfl⟩

/-- C24, as first stated, fails: a push rejected on the change to `PM_KB_TP_ACTIVE` leaves
16 latched where that level is configured for 10, and the next call, a second request of
`PM_KB_TP_ACTIVE` with the lock taken and the BLE link still up, changes no level and makes
no call into the radio layer. -/
theorem flush_power_state_retry_skipped :
    flush_power_state flush_env_rejected pm_state_idle PM_KB_TP_ACTIVE
        = some ({ curr_pm_state := PM_KB_TP_ACTIVE, last_pm_timestamp := 5000000,
                  is_pm_increase_rapid := true, min_int := 16, max_int := 16,
                  light_sleep_enable := false },
                [PmEvent.gap_update_conn_params 10 10, PmEvent.pm_configure false])
      ∧ flush_power_state flush_env_again
          { curr_pm_state := PM_KB_TP_ACTIVE, last_pm_timestamp := 5000000,
            is_pm_increase_rapid := true, min_int := 16, max_int := 16,
            light_sleep_enable := false } PM_KB_TP_ACTIVE
        = some ({ curr_pm_state := PM_KB_TP_ACTIVE, last_pm_timestamp := 6000000,
                  is_pm_increase_rapid := false, min_int := 16, max_int := 16,
                  light_sleep_enable := false }, [])
      ∧ (pm_cfg[PM_KB_TP_ACTIVE]?).map (fun c => c.ble_int_cnt) = some 10
      ∧ flush_env_again.ble_connected = true := by
  decide

theorem leading_not_ready_le (ready : Nat → Bool) :
    ∀ (n k : Nat), leading_not_ready ready n k ≤ n := by
  intro n
  induction n with
  | zero => intro k; exact Nat.le_refl 0
  | succ n ih =>
    intro k
    unfold leading_not_ready
    split_ifs
    · exact Nat.zero_le _
    · exact Nat.succ_le_succ (ih (k + 1))

theorem not_ready_turns_succ (n : Nat) :
    not_ready_turns (n + 1)
      = UsbOp.hid_ready false :: UsbOp.task_delay 5 :: not_ready_turns n := rfl

theorem hid_wait_spec (ready : Nat → Bool) :
    ∀ (left i : Nat),
      hid_wait ready left i
        = (i + leading_not_ready ready left i,
            not_ready_turns (leading_not_ready ready left i)
              ++ (if leading_not_ready ready left i < left then [UsbOp.hid_ready true]
                  else [])) := by
  intro left
  induction left with
  | zero => intro i; rfl
  | succ left ih =>
    intro i
    unfold hid_wait leading_not_ready
    by_cases hr : ready i = true
    · rw [if_pos hr, if_pos hr, if_pos (Nat.succ_pos left)]
      rfl
    · rw [if_neg hr, if_neg hr]
      dsimp only
      rw [ih (i + 1), not_ready_turns_succ]
      have hlt : (leading_not_ready ready left (i + 1) + 1 < left + 1)
          ↔ (leading_not_ready ready left (i + 1) < left) := by omega
      simp only [hlt]
      have harith : i + 1 + leading_not_ready ready left (i + 1)
          = i + (leading_not_ready ready left (i + 1) + 1) := by omega
      rw [harith]
      rfl

theorem leading_not_ready_lt_iff (ready : Nat → Bool) :
    ∀ (n k : Nat),
      leading_not_ready ready n k < n ↔ ∃ j, j < n ∧ ready (k + j) = true := by
  intro n
  induction n with
  | zero =>
    intro k
    constructor
    · intro h
      exact absurd h (Nat.lt_irrefl 0)
    · rintro ⟨j, hj, -⟩
      exact absurd hj (Nat.not_lt_zero _)
  | succ n ih =>
    intro k
    unfold leading_not_ready
    by_cases hr : ready k = true
    · rw [if_pos hr]
      exact ⟨fun _ => ⟨0, Nat.succ_pos n, hr⟩, fun _ => Nat.succ_pos n⟩
    · rw [if_neg hr]
      constructor
      · intro h
        obtain ⟨j, hj, hrj⟩ := (ih (k + 1)).mp (Nat.lt_of_succ_lt_succ h)
        refine ⟨j + 1, Nat.succ_lt_succ hj, ?_⟩
        have hidx : k + (j + 1) = k + 1 + j := by omega
        rw [hidx]
        exact hrj
      · rintro ⟨j, hj, hrj⟩
        cases j with
        | zero => exact absurd hrj hr
        | succ j =>
          apply Nat.succ_lt_succ
          apply (ih (k + 1)).mpr
          refine ⟨j, Nat.lt_of_succ_lt_succ hj, ?_⟩
          have hidx : k + 1 + j = k + (j + 1) := by omega
          rw [hidx]
          exact hrj

theorem not_ready_turns_counts (n : Nat) :
    ((not_ready_turns n).filter UsbOp.is_ready_check).length = n
      ∧ ((not_ready_turns n).filter UsbOp.is_delay).length = n
      ∧ (not_ready_turns n).filter UsbOp.is_submission = [] := by
  induction n with
  | zero => exact ⟨rfl, rfl, rfl⟩
  | succ n ih =>
    obtain ⟨h1, h2, h3⟩ := ih
    rw [not_ready_turns_succ]
    simp only [List.filter_cons, UsbOp.is_ready_check, UsbOp.is_delay, UsbOp.is_submission,
      if_true, Bool.false_eq_true, if_false, List.length_cons, h1, h2, h3]
    exact ⟨trivial, trivial, trivial⟩

theorem retry_spec_counts (env : UsbEnv) (submit : UsbOp)
    (hsub : submit.is_submission = true) :
    ((retry_spec env submit).filter UsbOp.is_ready_check).length ≤ 5
      ∧ (env.suspended = true → retry_spec env submit = [UsbOp.remote_wakeup])
      ∧ (env.suspended = false → (∃ k, k < 5 ∧ env.ready k = true) →
          (retry_spec env submit).filter UsbOp.is_submission = [submit]
            ∧ ((retry_spec env submit).filter UsbOp.is_delay).length
                = leading_not_ready env.ready 5 0
            ∧ ((retry_spec env submit).filter UsbOp.is_ready_check).length
                = leading_not_ready env.ready 5 0 + 1)
      ∧ (env.suspended = false → (∀ k, k < 5 → env.ready k = false) →
          (retry_spec env submit).filter UsbOp.is_submission = []
            ∧ ((retry_spec env submit).filter UsbOp.is_delay).length = 5
            ∧ ((retry_spec env submit).filter UsbOp.is_ready_check).length = 5) := by
  have hchk : submit.is_ready_check = false := by
    cases submit <;> simp [UsbOp.is_submission] at hsub <;> rfl
  have hdel : submit.is_delay = false := by
    cases submit <;> simp [UsbOp.is_submission] at hsub <;> rfl
  have hle := leading_not_ready_le env.ready 5 0
  have hiff := leading_not_ready_lt_iff env.ready 5 0
  simp only [Nat.zero_add] at hiff
  obtain ⟨c1, c2, c3⟩ := not_ready_turns_counts (leading_not_ready env.ready 5 0)
  obtain ⟨d1, d2, d3⟩ := not_ready_turns_counts 5
  have r1 : UsbOp.is_ready_check (UsbOp.hid_ready true) = true := rfl
  have r2 : UsbOp.is_delay (UsbOp.hid_ready true) = false := rfl
  have r3 : UsbOp.is_submission (UsbOp.hid_ready true) = false := rfl
  unfold retry_spec
  by_cases hsus : env.suspended = true
  · rw [if_pos hsus]
    refine ⟨by decide, fun _ => rfl, ?_, ?_⟩
    · intro h
      rw [hsus] at h
      exact absurd h (by decide)
    · intro h
      rw [hsus] at h
      exact absurd h (by decide)
  · rw [if_neg hsus]
    by_cases hlt : leading_not_ready env.ready 5 0 < 5
    · rw [if_pos hlt]
      have e1 : ((not_ready_turns (leading_not_ready env.ready 5 0)
            ++ [UsbOp.hid_ready true, submit]).filter UsbOp.is_ready_check).length
          = leading_not_ready env.ready 5 0 + 1 := by
        simp only [List.filter_append, List.filter_cons, r1, hchk, if_true,
          Bool.false_eq_true, if_false, List.filter_nil, List.length_append, c1,
          List.length_singleton]
      have e2 : ((not_ready_turns (leading_not_ready env.ready 5 0)
            ++ [UsbOp.hid_ready true, submit]).filter UsbOp.is_delay).length
          = leading_not_ready env.ready 5 0 := by
        simp only [List.filter_append, List.filter_cons, r2, hdel, Bool.false_eq_true,
          if_false, List.filter_nil, List.length_append, c2, List.length_nil, Nat.add_zero]
      have e3 : (not_ready_turns (leading_not_ready env.ready 5 0)
            ++ [UsbOp.hid_ready true, submit]).filter UsbOp.is_submission = [submit] := by
        simp only [List.filter_append, List.filter_cons, r3, hsub, if_true,
          Bool.false_eq_true, if_false, List.filter_nil, c3, List.nil_append]
      refine ⟨by rw [e1]; omega, fun h => absurd h hsus, fun _ _ => ⟨e3, e2, e1⟩, ?_⟩
      intro _ hall
      exfalso
      obtain ⟨k, hk, hrk⟩ := hiff.mp hlt
      rw [hall k hk] at hrk
      exact Bool.false_ne_true hrk
    · rw [if_neg hlt]
      refine ⟨by rw [d1], fun h => absurd h hsus, ?_, fun _ _ => ⟨d3, d2, d1⟩⟩
      intro _ hex
      exact absurd (hiff.mpr hex) hlt

/-- C22. USB sink bounded retry: each of `tinyusb_hid_mouse_report`,
`tinyusb_hid_keyboard_report` and `tinyusb_hid_consumer_report` returns, for every sequence
of answers of `tud_hid_ready`, with the calls of the retry rule: a remote wakeup and nothing
else when the device is suspended; otherwise one delay per leading not-ready answer and,
when one of the first five answers is ready, exactly one submission after it, and no
submission after exactly five delays when all five are not-ready. The readiness check is
made at most five times. -/
theorem tinyusb_hid_report_retry (env : UsbEnv) :
    (∀ (buttons : Nat) (x y vertical horizontal : Int),
        tinyusb_hid_mouse_report env buttons x y vertical horizontal
          = retry_spec env (UsbOp.hid_mouse_report buttons x y vertical horizontal))
      ∧ (∀ (keycode : List Nat),
          tinyusb_hid_keyboard_report env keycode
            = retry_spec env (UsbOp.hid_keyboard_report (keycode.getD 0 0) (keycode.drop 2)))
      ∧ (∀ (keycode : Nat),
          tinyusb_hid_consumer_report env keycode
            = retry_spec env (UsbOp.hid_consumer_report (keycode % 65536)))
      ∧ (∀ (submit : UsbOp), submit.is_submission = true →
          ((retry_spec env submit).filter UsbOp.is_ready_check).length ≤ 5
            ∧ (env.suspended = true → retry_spec env submit = [UsbOp.remote_wakeup])
            ∧ (env.suspended = false → (∃ k, k < 5 ∧ env.ready k = true) →
                (retry_spec env submit).filter UsbOp.is_submission = [submit]
                  ∧ ((retry_spec env submit).filter UsbOp.is_delay).length
                      = leading_not_ready env.ready 5 0
                  ∧ ((retry_spec env submit).filter UsbOp.is_ready_check).length
                      = leading_not_ready env.ready 5 0 + 1)
            ∧ (env.suspended = false → (∀ k, k < 5 → env.ready k = false) →
                (retry_spec env submit).filter UsbOp.is_submission = []
                  ∧ ((retry_spec env submit).filter UsbOp.is_delay).length = 5
                  ∧ ((retry_spec env submit).filter UsbOp.is_ready_check).length = 5)) := by
  have hw := hid_wait_spec env.ready 5 0
  have hle := leading_not_ready_le env.ready 5 0
  have key : ∀ (submit : UsbOp),
      (if env.suspended = true then [UsbOp.remote_wakeup]
        else if 5 ≤ (hid_wait env.ready 5 0).1 then (hid_wait env.ready 5 0).2
        else (hid_wait env.ready 5 0).2 ++ [submit]) = retry_spec env submit := by
    intro submit
    unfold retry_spec
    rw [hw]
    simp only [Nat.zero_add]
    by_cases hs : env.suspended = true
    · rw [if_pos hs, if_pos hs]
    · rw [if_neg hs, if_neg hs]
      by_cases hlt : leading_not_ready env.ready 5 0 < 5
      · rw [if_neg (by omega), if_pos hlt, if_pos hlt, List.append_assoc]
        rfl
      · have h5 : leading_not_ready env.ready 5 0 = 5 := by omega
        rw [if_pos (by omega), if_neg hlt, if_neg hlt, List.append_nil, h5]
  refine ⟨?_, ?_, ?_, fun submit hsub => retry_spec_counts env submit hsub⟩
  · intro buttons x y vertical horizontal
    exact key _
  · intro keycode
    exact key _
  · intro keycode
    exact key _

theorem tinyusb_hid_report_retry_witness :
    tinyusb_hid_consumer_report { suspended := false, ready := fun k => decide (2 ≤ k) } 0xe9
      = [UsbOp.hid_ready false, UsbOp.task_delay 5, UsbOp.hid_ready false,
         UsbOp.task_delay 5, UsbOp.hid_ready true, UsbOp.hid_consumer_report 0xe9] :=
  ((tinyusb_hid_report_retry { suspended := false, ready := fun k => decide (2 ≤ k) }).2.2.1
    0xe9).trans (by decide)

/-- C23. BLE sink gating, as the code has it: with `is_ble_connected` false,
`esp_hidd_send_keyboard_value` and `esp_hidd_send_mouse_value` return without a call of
`hid_dev_send_report`, while `esp_hidd_send_consumer_value`, which does not test the flag,
submits its report. -/
theorem esp_hidd_send_gating :
    (∀ (buffer : List Nat), esp_hidd_send_keyboard_value false buffer = [])
      ∧ (∀ (buttons : Nat) (dx dy vertical horizontal : Int),
          esp_hidd_send_mouse_value false buttons dx dy vertical horizontal = [])
      ∧ (∀ (key : Nat),
          esp_hidd_send_consumer_value false key
            = [BleOp.hid_dev_send_report BleReportId.HID_RPT_ID_CC_IN
                [((key % 65536 : Nat) : Int)]]) :=
  ⟨fun _ => rfl, fun _ _ _ _ _ => rfl, fun _ => rfl⟩

/-- C27. Exact range of the speed scaling: for an `int8_t` axis value `d`, the value that
the scaling step stores equals the exact integer `d + 2*(d-1)` (for `d > 1`), `d + 2*(d+1)`
(for `d < -1`) or `d` (otherwise) if and only if `-43 ≤ d ≤ 43`; on that range it has the
sign of `d` and a magnitude not below `|d|`; and `d = 44` gives `-126`. -/
theorem scale_trackpoint_speed_range (d : Int) (h1 : -128 ≤ d) (h2 : d ≤ 127) :
    (scale_trackpoint_speed d = scaling_spec d ↔ (-43 ≤ d ∧ d ≤ 43))
      ∧ (-43 ≤ d → d ≤ 43 →
          Int.sign (scale_trackpoint_speed d) = Int.sign d
            ∧ |d| ≤ |scale_trackpoint_speed d|)
      ∧ scale_trackpoint_speed 44 = -126 := by
  refine ⟨?_, ?_, by decide⟩
  · unfold scale_trackpoint_speed scaling_spec MOUSE_SCALE_MIN wrap_int8
    split_ifs <;> omega
  · intro h3 h4
    rw [scale_trackpoint_speed_exact d h3 h4]
    unfold scaling_spec
    rcases lt_trichotomy d 0 with hneg | hzero | hpos
    · by_cases hsmall : d.natAbs ≤ 1
      · rw [if_pos hsmall]
        exact ⟨rfl, le_refl _⟩
      · have hn1 : ¬ 1 < d := by omega
        have hres : d + (d + 1) * 2 < 0 := by omega
        rw [if_neg hsmall, if_neg hn1, Int.sign_eq_neg_one_of_neg hres,
          Int.sign_eq_neg_one_of_neg hneg, abs_of_neg hres, abs_of_neg hneg]
        exact ⟨rfl, by omega⟩
    · subst hzero
      exact ⟨rfl, le_refl _⟩
    · by_cases hsmall : d.natAbs ≤ 1
      · rw [if_pos hsmall]
        exact ⟨rfl, le_refl _⟩
      · have hn1 : 1 < d := by omega
        have hres : 0 < d + (d - 1) * 2 := by omega
        rw [if_neg hsmall, if_pos hn1, Int.sign_eq_one_of_pos hres,
          Int.sign_eq_one_of_pos hpos, abs_of_pos hres, abs_of_pos hpos]
        exact ⟨rfl, by omega⟩

theorem scale_trackpoint_speed_range_witness :
    (scale_trackpoint_speed (-44) = scaling_spec (-44)
        ↔ (-43 ≤ (-44 : Int) ∧ (-44 : Int) ≤ 43))
      ∧ scale_trackpoint_speed (-44) = 126 ∧ scaling_spec (-44) = -130 :=
  ⟨(scale_trackpoint_speed_range (-44) (by decide) (by decide)).1, by decide, by decide⟩

end Kb
